import Mathlib

/-!
Chrome touchpad remote: a verification development.

A shallow embedding of `desktop-app/server/index.js`: the connection
registry `clients`, the pairing store `sessionCodes`, the handlers installed
by `wss.on('connection')` (`message`, `pong`, `close`, `error`), the
heartbeat sweep and the static file handler; and of the functions of the
extension (`popup.js`, `background.js`, `content.js`) that generate and check
pairing codes, move the virtual cursor, type into a field and switch tabs.
JavaScript `Map`s are association lists in insertion order, a WebSocket is its
identity (a natural number), and what a handler does to the outside world is
the list of calls it makes on sockets; the frame that a `send` writes is
`JSON.stringify` of its argument.  Numbers of the extension are doubles: a
finite one is the rational it denotes and arithmetic rounds to the nearest
double.
-/

namespace TouchpadRelay

/-! ## JavaScript values -/

/-- A value read from a property of a decoded message, or stored in the
registry or the pairing store.  `JSON.parse` yields no `NaN`, and `+0`/`-0`
are identified by `===` and by `Map` keys, so a finite number is a rational;
an object or array is known by its reference only. -/
inductive JsValue where
  | undefined
  | null
  | bool (b : Bool)
  | number (x : Rat)
  | infinite (negative : Bool)
  | string (s : String)
  | object (ref : Nat)
  deriving DecidableEq

/-- JavaScript truthiness, as tested by `if (v)` and `v && ...`. -/
def JsValue.truthy : JsValue → Bool
  | .undefined => false
  | .null => false
  | .bool b => b
  | .number x => decide (x ≠ 0)
  | .infinite _ => true
  | .string s => decide (s ≠ "")
  | .object _ => true

/-- The own properties of a decoded message that is not `null`.  A decoded
number, string, boolean or array has none of the properties the handler reads
(`type`, `sessionId`, `code`, `clientType`, `timestamp`) and behaves as a
message without them. -/
structure Message where
  fields : List (String × JsValue)
  deriving DecidableEq

/-- Property read `message.name`: the value, or `undefined` when absent. -/
def Message.get (m : Message) (name : String) : JsValue :=
  match m.fields.lookup name with
  | some v => v
  | none => .undefined

/-- The outcome of `JSON.parse(data)` on an inbound frame: it throws, or it
yields `null` (every property read on it throws), or it yields a value whose
properties can be read. -/
inductive Parsed where
  | syntaxError
  | null
  | value (m : Message)
  deriving DecidableEq

/-! ## Insertion-ordered maps -/

/-- The method `Map.prototype.get`. -/
def mapGet {κ ν : Type} [DecidableEq κ] : List (κ × ν) → κ → Option ν
  | [], _ => none
  | (k, v) :: rest, key => if k = key then some v else mapGet rest key

/-- The method `Map.prototype.set`: an existing key keeps its position, a new key goes
to the end. -/
def mapSet {κ ν : Type} [DecidableEq κ] : List (κ × ν) → κ → ν → List (κ × ν)
  | [], key, val => [(key, val)]
  | (k, v) :: rest, key, val =>
    if k = key then (k, val) :: rest else (k, v) :: mapSet rest key val

/-- The method `Map.prototype.delete`. -/
def mapDelete {κ ν : Type} [DecidableEq κ] (m : List (κ × ν)) (key : κ) : List (κ × ν) :=
  m.filter (fun e => decide (e.1 ≠ key))

/-! ## Relay state -/

/-- The record kept per socket in `clients`. -/
structure ClientInfo where
  type : JsValue
  alive : Bool
  authenticated : Bool
  sessionId : JsValue
  deriving DecidableEq

/-- The state of the relay process: the registry `clients`, the pairing store
`sessionCodes`, and `wss.clients`, the set of sockets tracked by the WebSocket
server (`clientTracking: true`). -/
structure Relay where
  clients : List (Nat × ClientInfo)
  sessionCodes : List (JsValue × JsValue)
  wssClients : List Nat
  deriving DecidableEq

/-- The relay before any connection. -/
def Relay.empty : Relay := ⟨[], [], []⟩

/-- The argument of `JSON.stringify` in a call `ws.send(JSON.stringify(...))`;
the frame written for it is given by `jsonStringify`. -/
inductive Payload where
  | pairingCodeSet
  | registered
  | authResult (success : Bool)
  | error
  | pong (timestamp : JsValue)
  | forwarded (message : Message)
  deriving DecidableEq

/-- A call made on a socket; `send ws payload` is
`ws.send(JSON.stringify(payload))`. -/
inductive Effect where
  | send (ws : Nat) (payload : Payload)
  | ping (ws : Nat)
  | terminate (ws : Nat)
  deriving DecidableEq

/-! ## Frames written by `JSON.stringify` -/

/-- The value of a member of a JSON object as `JSON.stringify` writes it.
`nested ref` stands for the text written for the object or array with that
reference, whose own members are written by the same rules; it is not modelled
further. -/
inductive JsonValue where
  | null
  | bool (b : Bool)
  | number (x : Rat)
  | string (s : String)
  | nested (ref : Nat)
  deriving DecidableEq

/-- What `JSON.stringify` writes for the value of a property: nothing for
`undefined` (the property is left out), `null` for `Infinity` and `-Infinity`,
the value itself otherwise (`-0` is written `0`, the same rational). -/
def JsValue.toJSON : JsValue → Option JsonValue
  | .undefined => none
  | .null => some .null
  | .bool b => some (.bool b)
  | .number x => some (.number x)
  | .infinite _ => some .null
  | .string s => some (.string s)
  | .object ref => some (.nested ref)

/-- The members that `JSON.stringify` writes for the properties of an object.
A property name counts once, with the value that a property read returns (the
first one of the list). -/
def stringifyProperties : List (String × JsValue) → List (String × JsonValue)
  | [] => []
  | (name, value) :: rest =>
    let others := (stringifyProperties rest).filter (fun e => decide (e.1 ≠ name))
    match value.toJSON with
    | some written => (name, written) :: others
    | none => others

/-- The frame `JSON.stringify(payload)` passed to `ws.send`: the members of the
JSON object it holds. -/
def jsonStringify : Payload → List (String × JsonValue)
  | .pairingCodeSet => [("type", .string "pairingCodeSet"), ("success", .bool true)]
  | .registered => [("type", .string "registered"), ("success", .bool true)]
  | .authResult true => [("type", .string "authResult"), ("success", .bool true)]
  | .authResult false =>
    [("type", .string "authResult"), ("success", .bool false),
     ("error", .string "Invalid pairing code")]
  | .error =>
    [("type", .string "error"),
     ("message", .string "Not authenticated. Please enter pairing code.")]
  | .pong timestamp =>
    stringifyProperties [("type", .string "pong"), ("timestamp", timestamp)]
  | .forwarded message => stringifyProperties message.fields

/-! ## Handlers -/

/-- The lookup loop of the `auth` branch: the key of the first entry of
`sessionCodes` whose code `===` the presented one, `null` when there is none. -/
def findSessionByCode : List (JsValue × JsValue) → JsValue → JsValue
  | [], _ => .null
  | (sessionId, code) :: rest, presented =>
    if code = presented then sessionId else findSessionByCode rest presented

/-- The `clients.forEach` of the forwarding branches: `client.send(data)` for
every entry of the given type that is authenticated, in the sender's session
and has `readyState === 1`. -/
def broadcast (readyState : Nat → Nat) (clients : List (Nat × ClientInfo))
    (type : JsValue) (sessionId : JsValue) (data : Payload) : List Effect :=
  (clients.filter (fun e =>
      decide (e.2.type = type) && e.2.authenticated &&
      decide (e.2.sessionId = sessionId) && decide (readyState e.1 = 1))).map
    (fun e => Effect.send e.1 data)

/-- The part of the `message` handler after the three branches that return:
the authentication gate, the forwarding branches and `ping`. -/
def route (readyState : Nat → Nat) (clients : List (Nat × ClientInfo)) (ws : Nat)
    (info : ClientInfo) (m : Message) : List Effect :=
  if !info.authenticated && decide (m.get "type" ≠ .string "ping") then
    [Effect.send ws Payload.error]
  else
    (if m.get "type" = .string "touch" then
        broadcast readyState clients (.string "extension") info.sessionId (.forwarded m)
      else []) ++
    (if m.get "type" = .string "browser" then
        broadcast readyState clients (.string "extension") info.sessionId (.forwarded m)
      else []) ++
    (if m.get "type" = .string "openKeyboard" ∨ m.get "type" = .string "closeKeyboard" then
        broadcast readyState clients (.string "mobile") info.sessionId (.forwarded m)
      else []) ++
    (if m.get "type" = .string "ping" then
        [Effect.send ws (Payload.pong (m.get "timestamp"))]
      else [])

/-- The handler `ws.on('message')`.  A `TypeError` raised inside the `try`
(a property read on a `null` message or on an `undefined` `info`) ends the
handler in the `catch`, keeping what was written before it. -/
def onMessage (readyState : Nat → Nat) (st : Relay) (ws : Nat) (data : Parsed) :
    Relay × List Effect :=
  match data with
  | .syntaxError => (st, [])
  | .null =>
    match mapGet st.clients ws with
    | some info => ({ st with clients := mapSet st.clients ws { info with alive := true } }, [])
    | none => (st, [])
  | .value m =>
    match mapGet st.clients ws with
    | none =>
      if m.get "type" = .string "setPairingCode" then
        ({ st with sessionCodes := mapSet st.sessionCodes (m.get "sessionId") (m.get "code") }, [])
      else if m.get "type" = .string "register" then
        (st, [])
      else if m.get "type" = .string "auth" then
        if (findSessionByCode st.sessionCodes (m.get "code")).truthy then
          (st, [])
        else
          (st, [Effect.send ws (Payload.authResult false)])
      else
        (st, [])
    | some info0 =>
      let info := { info0 with alive := true }
      if m.get "type" = .string "setPairingCode" then
        ({ st with
            sessionCodes := mapSet st.sessionCodes (m.get "sessionId") (m.get "code")
            clients := mapSet st.clients ws
              { info with sessionId := m.get "sessionId", authenticated := true } },
          [Effect.send ws Payload.pairingCodeSet])
      else if m.get "type" = .string "register" then
        ({ st with clients := mapSet st.clients ws { info with type := m.get "clientType" } },
          [Effect.send ws Payload.registered])
      else if m.get "type" = .string "auth" then
        let validSession := findSessionByCode st.sessionCodes (m.get "code")
        if validSession.truthy then
          ({ st with
              clients := mapSet st.clients ws
                { info with authenticated := true, sessionId := validSession } },
            [Effect.send ws (Payload.authResult true)])
        else
          ({ st with clients := mapSet st.clients ws info },
            [Effect.send ws (Payload.authResult false)])
      else
        ({ st with clients := mapSet st.clients ws info },
          route readyState (mapSet st.clients ws info) ws info m)

/-- The handler `ws.on('pong')`. -/
def onPong (st : Relay) (ws : Nat) : Relay :=
  match mapGet st.clients ws with
  | some info => { st with clients := mapSet st.clients ws { info with alive := true } }
  | none => st

/-- The handler `ws.on('close')`, after the server has dropped the socket
from `wss.clients`. -/
def onClose (st : Relay) (ws : Nat) : Relay :=
  let codes :=
    match mapGet st.clients ws with
    | some info =>
      if info.sessionId.truthy && decide (info.type = .string "extension") then
        mapDelete st.sessionCodes info.sessionId
      else st.sessionCodes
    | none => st.sessionCodes
  { clients := mapDelete st.clients ws
    sessionCodes := codes
    wssClients := st.wssClients.filter (fun w => decide (w ≠ ws)) }

/-- The handler `ws.on('error')`. -/
def onError (st : Relay) (ws : Nat) : Relay :=
  { st with clients := mapDelete st.clients ws }

/-- The handler `wss.on('connection')`, after the server has added the new
socket to `wss.clients`. -/
def onConnection (st : Relay) (ws : Nat) : Relay :=
  { st with
    wssClients := if ws ∈ st.wssClients then st.wssClients else st.wssClients ++ [ws]
    clients := mapSet st.clients ws
      { type := .string "unknown", alive := true, authenticated := false, sessionId := .null } }

/-- One visit of the heartbeat callback, `wss.clients.forEach((ws) => ...)`. -/
def heartbeatVisit (readyState : Nat → Nat) (acc : Relay × List Effect) (ws : Nat) :
    Relay × List Effect :=
  let st := acc.1
  match mapGet st.clients ws with
  | some info =>
    if info.alive = false then
      ({ st with
          sessionCodes :=
            if info.sessionId.truthy then mapDelete st.sessionCodes info.sessionId
            else st.sessionCodes
          clients := mapDelete st.clients ws },
        acc.2 ++ [Effect.terminate ws])
    else
      ({ st with clients := mapSet st.clients ws { info with alive := false } },
        acc.2 ++ (if readyState ws = 1 then [Effect.ping ws] else []))
  | none => (st, acc.2 ++ (if readyState ws = 1 then [Effect.ping ws] else []))

/-- The sweep run by `heartbeatInterval` every 15 seconds. -/
def heartbeatInterval (readyState : Nat → Nat) (st : Relay) : Relay × List Effect :=
  st.wssClients.foldl (heartbeatVisit readyState) (st, [])

/-! ## Events and reachable states -/

/-- What can happen to the relay. -/
inductive Event where
  | connection (ws : Nat)
  | message (readyState : Nat → Nat) (ws : Nat) (data : Parsed)
  | pong (ws : Nat)
  | close (ws : Nat)
  | error (ws : Nat)
  | heartbeat (readyState : Nat → Nat)

/-- The state after an event. -/
def step (st : Relay) : Event → Relay
  | .connection ws => onConnection st ws
  | .message readyState ws data => (onMessage readyState st ws data).1
  | .pong ws => onPong st ws
  | .close ws => onClose st ws
  | .error ws => onError st ws
  | .heartbeat readyState => (heartbeatInterval readyState st).1

/-- An event can occur: a new socket is not yet tracked, and the events of a
socket occur between its connection and its close. -/
def Event.enabled (st : Relay) : Event → Bool
  | .connection ws => decide (ws ∉ st.wssClients)
  | .message _ ws _ => decide (ws ∈ st.wssClients)
  | .pong ws => decide (ws ∈ st.wssClients)
  | .close ws => decide (ws ∈ st.wssClients)
  | .error ws => decide (ws ∈ st.wssClients)
  | .heartbeat _ => true

/-- The state after a sequence of events. -/
def run (st : Relay) (events : List Event) : Relay :=
  events.foldl step st

/-- Every event of the sequence can occur in the state it meets. -/
def enabledAll : Relay → List Event → Bool
  | _, [] => true
  | st, ev :: rest => ev.enabled st && enabledAll (step st ev) rest

/-- The states the relay can be in. -/
inductive Reachable : Relay → Prop where
  | empty : Reachable Relay.empty
  | step {st : Relay} (ev : Event) : Reachable st → ev.enabled st = true → Reachable (step st ev)

/-- The keys of the two `Map`s are pairwise distinct. -/
def Relay.WF (st : Relay) : Prop :=
  (st.clients.map Prod.fst).Nodup ∧ (st.sessionCodes.map Prod.fst).Nodup

/-- Every connection authenticated in `st1` was already authenticated in `st`,
with the same session id. -/
def AuthFrom (st st1 : Relay) : Prop :=
  ∀ ws i1, mapGet st1.clients ws = some i1 → i1.authenticated = true →
    ∃ i, mapGet st.clients ws = some i ∧ i.authenticated = true ∧ i.sessionId = i1.sessionId

/-- A `setPairingCode` message carries a `sessionId` that is neither `null`
nor `undefined`; every other event passes. -/
def Event.hasSessionId : Event → Bool
  | .message _ _ (.value m) =>
    if m.get "type" = .string "setPairingCode" then
      decide (m.get "sessionId" ≠ .null) && decide (m.get "sessionId" ≠ .undefined)
    else true
  | _ => true

/-- The sockets tracked by the server are pairwise distinct and every
registered connection is one of them. -/
def Relay.Tracked (st : Relay) : Prop :=
  st.wssClients.Nodup ∧ ∀ k ∈ st.clients.map Prod.fst, k ∈ st.wssClients

/-- What a heartbeat sweep does to the registry entry of a tracked socket: an
entry whose `alive` is false is evicted, any other is kept with `alive` set to
false. -/
def sweepEntry : Option ClientInfo → Option ClientInfo
  | some info => if info.alive = false then none else some { info with alive := false }
  | none => none

/-- The event is a `pong` of socket `c`, or a frame of `c` that `JSON.parse`
decodes: the events that write `alive = true` on the entry of `c`. -/
def Event.revives (c : Nat) : Event → Bool
  | .pong ws => decide (ws = c)
  | .message _ ws data => decide (ws = c) && decide (data ≠ .syntaxError)
  | _ => false

/-- The event can occur between two consecutive sweeps in the life of socket
`c`: it is not a sweep, and not the connection of `c` (a socket connects
once). -/
def Event.betweenSweeps (c : Nat) : Event → Bool
  | .heartbeat _ => false
  | .connection ws => decide (ws ≠ c)
  | _ => true

/-- The event is a `pong` of socket `c`. -/
def Event.isPongOf (c : Nat) : Event → Bool
  | .pong ws => decide (ws = c)
  | _ => false

/-! ## Concrete messages and scenarios -/

/-- Every transport reports `readyState === 1` (OPEN). -/
def allOpen : Nat → Nat := fun _ => 1

/-- The frame `setPairingCode` as the extension sends it. -/
def setPairingCodeMsg (sessionId code : JsValue) : Message :=
  ⟨[("type", .string "setPairingCode"), ("code", code), ("sessionId", sessionId)]⟩

/-- The frame `register`. -/
def registerMsg (clientType : String) : Message :=
  ⟨[("type", .string "register"), ("clientType", .string clientType)]⟩

/-- The frame `auth` as the mobile page sends it. -/
def authMsg (code : JsValue) : Message :=
  ⟨[("type", .string "auth"), ("code", code)]⟩

/-- A pointer movement sent by the mobile page. -/
def touchMoveMsg : Message :=
  ⟨[("type", .string "touch"), ("action", .string "move"), ("dx", .number 5), ("dy", .number 3)]⟩

/-- The decoded frame `{"type":"touch","action":"move","dx":1e999,"dy":3}`: the
number `1e999` is beyond the range of a double and `JSON.parse` yields
`Infinity` for it. -/
def touchOverflowMsg : Message :=
  ⟨[("type", .string "touch"), ("action", .string "move"), ("dx", .infinite false),
    ("dy", .number 3)]⟩

/-- The decoded frame `{"type":"ping","timestamp":1e999}`. -/
def pingOverflowMsg : Message :=
  ⟨[("type", .string "ping"), ("timestamp", .infinite false)]⟩

/-- Two sockets have connected and nothing else has happened. -/
def twoSockets : Relay :=
  run Relay.empty [.connection 0, .connection 1]

/-- The events leading to `sharedCodeSetup`. -/
def sharedCodeEvents : List Event :=
  [.connection 0,
   .message allOpen 0 (.value (registerMsg "extension")),
   .message allOpen 0 (.value (setPairingCodeMsg (.string "s1") (.string "482913"))),
   .connection 1,
   .message allOpen 1 (.value (registerMsg "extension")),
   .connection 2,
   .message allOpen 2 (.value (registerMsg "mobile"))]

/-- Controller 0 has paired session `s1` with code `482913`; controller 1 and
the remote 2 are registered and not yet authenticated. -/
def sharedCodeSetup : Relay :=
  run Relay.empty sharedCodeEvents

/-- The events leading to `pairedSetup`. -/
def pairedEvents : List Event :=
  sharedCodeEvents ++
    [.message allOpen 2 (.value (authMsg (.string "482913"))),
     .connection 3,
     .message allOpen 3 (.value (registerMsg "extension")),
     .message allOpen 3 (.value (setPairingCodeMsg (.string "s1") (.string "482913")))]

/-- Session `s1` has two controllers (0 and 3) and the remote 2; controller 1
is registered and not authenticated. -/
def pairedSetup : Relay :=
  run Relay.empty pairedEvents

/-- The events leading to `twoSessionsOneCode`. -/
def twoSessionsOneCodeEvents : List Event :=
  sharedCodeEvents ++
    [.message allOpen 1 (.value (setPairingCodeMsg (.string "s2") (.string "482913")))]

/-- Controller 0 owns session `s1` and controller 1 owns session `s2`, both
with code `482913`; the remote 2 is not authenticated. -/
def twoSessionsOneCode : Relay :=
  run Relay.empty twoSessionsOneCodeEvents

/-- A `setPairingCode` frame without a `sessionId`. -/
def setPairingCodeNoSession : Message :=
  ⟨[("type", .string "setPairingCode"), ("code", .string "482913")]⟩

/-- A connection followed by a `setPairingCode` without `sessionId`. -/
def noSessionEvents : List Event :=
  [.connection 0, .message allOpen 0 (.value setPairingCodeNoSession)]

/-- The focus notification sent by the extension. -/
def openKeyboardMsg : Message :=
  ⟨[("type", .string "openKeyboard")]⟩

/-- The latency probe sent by a client. -/
def pingMsg : Message :=
  ⟨[("type", .string "ping"), ("timestamp", .number 1700000000000)]⟩

/-- The events leading to `remoteSilent`. -/
def remoteSilentEvents : List Event :=
  sharedCodeEvents ++
    [.message allOpen 2 (.value (authMsg (.string "482913"))),
     .heartbeat allOpen,
     .pong 0,
     .pong 1]

/-- The remote 2 is authenticated into session `s1` and has not answered the
last probe; the controllers 0 and 1 have. -/
def remoteSilent : Relay :=
  run Relay.empty remoteSilentEvents

/-- The events leading to `erroredController`. -/
def erroredControllerEvents : List Event :=
  sharedCodeEvents ++ [.error 0]

/-- The controller 0 of `sharedCodeSetup` has had a transport error: it is out
of the registry and its socket is still tracked by the server. -/
def erroredController : Relay :=
  run Relay.empty erroredControllerEvents

/-- The events leading to `twoSessionsOneController`. -/
def twoSessionsOneControllerEvents : List Event :=
  [.connection 0,
   .message allOpen 0 (.value (registerMsg "extension")),
   .message allOpen 0 (.value (setPairingCodeMsg (.string "s1") (.string "111111"))),
   .message allOpen 0 (.value (setPairingCodeMsg (.string "s2") (.string "222222")))]

/-- Controller 0 has set a code for session `s1` and then for session `s2`. -/
def twoSessionsOneController : Relay :=
  run Relay.empty twoSessionsOneControllerEvents

/-! ## The extension: tab switching (`background.js`)

JavaScript numbers that are integers are `Int`; `%` is the truncating
remainder. -/

/-- The index activated by the `nexttab` command. -/
def nextIndex (currentIndex length : Int) : Int :=
  (currentIndex + 1).tmod length

/-- The index activated by the `prevtab` command. -/
def prevIndex (currIndex length : Int) : Int :=
  (currIndex - 1 + length).tmod length

/-! ## The content script: typing into a field (`content.js`)

A JavaScript string is the list of its UTF-16 code units. -/

/-- A JavaScript string, one natural number per UTF-16 code unit. -/
abbrev JsString := List Nat

/-- The part of an `INPUT` or `TEXTAREA` element that `simulateTyping` reads
and writes; a selection bound is `none` when the property is `null`. -/
structure InputElement where
  value : JsString
  selectionStart : Option Nat
  selectionEnd : Option Nat
  deriving DecidableEq

/-- The expression `position || fallback` on a selection bound: `null` and `0`
are falsy. -/
def orLength (position : Option Nat) (fallback : Nat) : Nat :=
  match position with
  | some 0 => fallback
  | some p => p
  | none => fallback

/-- The function `simulateTyping` on a focused `INPUT` or `TEXTAREA`. -/
def simulateTyping (inputElement : InputElement) (text : JsString) : InputElement :=
  let start := orLength inputElement.selectionStart inputElement.value.length
  let end_ := orLength inputElement.selectionEnd inputElement.value.length
  let currentValue := inputElement.value
  let newValue := currentValue.take start ++ text ++ currentValue.drop end_
  { value := newValue
    selectionStart := some (min (start + text.length) newValue.length)
    selectionEnd := some (min (start + text.length) newValue.length) }

/-- The field `abc` with the caret before the first character. -/
def caretAtStart : InputElement :=
  { value := [97, 98, 99], selectionStart := some 0, selectionEnd := some 0 }

/-! ## The popup: saving a pairing code (`popup.js`) -/

/-- The variables `pairingCode` and `sessionId` of the popup, `none` for
`null`. -/
structure Popup where
  pairingCode : Option JsString
  sessionId : Option JsString
  deriving DecidableEq

/-- What `savePairingCode` does besides assigning the two variables. -/
inductive PopupEffect where
  | alert
  | storageSet (pairingCode sessionId : Option JsString)
  | sendPairingCode (code sessionId : Option JsString)
  | savedFeedback
  deriving DecidableEq

/-- The test `/^\d+$/`: one or more code units, all in `0`..`9`. -/
def digitsOnly (code : JsString) : Bool :=
  !code.isEmpty && code.all (fun u => decide (48 ≤ u) && decide (u ≤ 57))

/-- Truthiness of a variable holding `null` or a string. -/
def stringTruthy : Option JsString → Bool
  | some (_ :: _) => true
  | _ => false

/-- The function `savePairingCode`; `fresh` is what `generateSessionId()`
returns if it is called. -/
def savePairingCode (fresh : JsString) (p : Popup) (code : JsString) :
    Bool × Popup × List PopupEffect :=
  if code.isEmpty || decide (code.length ≠ 6) || !digitsOnly code then
    (false, p, [PopupEffect.alert])
  else
    let sessionId := if stringTruthy p.sessionId then p.sessionId else some fresh
    (true, { pairingCode := some code, sessionId := sessionId },
      [PopupEffect.storageSet (some code) sessionId,
       PopupEffect.sendPairingCode (some code) sessionId,
       PopupEffect.savedFeedback])

/-! ## The pairing code generator (`popup.js`, `background.js`)

A finite JavaScript number is the rational it denotes.  Multiplication and
addition of numbers round the exact result to the nearest double, ties to the
even mantissa. -/

/-- Rounding to the nearest integer, ties to the even one. -/
def roundHalfEven (q : Rat) : Int :=
  if q - ⌊q⌋ < 1 / 2 then ⌊q⌋
  else if 1 / 2 < q - ⌊q⌋ then ⌊q⌋ + 1
  else if ⌊q⌋ % 2 = 0 then ⌊q⌋
  else ⌊q⌋ + 1

/-- The binary exponent of the binade of `x`, the smallest one being that of
the subnormal numbers. -/
def binade (x : Rat) : Int :=
  max (Int.log 2 |x|) (-1022)

/-- The spacing of the doubles in the binade of `x`: 52 fraction bits. -/
def ulp (x : Rat) : Rat :=
  (2 : Rat) ^ (binade x - 52)

/-- The double nearest to `x`, for `x` below the overflow threshold. -/
def roundToDouble (x : Rat) : Rat :=
  roundHalfEven (x / ulp x) * ulp x

/-- The rational is the value of a double. -/
def isDouble (x : Rat) : Prop :=
  roundToDouble x = x

/-- JavaScript `a * b` on finite numbers. -/
def jsMul (a b : Rat) : Rat :=
  roundToDouble (a * b)

/-- JavaScript `a + b` on finite numbers. -/
def jsAdd (a b : Rat) : Rat :=
  roundToDouble (a + b)

/-- The result of `n.toString()` for an integer `n` of at most 21 digits: its
decimal digits as UTF-16 code units, most significant first. -/
def integerToString (n : Int) : JsString :=
  if n < 0 then 45 :: ((Nat.digits 10 n.natAbs).reverse.map (fun d => d + 48))
  else if n = 0 then [48]
  else (Nat.digits 10 n.natAbs).reverse.map (fun d => d + 48)

/-- The number that a string of decimal digits denotes. -/
def decimalValue (s : JsString) : Nat :=
  s.foldl (fun acc u => 10 * acc + (u - 48)) 0

/-- The function `generatePairingCode`, `random` being what `Math.random()`
returns. -/
def generatePairingCode (random : Rat) : JsString :=
  integerToString ⌊jsAdd 100000 (jsMul random 900000)⌋

/-- The double that precedes one half, `0.5 - 2^-54`. -/
def belowHalf : Rat := 1 / 2 - 1 / 2 ^ 54

/-- A double in `[0, 1)` that is a multiple of `2^-52`, about `0.02735`. -/
def fiftyTwoBits : Rat := 123183457807755 / 2 ^ 52

/-! ## The content script: virtual cursor (`content.js`) -/

/-- A JavaScript number: `NaN`, `Infinity` or `-Infinity`, or a finite double,
given by the rational it denotes (`+0` and `-0` are one value here). -/
inductive JsNumber where
  | nan
  | infinity (negative : Bool)
  | finite (x : Rat)
  deriving DecidableEq

/-- JavaScript `a + b` on numbers: `NaN` when an operand is `NaN` or the
operands are opposite infinities; otherwise the exact sum rounded to the
nearest double, an infinity when the rounded sum is beyond the largest
double. -/
def JsNumber.add : JsNumber → JsNumber → JsNumber
  | .nan, _ => .nan
  | _, .nan => .nan
  | .infinity a, .infinity b => if a = b then .infinity a else .nan
  | .infinity a, .finite _ => .infinity a
  | .finite _, .infinity b => .infinity b
  | .finite x, .finite y =>
    if (2 : Rat) ^ 1024 ≤ |jsAdd x y| then .infinity (decide (x + y < 0))
    else .finite (jsAdd x y)

/-- The function `Math.min` on two numbers: `NaN` when one of them is. -/
def mathMin : JsNumber → JsNumber → JsNumber
  | .nan, _ => .nan
  | _, .nan => .nan
  | .infinity true, _ => .infinity true
  | _, .infinity true => .infinity true
  | .infinity false, b => b
  | a, .infinity false => a
  | .finite x, .finite y => .finite (min x y)

/-- The function `Math.max` on two numbers: `NaN` when one of them is. -/
def mathMax : JsNumber → JsNumber → JsNumber
  | .nan, _ => .nan
  | _, .nan => .nan
  | .infinity false, _ => .infinity false
  | _, .infinity false => .infinity false
  | .infinity true, b => b
  | a, .infinity true => a
  | .finite x, .finite y => .finite (max x y)

/-- The property `dx` or `dy` of the data of a touch event, among the values
with which `+=` is an addition of numbers: a missing property, `null`, a
boolean or a number.  With a string or an object `+=` joins strings. -/
inductive Delta where
  | undefined
  | null
  | bool (b : Bool)
  | number (n : JsNumber)
  deriving DecidableEq

/-- The conversion to a number that `+` applies to such an operand. -/
def Delta.toNumber : Delta → JsNumber
  | .undefined => .nan
  | .null => .finite 0
  | .bool b => .finite (if b then 1 else 0)
  | .number n => n

/-- The virtual cursor `cursorX`, `cursorY`. -/
structure Cursor where
  cursorX : JsNumber
  cursorY : JsNumber
  deriving DecidableEq

/-- The function `clampCursor`, in a window of the given inner size.
`window.innerWidth` and `window.innerHeight` are integers (of type `long`), so
the subtraction of 1 is exact. -/
def clampCursor (innerWidth innerHeight : Int) (c : Cursor) : Cursor :=
  { cursorX := mathMax (.finite 0) (mathMin (.finite ((innerWidth : Rat) - 1)) c.cursorX)
    cursorY := mathMax (.finite 0) (mathMin (.finite ((innerHeight : Rat) - 1)) c.cursorY) }

/-- The cursor after `handleTouchEvent` on a `move` event whose data has the
given `dx` and `dy`. -/
def handleTouchMove (innerWidth innerHeight : Int) (c : Cursor) (dx dy : Delta) : Cursor :=
  clampCursor innerWidth innerHeight
    { cursorX := c.cursorX.add dx.toNumber, cursorY := c.cursorY.add dy.toNumber }

/-- The double nearest to one tenth, `0.1` in a frame. -/
def tenth : Rat := 3602879701896397 / 2 ^ 55

/-- The cursor of a 1280 by 720 window when the content script starts:
`window.innerWidth / 2` and `window.innerHeight / 2`. -/
def centre : Cursor := { cursorX := .finite 640, cursorY := .finite 360 }

/-! ## The static file handler (`server/index.js`)

The functions `path.normalize` and `path.join` of Node.js are modelled for the
POSIX flavour of the `path` module, as documented: segments are separated by
`/`, empty and `.` segments are dropped, a `..` segment removes the segment
before it. -/

/-- The path split at every `/` (code unit 47). -/
def splitSegments : JsString → List JsString
  | [] => [[]]
  | c :: rest =>
    if c = 47 then [] :: splitSegments rest
    else
      match splitSegments rest with
      | seg :: segs => (c :: seg) :: segs
      | [] => [[c]]

/-- The segments joined by `/`. -/
def joinSegments : List JsString → JsString
  | [] => []
  | [seg] => seg
  | seg :: rest => seg ++ 47 :: joinSegments rest

/-- The segment `..`. -/
def dotDot : JsString := [46, 46]

/-- One segment handled by the normalisation, `kept` holding the segments kept
so far, the last one first: an empty or `.` segment is dropped; `..` removes
the last kept segment unless there is none or it is `..` itself, in which case
it is kept when the path is relative and dropped when it is absolute. -/
def normalizeStep (allowAboveRoot : Bool) (kept : List JsString) (seg : JsString) :
    List JsString :=
  if seg = [] ∨ seg = [46] then kept
  else if seg = dotDot then
    match kept with
    | last :: before =>
      if last = dotDot then (if allowAboveRoot then dotDot :: kept else kept) else before
    | [] => if allowAboveRoot then [dotDot] else []
  else seg :: kept

/-- The segments kept by the normalisation, in path order. -/
def normalizeString (allowAboveRoot : Bool) (segments : List JsString) : List JsString :=
  (segments.foldl (normalizeStep allowAboveRoot) []).reverse

/-- The function `path.normalize`. -/
def normalize (path : JsString) : JsString :=
  if path = [] then [46]
  else
    let isAbsolute := decide (path.head? = some 47)
    let trailingSeparator := decide (path.getLast? = some 47)
    let res := joinSegments (normalizeString (!isAbsolute) (splitSegments path))
    if res = [] then
      if isAbsolute then [47] else if trailingSeparator then [46, 47] else [46]
    else
      (if isAbsolute then [47] else []) ++ res ++ (if trailingSeparator then [47] else [])

/-- The replacement `.replace(/^(\.\.(\/|\\|$))+/, '')`: the leading run of
`..` groups, each followed by `/`, by a backslash or by the end of the string,
is removed. -/
def stripDotDots : JsString → JsString
  | a :: b :: c :: rest =>
    if a = 46 ∧ b = 46 ∧ (c = 47 ∨ c = 92) then stripDotDots rest else a :: b :: c :: rest
  | [a, b] => if a = 46 ∧ b = 46 then [] else [a, b]
  | s => s

/-- The function `path.join` on three arguments, the first two not empty. -/
def pathJoin (first second third : JsString) : JsString :=
  normalize (first ++ 47 :: second ++ (if third = [] then [] else 47 :: third))

/-- The directory name `public`. -/
def publicName : JsString := [112, 117, 98, 108, 105, 99]

/-- The path `/index.html`. -/
def indexHtml : JsString := [47, 105, 110, 100, 101, 120, 46, 104, 116, 109, 108]

/-- The sanitised `filePath` of the static file handler for a request URL. -/
def sanitisedPath (url : JsString) : JsString :=
  stripDotDots (normalize (if url = [47] then indexHtml else url))

/-- The `fullPath` that the static file handler passes to `fs.stat` and
`fs.readFile`, `dirname` being `__dirname`. -/
def fullPath (dirname url : JsString) : JsString :=
  pathJoin dirname publicName (sanitisedPath url)

/-- Every `..` segment of the list is in its leading run of `..` segments. -/
def LeadingDots (segs : List JsString) : Prop :=
  ∃ k T, segs = List.replicate k dotDot ++ T ∧ dotDot ∉ T

/-- The shape of the kept segments, last first: segments that are not empty,
not `..` and free of `/`, then a run of `..` that is empty for an absolute
path. -/
def KeptShape (allowAboveRoot : Bool) (kept : List JsString) : Prop :=
  ∃ T k, kept = T ++ List.replicate k dotDot ∧ (allowAboveRoot = false → k = 0) ∧
    ∀ t ∈ T, t ≠ dotDot ∧ t ≠ [] ∧ 47 ∉ t

/-- The segments `app` and `server` of the directory `/app/server`. -/
def serverDirSegments : List JsString :=
  [[97, 112, 112], [115, 101, 114, 118, 101, 114]]

/-- The request URL `/../../etc/passwd`. -/
def traversalUrl : JsString :=
  [47, 46, 46, 47, 46, 46, 47, 101, 116, 99, 47, 112, 97, 115, 115, 119, 100]

/-- The path `/app/server/public/etc/passwd`. -/
def servedPath : JsString :=
  [47, 97, 112, 112, 47, 115, 101, 114, 118, 101, 114, 47, 112, 117, 98, 108, 105, 99, 47, 101, 116, 99, 47, 112, 97, 115, 115, 119, 100]

/-! ## Map lemmas -/

theorem mapGet_mapSet_self {κ ν : Type} [DecidableEq κ] (l : List (κ × ν)) (k : κ) (v : ν) :
    mapGet (mapSet l k v) k = some v := by
  induction l with
  | nil => simp [mapSet, mapGet]
  | cons e rest ih =>
    obtain ⟨k0, v0⟩ := e
    by_cases h : k0 = k
    · simp [mapSet, mapGet, h]
    · simp [mapSet, mapGet, h, ih]

theorem mapGet_mapSet_ne {κ ν : Type} [DecidableEq κ] (l : List (κ × ν)) (k k1 : κ) (v : ν)
    (hne : k ≠ k1) : mapGet (mapSet l k v) k1 = mapGet l k1 := by
  induction l with
  | nil => simp [mapSet, mapGet, hne]
  | cons e rest ih =>
    obtain ⟨k0, v0⟩ := e
    by_cases h : k0 = k
    · subst h
      simp [mapSet, mapGet, hne]
    · by_cases h1 : k0 = k1
      · subst h1
        simp [mapSet, mapGet, h]
      · simp [mapSet, mapGet, h, h1, ih]

theorem mapGet_mapDelete_self {κ ν : Type} [DecidableEq κ] (l : List (κ × ν)) (k : κ) :
    mapGet (mapDelete l k) k = none := by
  induction l with
  | nil => simp [mapDelete, mapGet]
  | cons e rest ih =>
    obtain ⟨k0, v0⟩ := e
    by_cases h : k0 = k
    · simpa [mapDelete, h] using ih
    · simpa [mapDelete, List.filter_cons, h, mapGet] using ih

theorem mapGet_mapDelete_ne {κ ν : Type} [DecidableEq κ] (l : List (κ × ν)) (k k1 : κ)
    (hne : k ≠ k1) : mapGet (mapDelete l k) k1 = mapGet l k1 := by
  induction l with
  | nil => simp [mapDelete, mapGet]
  | cons e rest ih =>
    obtain ⟨k0, v0⟩ := e
    by_cases h : k0 = k
    · subst h
      simpa [mapDelete, mapGet, hne] using ih
    · by_cases h1 : k0 = k1
      · subst h1
        simp [mapDelete, List.filter_cons, mapGet, h]
      · simpa [mapDelete, List.filter_cons, mapGet, h, h1] using ih

theorem mapGet_of_mem {κ ν : Type} [DecidableEq κ] (l : List (κ × ν)) (k : κ) (v : ν)
    (hnd : (l.map Prod.fst).Nodup) (hmem : (k, v) ∈ l) : mapGet l k = some v := by
  induction l with
  | nil => simp at hmem
  | cons e rest ih =>
    obtain ⟨k0, v0⟩ := e
    simp only [List.map_cons, List.nodup_cons] at hnd
    rcases List.mem_cons.mp hmem with heq | hin
    · cases heq
      simp [mapGet]
    · have hk : k0 ≠ k := by
        intro hk
        apply hnd.1
        rw [hk]
        exact List.mem_map_of_mem Prod.fst hin
      simp [mapGet, hk, ih hnd.2 hin]

theorem mem_of_mapGet {κ ν : Type} [DecidableEq κ] (l : List (κ × ν)) (k : κ) (v : ν)
    (hget : mapGet l k = some v) : (k, v) ∈ l := by
  induction l with
  | nil => simp [mapGet] at hget
  | cons e rest ih =>
    obtain ⟨k0, v0⟩ := e
    by_cases h : k0 = k
    · simp [mapGet, h] at hget
      simp [h, hget]
    · simp [mapGet, h] at hget
      exact List.mem_cons_of_mem _ (ih hget)

theorem mapSet_keys {κ ν : Type} [DecidableEq κ] (l : List (κ × ν)) (k : κ) (v : ν) :
    (mapSet l k v).map Prod.fst =
      if k ∈ l.map Prod.fst then l.map Prod.fst else l.map Prod.fst ++ [k] := by
  induction l with
  | nil => simp [mapSet]
  | cons e rest ih =>
    obtain ⟨k0, v0⟩ := e
    by_cases h : k0 = k
    · subst h
      simp [mapSet]
    · have h2 : k ≠ k0 := fun hk => h hk.symm
      simp only [mapSet, h, if_false, List.map_cons, ih, List.mem_cons, h2, false_or]
      split <;> simp

theorem mapSet_keys_nodup {κ ν : Type} [DecidableEq κ] (l : List (κ × ν)) (k : κ) (v : ν)
    (hnd : (l.map Prod.fst).Nodup) : ((mapSet l k v).map Prod.fst).Nodup := by
  rw [mapSet_keys]
  split
  · exact hnd
  · rename_i hk
    exact List.Nodup.append hnd (List.nodup_singleton k) (by simpa using hk)

theorem mapDelete_keys_nodup {κ ν : Type} [DecidableEq κ] (l : List (κ × ν)) (k : κ)
    (hnd : (l.map Prod.fst).Nodup) : ((mapDelete l k).map Prod.fst).Nodup := by
  unfold mapDelete
  exact (List.Nodup.sublist (List.Sublist.map _ (List.filter_sublist l)) hnd)
/-! ## Reachable states keep the maps well formed -/

theorem onConnection_wf (st : Relay) (ws : Nat) (h : st.WF) : (onConnection st ws).WF :=
  ⟨mapSet_keys_nodup _ _ _ h.1, h.2⟩

theorem onMessage_wf (readyState : Nat → Nat) (st : Relay) (ws : Nat) (data : Parsed)
    (h : st.WF) : (onMessage readyState st ws data).1.WF := by
  have hc := fun (i : ClientInfo) => mapSet_keys_nodup st.clients ws i h.1
  have hs := fun (k v : JsValue) => mapSet_keys_nodup st.sessionCodes k v h.2
  unfold onMessage
  cases data with
  | syntaxError => exact h
  | null =>
    cases hget : mapGet st.clients ws with
    | none => exact h
    | some info => exact ⟨hc _, h.2⟩
  | value m =>
    cases hget : mapGet st.clients ws with
    | none =>
      dsimp only
      split_ifs
      · exact ⟨h.1, hs _ _⟩
      all_goals exact h
    | some info =>
      dsimp only
      split_ifs
      · exact ⟨hc _, hs _ _⟩
      all_goals exact ⟨hc _, h.2⟩

theorem onPong_wf (st : Relay) (ws : Nat) (h : st.WF) : (onPong st ws).WF := by
  unfold onPong
  cases hget : mapGet st.clients ws with
  | none => exact h
  | some info => exact ⟨mapSet_keys_nodup _ _ _ h.1, h.2⟩

theorem onClose_wf (st : Relay) (ws : Nat) (h : st.WF) : (onClose st ws).WF := by
  refine ⟨mapDelete_keys_nodup _ _ h.1, ?_⟩
  unfold onClose
  cases hget : mapGet st.clients ws with
  | none => exact h.2
  | some info =>
    dsimp only
    split_ifs
    · exact mapDelete_keys_nodup _ _ h.2
    · exact h.2

theorem onError_wf (st : Relay) (ws : Nat) (h : st.WF) : (onError st ws).WF :=
  ⟨mapDelete_keys_nodup _ _ h.1, h.2⟩

theorem heartbeatVisit_wf (readyState : Nat → Nat) (acc : Relay × List Effect) (ws : Nat)
    (h : acc.1.WF) : (heartbeatVisit readyState acc ws).1.WF := by
  unfold heartbeatVisit
  dsimp only
  split
  · split_ifs
    · exact ⟨mapDelete_keys_nodup _ _ h.1, mapDelete_keys_nodup _ _ h.2⟩
    · exact ⟨mapDelete_keys_nodup _ _ h.1, h.2⟩
    all_goals exact ⟨mapSet_keys_nodup _ _ _ h.1, h.2⟩
  · exact h

theorem heartbeatInterval_wf (readyState : Nat → Nat) (st : Relay) (h : st.WF) :
    (heartbeatInterval readyState st).1.WF := by
  unfold heartbeatInterval
  suffices hgen : ∀ (sockets : List Nat) (acc : Relay × List Effect), acc.1.WF →
      (sockets.foldl (heartbeatVisit readyState) acc).1.WF from hgen _ _ h
  intro sockets
  induction sockets with
  | nil => intro acc hacc; exact hacc
  | cons w rest ih =>
    intro acc hacc
    exact ih _ (heartbeatVisit_wf readyState acc w hacc)

theorem step_wf (st : Relay) (ev : Event) (h : st.WF) : (step st ev).WF := by
  cases ev with
  | connection ws => exact onConnection_wf st ws h
  | message readyState ws data => exact onMessage_wf readyState st ws data h
  | pong ws => exact onPong_wf st ws h
  | close ws => exact onClose_wf st ws h
  | error ws => exact onError_wf st ws h
  | heartbeat readyState => exact heartbeatInterval_wf readyState st h

theorem Reachable.wf {st : Relay} (h : Reachable st) : st.WF := by
  induction h with
  | empty => exact ⟨List.nodup_nil, List.nodup_nil⟩
  | step ev _ _ ih => exact step_wf _ ev ih

theorem Reachable.run {st : Relay} (h : Reachable st) (events : List Event)
    (hen : enabledAll st events = true) : Reachable (run st events) := by
  induction events generalizing st with
  | nil => exact h
  | cons ev rest ih =>
    simp only [enabledAll, Bool.and_eq_true] at hen
    exact ih (Reachable.step ev h hen.1) hen.2
/-! ## The pairing store and the lookup of a code -/

theorem findSessionByCode_mapSet (codes : List (JsValue × JsValue)) (S C : JsValue)
    (hfirst : ∀ e ∈ codes.takeWhile (fun e => decide (e.1 ≠ S)), e.2 ≠ C) :
    findSessionByCode (mapSet codes S C) C = S := by
  induction codes with
  | nil => simp [mapSet, findSessionByCode]
  | cons e rest ih =>
    obtain ⟨k, v⟩ := e
    by_cases hk : k = S
    · simp [mapSet, findSessionByCode, hk]
    · have hcons : List.takeWhile (fun e => decide (e.1 ≠ S)) ((k, v) :: rest) =
          (k, v) :: List.takeWhile (fun e => decide (e.1 ≠ S)) rest := by
        simp [List.takeWhile, hk]
      rw [hcons] at hfirst
      have hv : v ≠ C := hfirst (k, v) (List.mem_cons_self _ _)
      have hrest : ∀ e ∈ rest.takeWhile (fun e => decide (e.1 ≠ S)), e.2 ≠ C :=
        fun e he => hfirst e (List.mem_cons_of_mem _ he)
      simp [mapSet, findSessionByCode, hk, hv, ih hrest]

theorem findSessionByCode_of_no_match (codes : List (JsValue × JsValue)) (C : JsValue)
    (hno : ∀ e ∈ codes, e.2 ≠ C) : findSessionByCode codes C = .null := by
  induction codes with
  | nil => rfl
  | cons e rest ih =>
    obtain ⟨k, v⟩ := e
    have hv : v ≠ C := hno (k, v) (by simp)
    simp [findSessionByCode, hv, ih (fun e he => hno e (List.mem_cons_of_mem _ he))]

theorem findSessionByCode_mem (codes : List (JsValue × JsValue)) (C : JsValue)
    (ht : (findSessionByCode codes C).truthy = true) :
    (findSessionByCode codes C, C) ∈ codes := by
  induction codes with
  | nil => simp [findSessionByCode, JsValue.truthy] at ht
  | cons e rest ih =>
    obtain ⟨k, v⟩ := e
    by_cases hv : v = C
    · simp [findSessionByCode, hv]
    · simp only [findSessionByCode, hv, if_false] at ht ⊢
      exact List.mem_cons_of_mem _ (ih ht)

theorem onMessage_setPairingCode_codes (readyState : Nat → Nat) (st : Relay) (ws : Nat)
    (m : Message) (ht : m.get "type" = .string "setPairingCode") :
    (onMessage readyState st ws (.value m)).1.sessionCodes =
      mapSet st.sessionCodes (m.get "sessionId") (m.get "code") := by
  unfold onMessage
  cases hget : mapGet st.clients ws <;> simp [ht]

theorem onMessage_auth_some (readyState : Nat → Nat) (st : Relay) (ws : Nat)
    (m : Message) (info : ClientInfo) (ht : m.get "type" = .string "auth")
    (hget : mapGet st.clients ws = some info) :
    onMessage readyState st ws (.value m) =
      if (findSessionByCode st.sessionCodes (m.get "code")).truthy then
        ({ st with
            clients := mapSet st.clients ws
              { info with alive := true, authenticated := true,
                          sessionId := findSessionByCode st.sessionCodes (m.get "code") } },
          [Effect.send ws (Payload.authResult true)])
      else
        ({ st with clients := mapSet st.clients ws { info with alive := true } },
          [Effect.send ws (Payload.authResult false)]) := by
  unfold onMessage
  simp [ht, hget]
/-! ## Routing -/

theorem mem_keys_of_mapGet {κ ν : Type} [DecidableEq κ] (l : List (κ × ν)) (k : κ) (v : ν)
    (hget : mapGet l k = some v) : k ∈ l.map Prod.fst :=
  List.mem_map_of_mem Prod.fst (mem_of_mapGet l k v hget)

theorem mapSet_keys_of_mapGet {κ ν : Type} [DecidableEq κ] (l : List (κ × ν)) (k : κ) (v w : ν)
    (hget : mapGet l k = some v) : (mapSet l k w).map Prod.fst = l.map Prod.fst := by
  rw [mapSet_keys, if_pos (mem_keys_of_mapGet l k v hget)]

theorem mapGet_mapSet (l : List (Nat × ClientInfo)) (ws c : Nat) (info : ClientInfo) :
    mapGet (mapSet l ws info) c = if ws = c then some info else mapGet l c := by
  by_cases h : ws = c
  · subst h
    simp [mapGet_mapSet_self]
  · simp [h, mapGet_mapSet_ne l ws c info h]

theorem mem_broadcast (readyState : Nat → Nat) (clients : List (Nat × ClientInfo))
    (type sessionId : JsValue) (data : Payload) (c : Nat) (p : Payload) :
    Effect.send c p ∈ broadcast readyState clients type sessionId data ↔
      p = data ∧ ∃ ci, (c, ci) ∈ clients ∧ ci.type = type ∧ ci.authenticated = true ∧
        ci.sessionId = sessionId ∧ readyState c = 1 := by
  unfold broadcast
  simp only [List.mem_map, List.mem_filter, Bool.and_eq_true, decide_eq_true_eq]
  constructor
  · rintro ⟨⟨c0, ci⟩, ⟨hmem, ⟨⟨ht, ha⟩, hs⟩, hr⟩, heq⟩
    cases heq
    exact ⟨rfl, ci, hmem, ht, ha, hs, hr⟩
  · rintro ⟨rfl, ci, hmem, ht, ha, hs, hr⟩
    exact ⟨(c, ci), ⟨hmem, ⟨⟨ht, ha⟩, hs⟩, hr⟩, rfl⟩

theorem broadcast_sends (readyState : Nat → Nat) (clients : List (Nat × ClientInfo))
    (type sessionId : JsValue) (data : Payload) (e : Effect)
    (he : e ∈ broadcast readyState clients type sessionId data) : ∃ c, e = Effect.send c data := by
  unfold broadcast at he
  obtain ⟨x, _, hx⟩ := List.mem_map.mp he
  exact ⟨x.1, hx.symm⟩

theorem broadcast_mapSet (readyState : Nat → Nat) (clients : List (Nat × ClientInfo))
    (type sessionId : JsValue) (data : Payload) (ws : Nat) (info info1 : ClientInfo)
    (hget : mapGet clients ws = some info) (ht : info1.type = info.type)
    (ha : info1.authenticated = info.authenticated) (hs : info1.sessionId = info.sessionId) :
    broadcast readyState (mapSet clients ws info1) type sessionId data =
      broadcast readyState clients type sessionId data := by
  induction clients with
  | nil => simp [mapGet] at hget
  | cons e rest ih =>
    obtain ⟨k, v⟩ := e
    by_cases hk : k = ws
    · subst hk
      simp only [mapGet, if_true, Option.some.injEq] at hget
      subst hget
      simp only [mapSet, broadcast, List.filter_cons, ht, ha, hs, if_true]
      split <;> simp
    · simp only [mapGet, hk, if_false] at hget
      have := ih hget
      unfold broadcast at this ⊢
      simp only [mapSet, hk, if_false, List.filter_cons]
      split <;> simp [this]

theorem onMessage_route_some (readyState : Nat → Nat) (st : Relay) (ws : Nat)
    (m : Message) (info : ClientInfo) (hget : mapGet st.clients ws = some info)
    (h1 : m.get "type" ≠ .string "setPairingCode") (h2 : m.get "type" ≠ .string "register")
    (h3 : m.get "type" ≠ .string "auth") :
    onMessage readyState st ws (.value m) =
      ({ st with clients := mapSet st.clients ws { info with alive := true } },
        route readyState (mapSet st.clients ws { info with alive := true }) ws
          { info with alive := true } m) := by
  unfold onMessage
  simp [hget, h1, h2, h3]

theorem route_unauthenticated (readyState : Nat → Nat) (clients : List (Nat × ClientInfo))
    (ws : Nat) (info : ClientInfo) (m : Message) (hauth : info.authenticated = false)
    (hping : m.get "type" ≠ .string "ping") :
    route readyState clients ws info m = [Effect.send ws Payload.error] := by
  unfold route
  simp [hauth, hping]

theorem route_touch_browser (readyState : Nat → Nat) (clients : List (Nat × ClientInfo))
    (ws : Nat) (info : ClientInfo) (m : Message) (hauth : info.authenticated = true)
    (hty : m.get "type" = .string "touch" ∨ m.get "type" = .string "browser") :
    route readyState clients ws info m =
      broadcast readyState clients (.string "extension") info.sessionId (.forwarded m) := by
  unfold route
  rcases hty with h | h <;> simp [hauth, h]

theorem route_keyboard (readyState : Nat → Nat) (clients : List (Nat × ClientInfo))
    (ws : Nat) (info : ClientInfo) (m : Message) (hauth : info.authenticated = true)
    (hty : m.get "type" = .string "openKeyboard" ∨ m.get "type" = .string "closeKeyboard") :
    route readyState clients ws info m =
      broadcast readyState clients (.string "mobile") info.sessionId (.forwarded m) := by
  unfold route
  rcases hty with h | h <;> simp [hauth, h]

/-- What the `message` handler sends for a forwarded type handled from a
registered sender: the error reply when the sender is not authenticated, the
broadcast over the registry otherwise. -/
theorem onMessage_forward_effects (readyState : Nat → Nat) (st : Relay) (ws : Nat)
    (m : Message) (info : ClientInfo) (hget : mapGet st.clients ws = some info)
    (hty : m.get "type" = .string "touch" ∨ m.get "type" = .string "browser" ∨
      m.get "type" = .string "openKeyboard" ∨ m.get "type" = .string "closeKeyboard") :
    (onMessage readyState st ws (.value m)).2 =
      if info.authenticated = true then
        broadcast readyState st.clients
          (if m.get "type" = .string "touch" ∨ m.get "type" = .string "browser"
            then .string "extension" else .string "mobile")
          info.sessionId (.forwarded m)
      else [Effect.send ws Payload.error] := by
  have h1 : m.get "type" ≠ .string "setPairingCode" := by rcases hty with h | h | h | h <;> simp [h]
  have h2 : m.get "type" ≠ .string "register" := by rcases hty with h | h | h | h <;> simp [h]
  have h3 : m.get "type" ≠ .string "auth" := by rcases hty with h | h | h | h <;> simp [h]
  have h4 : m.get "type" ≠ .string "ping" := by rcases hty with h | h | h | h <;> simp [h]
  rw [onMessage_route_some readyState st ws m info hget h1 h2 h3]
  by_cases hauth : info.authenticated = true
  · rw [if_pos hauth]
    have hb := fun (ty : JsValue) => broadcast_mapSet readyState st.clients ty info.sessionId
      (.forwarded m) ws info { info with alive := true } hget rfl rfl rfl
    have hauth1 : ({ info with alive := true } : ClientInfo).authenticated = true := hauth
    rcases hty with h | h | h | h
    · rw [route_touch_browser _ _ _ { info with alive := true } _ hauth1 (Or.inl h), hb]; simp [h]
    · rw [route_touch_browser _ _ _ { info with alive := true } _ hauth1 (Or.inr h), hb]; simp [h]
    · rw [route_keyboard _ _ _ { info with alive := true } _ hauth1 (Or.inl h), hb]; simp [h]
    · rw [route_keyboard _ _ _ { info with alive := true } _ hauth1 (Or.inr h), hb]; simp [h]
  · rw [if_neg hauth]
    exact route_unauthenticated _ _ _ { info with alive := true } _ (by simpa using hauth) h4
/-! ## Which events authenticate a connection -/

theorem AuthFrom.refl (st : Relay) : AuthFrom st st :=
  fun _ i1 h1 ha => ⟨i1, h1, ha, rfl⟩

theorem AuthFrom.trans {a b c : Relay} (hab : AuthFrom a b) (hbc : AuthFrom b c) :
    AuthFrom a c := by
  intro ws i1 h1 ha
  obtain ⟨i, hi, hia, his⟩ := hbc ws i1 h1 ha
  obtain ⟨j, hj, hja, hjs⟩ := hab ws i hi hia
  exact ⟨j, hj, hja, hjs.trans his⟩

theorem mapSet_auth_from (l : List (Nat × ClientInfo)) (c ws : Nat) (info0 X i1 : ClientInfo)
    (h1 : mapGet (mapSet l c X) ws = some i1) (hauth : i1.authenticated = true)
    (hget : mapGet l c = some info0)
    (ha : X.authenticated = info0.authenticated) (hs : X.sessionId = info0.sessionId) :
    ∃ i, mapGet l ws = some i ∧ i.authenticated = true ∧ i.sessionId = i1.sessionId := by
  simp only [mapGet_mapSet] at h1
  split at h1
  · rename_i hc
    subst hc
    cases h1
    exact ⟨info0, hget, ha ▸ hauth, hs.symm⟩
  · exact ⟨i1, h1, hauth, rfl⟩

theorem authFrom_mapSet (st : Relay) (c : Nat) (info0 X : ClientInfo) (codes : List (JsValue × JsValue))
    (sockets : List Nat) (hget : mapGet st.clients c = some info0)
    (ha : X.authenticated = info0.authenticated) (hs : X.sessionId = info0.sessionId) :
    AuthFrom st { clients := mapSet st.clients c X, sessionCodes := codes, wssClients := sockets } :=
  fun ws i1 h1 hauth => mapSet_auth_from st.clients c ws info0 X i1 h1 hauth hget ha hs

theorem authFrom_mapDelete (st : Relay) (c : Nat) (codes : List (JsValue × JsValue))
    (sockets : List Nat) :
    AuthFrom st { clients := mapDelete st.clients c, sessionCodes := codes, wssClients := sockets } := by
  intro ws i1 h1 hauth
  by_cases hc : c = ws
  · subst hc
    simp [mapGet_mapDelete_self] at h1
  · simp only [mapGet_mapDelete_ne _ _ _ hc] at h1
    exact ⟨i1, h1, hauth, rfl⟩

theorem authFrom_codes (st : Relay) (codes : List (JsValue × JsValue)) :
    AuthFrom st { st with sessionCodes := codes } :=
  fun _ i1 h1 ha => ⟨i1, h1, ha, rfl⟩

theorem onConnection_authFrom (st : Relay) (c : Nat) : AuthFrom st (onConnection st c) := by
  intro ws i1 h1 hauth
  simp only [onConnection, mapGet_mapSet] at h1
  split at h1
  · cases h1
    simp at hauth
  · exact ⟨i1, h1, hauth, rfl⟩

theorem onPong_authFrom (st : Relay) (c : Nat) : AuthFrom st (onPong st c) := by
  unfold onPong
  cases hget : mapGet st.clients c with
  | none => exact AuthFrom.refl st
  | some info => exact authFrom_mapSet st c info _ _ _ hget rfl rfl

theorem onClose_authFrom (st : Relay) (c : Nat) : AuthFrom st (onClose st c) :=
  authFrom_mapDelete st c _ _

theorem onError_authFrom (st : Relay) (c : Nat) : AuthFrom st (onError st c) :=
  authFrom_mapDelete st c _ _

theorem heartbeatVisit_authFrom (readyState : Nat → Nat) (acc : Relay × List Effect) (w : Nat) :
    AuthFrom acc.1 (heartbeatVisit readyState acc w).1 := by
  unfold heartbeatVisit
  dsimp only
  split
  · rename_i info hget
    split_ifs
    · exact authFrom_mapDelete acc.1 w _ _
    · exact authFrom_mapDelete acc.1 w _ _
    all_goals exact authFrom_mapSet acc.1 w info _ _ _ hget rfl rfl
  · exact AuthFrom.refl _

theorem heartbeatInterval_authFrom (readyState : Nat → Nat) (st : Relay) :
    AuthFrom st (heartbeatInterval readyState st).1 := by
  unfold heartbeatInterval
  suffices hgen : ∀ (sockets : List Nat) (acc : Relay × List Effect),
      AuthFrom acc.1 (sockets.foldl (heartbeatVisit readyState) acc).1 from hgen _ (st, [])
  intro sockets
  induction sockets with
  | nil => intro acc; exact AuthFrom.refl _
  | cons w rest ih =>
    intro acc
    exact AuthFrom.trans (heartbeatVisit_authFrom readyState acc w) (ih _)

/-- The two ways in which the `message` handler authenticates a connection. -/
theorem onMessage_authenticated_cases (readyState : Nat → Nat) (st : Relay) (c : Nat)
    (data : Parsed) (ws : Nat) (i1 : ClientInfo)
    (h1 : mapGet (onMessage readyState st c data).1.clients ws = some i1)
    (hauth : i1.authenticated = true) :
    (∃ i, mapGet st.clients ws = some i ∧ i.authenticated = true ∧ i.sessionId = i1.sessionId) ∨
      (c = ws ∧ ∃ m, data = .value m ∧
        ((m.get "type" = .string "auth" ∧
            (findSessionByCode st.sessionCodes (m.get "code")).truthy = true ∧
            i1.sessionId = findSessionByCode st.sessionCodes (m.get "code")) ∨
          (m.get "type" = .string "setPairingCode" ∧ i1.sessionId = m.get "sessionId"))) := by
  cases data with
  | syntaxError => exact Or.inl (AuthFrom.refl st ws i1 h1 hauth)
  | null =>
    left
    cases hget : mapGet st.clients c with
    | none =>
      simp only [onMessage, hget] at h1
      exact AuthFrom.refl st ws i1 h1 hauth
    | some info =>
      simp only [onMessage, hget] at h1
      exact mapSet_auth_from st.clients c ws info _ i1 h1 hauth hget rfl rfl
  | value m =>
    cases hget : mapGet st.clients c with
    | none =>
      simp only [onMessage, hget] at h1
      split_ifs at h1
      all_goals exact Or.inl (AuthFrom.refl st ws i1 h1 hauth)
    | some info =>
      simp only [onMessage, hget] at h1
      split_ifs at h1 with hset hreg hau htr
      · simp only [mapGet_mapSet] at h1
        split at h1
        · rename_i hc
          cases h1
          exact Or.inr ⟨hc, m, rfl, Or.inr ⟨hset, rfl⟩⟩
        · exact Or.inl ⟨i1, h1, hauth, rfl⟩
      · exact Or.inl (mapSet_auth_from st.clients c ws info _ i1 h1 hauth hget rfl rfl)
      · simp only [mapGet_mapSet] at h1
        split at h1
        · rename_i hc
          cases h1
          exact Or.inr ⟨hc, m, rfl, Or.inl ⟨hau, htr, rfl⟩⟩
        · exact Or.inl ⟨i1, h1, hauth, rfl⟩
      · exact Or.inl (mapSet_auth_from st.clients c ws info _ i1 h1 hauth hget rfl rfl)
      · exact Or.inl (mapSet_auth_from st.clients c ws info _ i1 h1 hauth hget rfl rfl)

theorem onMessage_auth_effects_of_no_match (readyState : Nat → Nat) (st : Relay) (ws : Nat)
    (m : Message) (hty : m.get "type" = .string "auth")
    (hno : ∀ e ∈ st.sessionCodes, e.2 ≠ m.get "code") :
    (onMessage readyState st ws (.value m)).2 = [Effect.send ws (Payload.authResult false)] := by
  have hfind := findSessionByCode_of_no_match st.sessionCodes (m.get "code") hno
  unfold onMessage
  cases hget : mapGet st.clients ws <;> simp [hty, hfind, JsValue.truthy]

theorem mem_mapDelete {κ ν : Type} [DecidableEq κ] (l : List (κ × ν)) (k : κ) (e : κ × ν) :
    e ∈ mapDelete l k ↔ e ∈ l ∧ e.1 ≠ k := by
  simp [mapDelete]
theorem truthy_ne_null (v : JsValue) (h : v.truthy = true) : v ≠ .null ∧ v ≠ .undefined := by
  constructor <;> (intro hv; subst hv; simp [JsValue.truthy] at h)

theorem step_authenticated_cases (st : Relay) (ev : Event) (ws : Nat) (i1 : ClientInfo)
    (h1 : mapGet (step st ev).clients ws = some i1) (hauth : i1.authenticated = true) :
    (∃ i, mapGet st.clients ws = some i ∧ i.authenticated = true ∧ i.sessionId = i1.sessionId) ∨
      ∃ readyState m, ev = .message readyState ws (.value m) ∧
        ((m.get "type" = .string "auth" ∧
            (findSessionByCode st.sessionCodes (m.get "code")).truthy = true ∧
            i1.sessionId = findSessionByCode st.sessionCodes (m.get "code")) ∨
          (m.get "type" = .string "setPairingCode" ∧ i1.sessionId = m.get "sessionId")) := by
  cases ev with
  | connection c => exact Or.inl (onConnection_authFrom st c ws i1 h1 hauth)
  | message readyState c data =>
    rcases onMessage_authenticated_cases readyState st c data ws i1 h1 hauth with h | ⟨hc, m, hd, h⟩
    · exact Or.inl h
    · subst hc hd
      exact Or.inr ⟨readyState, m, rfl, h⟩
  | pong c => exact Or.inl (onPong_authFrom st c ws i1 h1 hauth)
  | close c => exact Or.inl (onClose_authFrom st c ws i1 h1 hauth)
  | error c => exact Or.inl (onError_authFrom st c ws i1 h1 hauth)
  | heartbeat readyState => exact Or.inl (heartbeatInterval_authFrom readyState st ws i1 h1 hauth)
/-! ## Overwriting a pairing code -/

theorem mapSet_mapSet {κ ν : Type} [DecidableEq κ] (l : List (κ × ν)) (k : κ) (v w : ν) :
    mapSet (mapSet l k v) k w = mapSet l k w := by
  induction l with
  | nil => simp [mapSet]
  | cons e rest ih =>
    obtain ⟨k0, v0⟩ := e
    by_cases h : k0 = k
    · simp [mapSet, h]
    · simp [mapSet, h, ih]

theorem mapSet_filter_ne {κ ν : Type} [DecidableEq κ] (l : List (κ × ν)) (k : κ) (v : ν) :
    (mapSet l k v).filter (fun e => decide (e.1 ≠ k)) = l.filter (fun e => decide (e.1 ≠ k)) := by
  induction l with
  | nil => simp [mapSet]
  | cons e rest ih =>
    obtain ⟨k0, v0⟩ := e
    by_cases h : k0 = k
    · simp [mapSet, h]
    · simp only [mapSet, h, if_false, List.filter_cons, ih]

theorem filter_key_eq_nil {κ ν : Type} [DecidableEq κ] (l : List (κ × ν)) (k : κ)
    (hk : k ∉ l.map Prod.fst) : l.filter (fun e => decide (e.1 = k)) = [] := by
  rw [List.filter_eq_nil_iff]
  intro e he
  simp only [decide_eq_true_eq]
  intro hek
  exact hk (hek ▸ List.mem_map_of_mem Prod.fst he)

theorem mapSet_filter_eq {κ ν : Type} [DecidableEq κ] (l : List (κ × ν)) (k : κ) (v : ν)
    (hnd : (l.map Prod.fst).Nodup) :
    (mapSet l k v).filter (fun e => decide (e.1 = k)) = [(k, v)] := by
  induction l with
  | nil => simp [mapSet]
  | cons e rest ih =>
    obtain ⟨k0, v0⟩ := e
    simp only [List.map_cons, List.nodup_cons] at hnd
    by_cases h : k0 = k
    · subst h
      simp [mapSet, List.filter_cons, filter_key_eq_nil rest k0 hnd.1]
    · simp [mapSet, h, List.filter_cons, ih hnd.2]

/-! ## Registered connections are tracked sockets -/

theorem mem_keys_mapSet {κ ν : Type} [DecidableEq κ] (l : List (κ × ν)) (k k1 : κ) (v : ν) :
    k1 ∈ (mapSet l k v).map Prod.fst ↔ k1 ∈ l.map Prod.fst ∨ k1 = k := by
  rw [mapSet_keys]
  split
  · rename_i hk
    constructor
    · exact fun h => Or.inl h
    · rintro (h | h)
      · exact h
      · exact h ▸ hk
  · simp

theorem mem_keys_mapDelete {κ ν : Type} [DecidableEq κ] (l : List (κ × ν)) (k k1 : κ) :
    k1 ∈ (mapDelete l k).map Prod.fst ↔ k1 ∈ l.map Prod.fst ∧ k1 ≠ k := by
  simp only [mapDelete, List.mem_map, List.mem_filter, decide_eq_true_eq]
  constructor
  · rintro ⟨e, ⟨he, hne⟩, rfl⟩
    exact ⟨⟨e, he, rfl⟩, hne⟩
  · rintro ⟨⟨e, he, rfl⟩, hne⟩
    exact ⟨e, ⟨he, hne⟩, rfl⟩

theorem onMessage_keys (readyState : Nat → Nat) (st : Relay) (ws : Nat) (data : Parsed) :
    (onMessage readyState st ws data).1.clients.map Prod.fst = st.clients.map Prod.fst ∧
      (onMessage readyState st ws data).1.wssClients = st.wssClients := by
  cases data with
  | syntaxError => exact ⟨rfl, rfl⟩
  | null =>
    cases hget : mapGet st.clients ws with
    | none => simp [onMessage, hget]
    | some info => simp [onMessage, hget, mapSet_keys_of_mapGet _ _ _ _ hget]
  | value m =>
    cases hget : mapGet st.clients ws with
    | none =>
      simp only [onMessage, hget]
      split_ifs <;> exact ⟨rfl, rfl⟩
    | some info =>
      simp only [onMessage, hget]
      split_ifs <;> exact ⟨mapSet_keys_of_mapGet _ _ _ _ hget, rfl⟩

theorem heartbeatVisit_keys (readyState : Nat → Nat) (acc : Relay × List Effect) (w : Nat) :
    (∀ k ∈ (heartbeatVisit readyState acc w).1.clients.map Prod.fst,
        k ∈ acc.1.clients.map Prod.fst) ∧
      (heartbeatVisit readyState acc w).1.wssClients = acc.1.wssClients := by
  unfold heartbeatVisit
  dsimp only
  split
  · rename_i info hget
    split_ifs
    · exact ⟨fun k hk => ((mem_keys_mapDelete _ _ _).mp hk).1, rfl⟩
    · exact ⟨fun k hk => ((mem_keys_mapDelete _ _ _).mp hk).1, rfl⟩
    all_goals
      refine ⟨fun k hk => ?_, rfl⟩
      rw [mapSet_keys_of_mapGet _ _ _ _ hget] at hk
      exact hk
  · exact ⟨fun k hk => hk, rfl⟩

theorem heartbeatInterval_keys (readyState : Nat → Nat) (st : Relay) :
    (∀ k ∈ (heartbeatInterval readyState st).1.clients.map Prod.fst,
        k ∈ st.clients.map Prod.fst) ∧
      (heartbeatInterval readyState st).1.wssClients = st.wssClients := by
  unfold heartbeatInterval
  suffices hgen : ∀ (sockets : List Nat) (acc : Relay × List Effect),
      (∀ k ∈ (sockets.foldl (heartbeatVisit readyState) acc).1.clients.map Prod.fst,
          k ∈ acc.1.clients.map Prod.fst) ∧
        (sockets.foldl (heartbeatVisit readyState) acc).1.wssClients = acc.1.wssClients from
    hgen _ (st, [])
  intro sockets
  induction sockets with
  | nil => exact fun acc => ⟨fun k hk => hk, rfl⟩
  | cons w rest ih =>
    intro acc
    obtain ⟨h1, h2⟩ := ih (heartbeatVisit readyState acc w)
    obtain ⟨h3, h4⟩ := heartbeatVisit_keys readyState acc w
    exact ⟨fun k hk => h3 k (h1 k hk), h2.trans h4⟩

theorem step_tracked (st : Relay) (ev : Event) (h : st.Tracked) : (step st ev).Tracked := by
  cases ev with
  | connection ws =>
    simp only [step, onConnection]
    constructor
    · dsimp only
      split
      · exact h.1
      · rename_i hws
        exact List.Nodup.append h.1 (List.nodup_singleton ws) (by simpa using hws)
    · intro k hk
      dsimp only at hk ⊢
      rcases (mem_keys_mapSet _ _ _ _).mp hk with hk | hk
      · split
        · exact h.2 k hk
        · exact List.mem_append_left _ (h.2 k hk)
      · subst hk
        split
        · assumption
        · simp
  | message readyState ws data =>
    obtain ⟨hk, hw⟩ := onMessage_keys readyState st ws data
    simp only [step]
    exact ⟨hw ▸ h.1, fun k hmem => hw ▸ h.2 k (hk ▸ hmem)⟩
  | pong ws =>
    simp only [step, onPong]
    cases hget : mapGet st.clients ws with
    | none => exact h
    | some info =>
      refine ⟨h.1, fun k hk => ?_⟩
      dsimp only at hk
      rw [mapSet_keys_of_mapGet _ _ _ _ hget] at hk
      exact h.2 k hk
  | close ws =>
    simp only [step, onClose]
    refine ⟨List.Nodup.filter _ h.1, fun k hk => ?_⟩
    obtain ⟨hk1, hk2⟩ := (mem_keys_mapDelete _ _ _).mp hk
    exact List.mem_filter.mpr ⟨h.2 k hk1, by simpa using hk2⟩
  | error ws =>
    simp only [step, onError]
    exact ⟨h.1, fun k hk => h.2 k ((mem_keys_mapDelete _ _ _).mp hk).1⟩
  | heartbeat readyState =>
    obtain ⟨hk, hw⟩ := heartbeatInterval_keys readyState st
    simp only [step]
    exact ⟨hw ▸ h.1, fun k hmem => hw ▸ h.2 k (hk k hmem)⟩

theorem Reachable.tracked {st : Relay} (h : Reachable st) : st.Tracked := by
  induction h with
  | empty => exact ⟨List.nodup_nil, fun k hk => by simp [Relay.empty] at hk⟩
  | step ev _ _ ih => exact step_tracked _ ev ih
/-! ## Frame conditions of the `message` handler -/

theorem onMessage_other (readyState : Nat → Nat) (st : Relay) (ws c : Nat) (data : Parsed)
    (hne : ws ≠ c) :
    mapGet (onMessage readyState st ws data).1.clients c = mapGet st.clients c := by
  cases data with
  | syntaxError => rfl
  | null =>
    cases hget : mapGet st.clients ws with
    | none => simp [onMessage, hget]
    | some info => simp [onMessage, hget, mapGet_mapSet_ne _ _ _ _ hne]
  | value m =>
    cases hget : mapGet st.clients ws with
    | none =>
      simp only [onMessage, hget]
      split_ifs <;> rfl
    | some info =>
      simp only [onMessage, hget]
      split_ifs <;> exact mapGet_mapSet_ne _ _ _ _ hne

theorem onMessage_codes_unchanged (readyState : Nat → Nat) (st : Relay) (ws : Nat) (m : Message)
    (hty : m.get "type" ≠ .string "setPairingCode") :
    (onMessage readyState st ws (.value m)).1.sessionCodes = st.sessionCodes := by
  cases hget : mapGet st.clients ws with
  | none =>
    simp only [onMessage, hget, hty, if_false]
    split_ifs <;> rfl
  | some info =>
    simp only [onMessage, hget, hty, if_false]
    split_ifs <;> rfl

theorem route_ping (readyState : Nat → Nat) (clients : List (Nat × ClientInfo))
    (ws : Nat) (info : ClientInfo) (m : Message) (hty : m.get "type" = .string "ping") :
    route readyState clients ws info m = [Effect.send ws (Payload.pong (m.get "timestamp"))] := by
  unfold route
  simp [hty]

/-! ## The heartbeat sweep -/

theorem mapGet_mapDelete {κ ν : Type} [DecidableEq κ] (l : List (κ × ν)) (k k1 : κ) :
    mapGet (mapDelete l k) k1 = if k = k1 then none else mapGet l k1 := by
  by_cases h : k = k1
  · subst h
    simp [mapGet_mapDelete_self]
  · simp [h, mapGet_mapDelete_ne l k k1 h]

theorem heartbeatVisit_get (readyState : Nat → Nat) (acc : Relay × List Effect) (w c : Nat) :
    mapGet (heartbeatVisit readyState acc w).1.clients c =
      if c = w then sweepEntry (mapGet acc.1.clients c) else mapGet acc.1.clients c := by
  unfold heartbeatVisit
  dsimp only
  by_cases hc : c = w
  · subst hc
    rw [if_pos rfl]
    cases hget : mapGet acc.1.clients c with
    | none => simp [sweepEntry, hget]
    | some info =>
      dsimp only
      by_cases hal : info.alive = false
      · simp [sweepEntry, hal, mapGet_mapDelete_self]
      · simp [sweepEntry, hal, mapGet_mapSet_self]
  · rw [if_neg hc]
    cases hget : mapGet acc.1.clients w with
    | none => rfl
    | some info =>
      dsimp only
      split_ifs
      · exact mapGet_mapDelete_ne _ _ _ (Ne.symm hc)
      · exact mapGet_mapDelete_ne _ _ _ (Ne.symm hc)
      all_goals exact mapGet_mapSet_ne _ _ _ _ (Ne.symm hc)

theorem heartbeat_fold_get (readyState : Nat → Nat) (sockets : List Nat) (hnd : sockets.Nodup)
    (acc : Relay × List Effect) (c : Nat) :
    mapGet (sockets.foldl (heartbeatVisit readyState) acc).1.clients c =
      if c ∈ sockets then sweepEntry (mapGet acc.1.clients c) else mapGet acc.1.clients c := by
  induction sockets generalizing acc with
  | nil => simp
  | cons w rest ih =>
    rw [List.nodup_cons] at hnd
    rw [List.foldl_cons, ih hnd.2, heartbeatVisit_get]
    by_cases hc : c = w
    · subst hc
      simp [hnd.1]
    · simp [hc]

theorem heartbeatInterval_get (readyState : Nat → Nat) (st : Relay) (htr : st.Tracked)
    (c : Nat) :
    mapGet (heartbeatInterval readyState st).1.clients c = sweepEntry (mapGet st.clients c) := by
  unfold heartbeatInterval
  rw [heartbeat_fold_get readyState st.wssClients htr.1 (st, []) c]
  split
  · rfl
  · rename_i hc
    cases hget : mapGet st.clients c with
    | none => rfl
    | some info => exact absurd (htr.2 c (mem_keys_of_mapGet _ _ _ hget)) hc

theorem onPong_other (st : Relay) (ws c : Nat) (hne : ws ≠ c) :
    mapGet (onPong st ws).clients c = mapGet st.clients c := by
  unfold onPong
  cases hget : mapGet st.clients ws with
  | none => rfl
  | some info => exact mapGet_mapSet_ne _ _ _ _ hne

theorem step_keeps_dead (st : Relay) (ev : Event) (c : Nat)
    (hbetween : ev.betweenSweeps c = true) (hquiet : ev.revives c = false)
    (hdead : ∀ i, mapGet st.clients c = some i → i.alive = false) :
    ∀ i, mapGet (step st ev).clients c = some i → i.alive = false := by
  intro i hi
  cases ev with
  | connection ws =>
    simp only [Event.betweenSweeps, decide_eq_true_eq] at hbetween
    simp only [step, onConnection, mapGet_mapSet_ne _ _ _ _ hbetween] at hi
    exact hdead i hi
  | message readyState ws data =>
    by_cases hws : ws = c
    · have hd : data = .syntaxError := by simpa [Event.revives, hws] using hquiet
      subst hd
      exact hdead i hi
    · simp only [step, onMessage_other readyState st ws c data hws] at hi
      exact hdead i hi
  | pong ws =>
    have hws : ws ≠ c := by simpa [Event.revives] using hquiet
    simp only [step, onPong_other st ws c hws] at hi
    exact hdead i hi
  | close ws =>
    simp only [step, onClose, mapGet_mapDelete] at hi
    split at hi
    · cases hi
    · exact hdead i hi
  | error ws =>
    simp only [step, onError, mapGet_mapDelete] at hi
    split at hi
    · cases hi
    · exact hdead i hi
  | heartbeat readyState => simp [Event.betweenSweeps] at hbetween

theorem run_tracked (st : Relay) (events : List Event) (h : st.Tracked) :
    (run st events).Tracked := by
  induction events generalizing st with
  | nil => exact h
  | cons ev rest ih => exact ih (step st ev) (step_tracked st ev h)

theorem run_keeps_dead (st : Relay) (events : List Event) (c : Nat)
    (hquiet : ∀ ev ∈ events, ev.betweenSweeps c = true ∧ ev.revives c = false)
    (hdead : ∀ i, mapGet st.clients c = some i → i.alive = false) :
    ∀ i, mapGet (run st events).clients c = some i → i.alive = false := by
  induction events generalizing st with
  | nil => exact hdead
  | cons ev rest ih =>
    have hev := hquiet ev (List.mem_cons_self _ _)
    exact ih (step st ev) (fun e he => hquiet e (List.mem_cons_of_mem _ he))
      (step_keeps_dead st ev c hev.1 hev.2 hdead)

theorem sweepEntry_dead (x : Option ClientInfo) :
    ∀ i, sweepEntry x = some i → i.alive = false := by
  intro i hi
  cases x with
  | none => simp [sweepEntry] at hi
  | some info =>
    simp only [sweepEntry] at hi
    split at hi
    · cases hi
    · cases hi
      rfl

theorem sweepEntry_of_dead (x : Option ClientInfo) (hdead : ∀ i, x = some i → i.alive = false) :
    sweepEntry x = none := by
  cases x with
  | none => rfl
  | some info => simp [sweepEntry, hdead info rfl]

/-- A socket that is silent between two consecutive sweeps is not registered
after the second. -/
theorem two_sweeps_evict (rs1 rs2 : Nat → Nat) (st : Relay) (htr : st.Tracked) (c : Nat)
    (between : List Event)
    (hquiet : ∀ ev ∈ between, ev.betweenSweeps c = true ∧ ev.revives c = false) :
    mapGet (heartbeatInterval rs2 (run (heartbeatInterval rs1 st).1 between)).1.clients c =
      none := by
  have htr1 : (heartbeatInterval rs1 st).1.Tracked := step_tracked st (.heartbeat rs1) htr
  rw [heartbeatInterval_get rs2 _ (run_tracked _ between htr1) c]
  apply sweepEntry_of_dead
  apply run_keeps_dead _ between c hquiet
  intro i hi
  rw [heartbeatInterval_get rs1 st htr c] at hi
  exact sweepEntry_dead _ i hi
theorem heartbeatVisit_terminate (readyState : Nat → Nat) (acc : Relay × List Effect)
    (w v : Nat) :
    Effect.terminate v ∈ (heartbeatVisit readyState acc w).2 ↔
      Effect.terminate v ∈ acc.2 ∨
        (v = w ∧ ∃ i, mapGet acc.1.clients v = some i ∧ i.alive = false) := by
  unfold heartbeatVisit
  dsimp only
  cases hget : mapGet acc.1.clients w with
  | none =>
    have hno : ¬ (v = w ∧ ∃ i, mapGet acc.1.clients v = some i ∧ i.alive = false) := by
      rintro ⟨rfl, i, hi, _⟩
      rw [hget] at hi
      cases hi
    dsimp only
    split_ifs <;> simp [hno]
  | some info =>
    dsimp only
    by_cases hal : info.alive = false
    · rw [if_pos hal]
      simp only [List.mem_append, List.mem_singleton, Effect.terminate.injEq]
      constructor
      · rintro (h | h)
        · exact Or.inl h
        · subst h
          exact Or.inr ⟨rfl, info, hget, hal⟩
      · rintro (h | ⟨h, _⟩)
        · exact Or.inl h
        · exact Or.inr h
    · rw [if_neg hal]
      have hno : ¬ (v = w ∧ ∃ i, mapGet acc.1.clients v = some i ∧ i.alive = false) := by
        rintro ⟨rfl, i, hi, hi2⟩
        rw [hget] at hi
        cases hi
        exact hal hi2
      dsimp only
      split_ifs <;> simp [hno]

theorem heartbeat_fold_terminate (readyState : Nat → Nat) (sockets : List Nat)
    (hnd : sockets.Nodup) (acc : Relay × List Effect) (v : Nat) :
    Effect.terminate v ∈ (sockets.foldl (heartbeatVisit readyState) acc).2 ↔
      Effect.terminate v ∈ acc.2 ∨
        (v ∈ sockets ∧ ∃ i, mapGet acc.1.clients v = some i ∧ i.alive = false) := by
  induction sockets generalizing acc with
  | nil => simp
  | cons w rest ih =>
    rw [List.nodup_cons] at hnd
    rw [List.foldl_cons, ih hnd.2, heartbeatVisit_terminate, heartbeatVisit_get]
    by_cases hv : v = w
    · subst hv
      simp [hnd.1]
    · simp [hv]

theorem heartbeatInterval_terminate (readyState : Nat → Nat) (st : Relay) (htr : st.Tracked)
    (v : Nat) :
    Effect.terminate v ∈ (heartbeatInterval readyState st).2 ↔
      ∃ i, mapGet st.clients v = some i ∧ i.alive = false := by
  unfold heartbeatInterval
  rw [heartbeat_fold_terminate readyState st.wssClients htr.1 (st, []) v]
  constructor
  · rintro (h | ⟨_, h⟩)
    · simp at h
    · exact h
  · rintro ⟨i, hi, hal⟩
    exact Or.inr ⟨htr.2 v (mem_keys_of_mapGet _ _ _ hi), i, hi, hal⟩

theorem findSessionByCode_first (pre post : List (JsValue × JsValue)) (k C : JsValue)
    (hpre : ∀ e ∈ pre, e.2 ≠ C) : findSessionByCode (pre ++ (k, C) :: post) C = k := by
  induction pre with
  | nil => simp [findSessionByCode]
  | cons e rest ih =>
    obtain ⟨k0, v0⟩ := e
    have hv : v0 ≠ C := hpre (k0, v0) (List.mem_cons_self _ _)
    simp only [List.cons_append, findSessionByCode, hv, if_false]
    exact ih (fun e he => hpre e (List.mem_cons_of_mem _ he))

/-! ## Persistence of authentication -/

theorem onMessage_keeps_authenticated (readyState : Nat → Nat) (st : Relay) (ws : Nat)
    (data : Parsed) (i i1 : ClientInfo) (hget : mapGet st.clients ws = some i)
    (hauth : i.authenticated = true)
    (hget1 : mapGet (onMessage readyState st ws data).1.clients ws = some i1) :
    i1.authenticated = true := by
  cases data with
  | syntaxError =>
    simp only [onMessage, hget] at hget1
    cases hget1
    exact hauth
  | null =>
    simp only [onMessage, hget, mapGet_mapSet_self] at hget1
    cases hget1
    exact hauth
  | value m =>
    simp only [onMessage, hget] at hget1
    split_ifs at hget1 <;> simp only [mapGet_mapSet_self] at hget1 <;> cases hget1 <;>
      first | rfl | exact hauth

theorem mapDelete_mapSet {κ ν : Type} [DecidableEq κ] (l : List (κ × ν)) (k : κ) (v : ν) :
    mapDelete (mapSet l k v) k = mapDelete l k := by
  induction l with
  | nil => simp [mapSet, mapDelete]
  | cons e rest ih =>
    obtain ⟨k0, v0⟩ := e
    by_cases h : k0 = k
    · simp [mapSet, mapDelete, h]
    · have ih1 : List.filter (fun e => decide (e.1 ≠ k)) (mapSet rest k v) =
          List.filter (fun e => decide (e.1 ≠ k)) rest := ih
      simp only [mapSet, mapDelete, h, if_false, List.filter_cons, ih1]

theorem mem_mapSet_ne (l : List (Nat × ClientInfo)) (ws c : Nat) (X ci : ClientInfo)
    (hne : c ≠ ws) : (c, ci) ∈ mapSet l ws X ↔ (c, ci) ∈ l := by
  induction l with
  | nil => simp [mapSet, hne]
  | cons e rest ih =>
    obtain ⟨k0, v0⟩ := e
    by_cases h : k0 = ws
    · subst h
      simp [mapSet, hne]
    · simp [mapSet, h, ih]

/-! ## Arithmetic of the extension -/

theorem nextIndex_eq (i n : Int) (hi : 0 ≤ i) (hin : i < n) :
    nextIndex i n = if i + 1 = n then 0 else i + 1 := by
  unfold nextIndex
  rw [Int.tmod_eq_emod (by omega) (by omega)]
  split
  · rename_i h
    rw [h, Int.emod_self]
  · apply Int.emod_eq_of_lt <;> omega

theorem prevIndex_eq (i n : Int) (hi : 0 ≤ i) (hin : i < n) :
    prevIndex i n = if i = 0 then n - 1 else i - 1 := by
  unfold prevIndex
  rw [Int.tmod_eq_emod (by omega) (by omega)]
  split
  · rename_i h
    subst h
    have h1 : (0 : Int) - 1 + n = n - 1 := by omega
    rw [h1]
    apply Int.emod_eq_of_lt <;> omega
  · rw [Int.add_emod_self]
    apply Int.emod_eq_of_lt <;> omega

theorem clamp_eq (w x : Rat) (hw : 0 ≤ w) : max 0 (min w x) = min (max x 0) w := by
  rcases le_total x 0 with hx | hx
  · rw [min_eq_right (hx.trans hw), max_eq_left hx, max_eq_right hx, min_eq_left hw]
  · rcases le_total x w with hxw | hxw
    · rw [min_eq_right hxw, max_eq_right hx, max_eq_left hx, min_eq_left hxw]
    · rw [min_eq_left hxw, max_eq_right hw, max_eq_left hx, min_eq_right hxw]

theorem clamp_bounds (w x : Rat) (hw : 0 ≤ w) : 0 ≤ max 0 (min w x) ∧ max 0 (min w x) ≤ w :=
  ⟨le_max_left _ _, max_le hw (min_le_left _ _)⟩

theorem clamp_idem (w x : Rat) (hw : 0 ≤ w) :
    max 0 (min w (max 0 (min w x))) = max 0 (min w x) := by
  obtain ⟨h0, h1⟩ := clamp_bounds w x hw
  rw [min_eq_right h1, max_eq_right h0]

theorem savePairingCode_accepts_iff (code : JsString) :
    (code.isEmpty || decide (code.length ≠ 6) || !digitsOnly code) = false ↔
      code.length = 6 ∧ ∀ u ∈ code, 48 ≤ u ∧ u ≤ 57 := by
  simp only [digitsOnly, Bool.or_eq_false_iff, decide_eq_false_iff_not, ne_eq, not_not,
    Bool.not_eq_false', Bool.and_eq_true, Bool.not_eq_true', List.all_eq_true,
    decide_eq_true_eq]
  constructor
  · rintro ⟨⟨_, hlen⟩, _, hall⟩
    exact ⟨hlen, hall⟩
  · rintro ⟨hlen, hall⟩
    have hne : code.isEmpty = false := by
      cases code with
      | nil => simp at hlen
      | cons a rest => rfl
    exact ⟨⟨hne, hlen⟩, hne, hall⟩

theorem simulateTyping_of_pos (el : InputElement) (text : JsString) (s e : Nat)
    (hs : el.selectionStart = some s) (he : el.selectionEnd = some e)
    (hpos : 0 < s) (hse : s ≤ e) (hlen : e ≤ el.value.length) :
    simulateTyping el text =
      { value := el.value.take s ++ text ++ el.value.drop e
        selectionStart := some (s + text.length)
        selectionEnd := some (s + text.length) } := by
  have hs1 : orLength (some s) el.value.length = s := by
    cases s with
    | zero => omega
    | succ k => rfl
  have he1 : orLength (some e) el.value.length = e := by
    cases e with
    | zero => omega
    | succ k => rfl
  have hmin : min (s + text.length) (el.value.take s ++ text ++ el.value.drop e).length =
      s + text.length := by
    simp only [List.length_append, List.length_take, List.length_drop]
    omega
  simp only [simulateTyping, hs, he, hs1, he1, hmin]

/-! ## Rounding to a double -/

theorem roundHalfEven_le (q : Rat) (n : Int) (h : q ≤ n) : roundHalfEven q ≤ n := by
  have hf : ((⌊q⌋ : Int) : Rat) ≤ q := Int.floor_le q
  have h0 : ⌊q⌋ ≤ n := by exact_mod_cast hf.trans h
  have hstep : ¬ (q - ⌊q⌋ < 1 / 2) → ⌊q⌋ + 1 ≤ n := by
    intro hge
    have hlt : ((⌊q⌋ : Int) : Rat) < n := by linarith
    have : ⌊q⌋ < n := by exact_mod_cast hlt
    omega
  unfold roundHalfEven
  split_ifs with h1 h2 h3
  · exact h0
  · exact hstep h1
  · exact h0
  · exact hstep h1

theorem le_roundHalfEven (q : Rat) (n : Int) (h : (n : Rat) ≤ q) : n ≤ roundHalfEven q := by
  have h0 : n ≤ ⌊q⌋ := Int.le_floor.mpr h
  unfold roundHalfEven
  split_ifs <;> omega

theorem roundHalfEven_le_pred (q : Rat) (n : Int) (h : q < n - 1 / 2) :
    roundHalfEven q ≤ n - 1 := by
  have hf : ((⌊q⌋ : Int) : Rat) ≤ q := Int.floor_le q
  have h0 : ⌊q⌋ ≤ n - 1 := by
    have hlt : ((⌊q⌋ : Int) : Rat) < n := by linarith
    have : ⌊q⌋ < n := by exact_mod_cast hlt
    omega
  have hstep : ¬ (q - ⌊q⌋ < 1 / 2) → ⌊q⌋ + 1 ≤ n - 1 := by
    intro hge
    have hlt : ((⌊q⌋ : Int) : Rat) + 1 < n := by linarith
    have : ⌊q⌋ + 1 < n := by exact_mod_cast hlt
    omega
  unfold roundHalfEven
  split_ifs with h1 h2 h3
  · exact h0
  · exact hstep h1
  · exact h0
  · exact hstep h1

theorem ulp_pos (x : Rat) : 0 < ulp x :=
  zpow_pos (by norm_num) _

theorem roundToDouble_le (x : Rat) (N : Int) (h : x / ulp x ≤ N) :
    roundToDouble x ≤ N * ulp x := by
  have hr : ((roundHalfEven (x / ulp x) : Int) : Rat) ≤ N := by
    exact_mod_cast roundHalfEven_le _ N h
  exact mul_le_mul_of_nonneg_right hr (ulp_pos x).le

theorem le_roundToDouble (x : Rat) (N : Int) (h : (N : Rat) ≤ x / ulp x) :
    N * ulp x ≤ roundToDouble x := by
  have hr : (N : Rat) ≤ ((roundHalfEven (x / ulp x) : Int) : Rat) := by
    exact_mod_cast le_roundHalfEven _ N h
  exact mul_le_mul_of_nonneg_right hr (ulp_pos x).le

theorem roundToDouble_nonneg (x : Rat) (hx : 0 ≤ x) : 0 ≤ roundToDouble x := by
  have h := le_roundToDouble x 0 (by simpa using div_nonneg hx (ulp_pos x).le)
  simpa using h

theorem binade_le (x : Rat) (e : Int) (hx : 0 < x) (hlt : x < (2 : Rat) ^ (e + 1))
    (he : -1022 ≤ e) : binade x ≤ e := by
  have hlog : Int.log 2 x < e + 1 :=
    (Int.lt_zpow_iff_log_lt (by norm_num) hx).mp (by simpa using hlt)
  unfold binade
  rw [abs_of_pos hx]
  exact max_le (by omega) he

theorem le_binade (x : Rat) (e : Int) (hx : 0 < x) (hle : (2 : Rat) ^ e ≤ x) :
    e ≤ binade x := by
  have hlog : e ≤ Int.log 2 x :=
    (Int.zpow_le_iff_le_log (by norm_num) hx).mp (by simpa using hle)
  unfold binade
  rw [abs_of_pos hx]
  exact le_max_of_le_left hlog

theorem lt_zpow_binade (x : Rat) (hx : 0 < x) : x < (2 : Rat) ^ (binade x + 1) := by
  have h1 : x < ((2 : Nat) : Rat) ^ (Int.log 2 x + 1) := Int.lt_zpow_succ_log_self (by norm_num) x
  have h2 : Int.log 2 x + 1 ≤ binade x + 1 := by
    unfold binade
    rw [abs_of_pos hx]
    have := le_max_left (Int.log 2 x) (-1022)
    omega
  have h3 : (2 : Rat) ^ (Int.log 2 x + 1) ≤ (2 : Rat) ^ (binade x + 1) :=
    zpow_le_zpow_right₀ (by norm_num) h2
  exact lt_of_lt_of_le (by simpa using h1) h3

theorem pow_mul_ulp (x : Rat) : (2 : Rat) ^ (53 : Nat) * ulp x = (2 : Rat) ^ (binade x + 1) := by
  unfold ulp
  rw [← zpow_natCast, ← zpow_add₀ (by norm_num)]
  congr 1
  push_cast
  ring

theorem div_ulp_lt (x : Rat) (hx : 0 < x) : x / ulp x < (2 : Rat) ^ (53 : Nat) := by
  rw [div_lt_iff₀ (ulp_pos x), pow_mul_ulp]
  exact lt_zpow_binade x hx
theorem roundToDouble_le_pred (x : Rat) (N : Int) (h : x / ulp x < N - 1 / 2) :
    roundToDouble x ≤ (N - 1) * ulp x := by
  have hr : ((roundHalfEven (x / ulp x) : Int) : Rat) ≤ N - 1 := by
    exact_mod_cast roundHalfEven_le_pred _ N h
  exact mul_le_mul_of_nonneg_right hr (ulp_pos x).le

theorem roundToDouble_zero : roundToDouble 0 = 0 := by
  simp [roundToDouble, roundHalfEven]

theorem ulp_eq_of_binade (x : Rat) (e : Int) (he : binade x = e) :
    ulp x = (2 : Rat) ^ (e - 52) := by
  unfold ulp
  rw [he]

/-- A double below one is at most the predecessor of one. -/
theorem double_lt_one (r : Rat) (hd : isDouble r) (h0 : 0 < r) (h1 : r < 1) :
    r ≤ 1 - 1 / 2 ^ 53 := by
  have he : binade r ≤ -1 := binade_le r (-1) h0 (by simpa using h1) (by norm_num)
  have hu : ulp r ≤ 1 / 2 ^ 53 := by
    have h := zpow_le_zpow_right₀ (show (1 : Rat) ≤ 2 by norm_num)
      (show binade r - 52 ≤ -53 by omega)
    have h2 : (2 : Rat) ^ (-53 : Int) = 1 / 2 ^ 53 := by norm_num [zpow_neg]
    unfold ulp
    rw [← h2]
    exact h
  have hup := ulp_pos r
  have hn : ((roundHalfEven (r / ulp r) : Int) : Rat) * ulp r = r := hd
  have hq : ((roundHalfEven (r / ulp r) : Int) : Rat) = r / ulp r := by
    rw [eq_div_iff hup.ne']
    exact hn
  have hlt : ((roundHalfEven (r / ulp r) : Int) : Rat) < ((2 ^ 53 : Int) : Rat) := by
    rw [hq]
    have := div_ulp_lt r h0
    push_cast
    exact this
  have hint : roundHalfEven (r / ulp r) ≤ 2 ^ 53 - 1 := by
    have : roundHalfEven (r / ulp r) < 2 ^ 53 := by exact_mod_cast hlt
    omega
  have hcast : ((roundHalfEven (r / ulp r) : Int) : Rat) ≤ 2 ^ 53 - 1 := by
    exact_mod_cast hint
  calc r = ((roundHalfEven (r / ulp r) : Int) : Rat) * ulp r := hn.symm
    _ ≤ (2 ^ 53 - 1) * ulp r := mul_le_mul_of_nonneg_right hcast hup.le
    _ ≤ (2 ^ 53 - 1) * (1 / 2 ^ 53) := mul_le_mul_of_nonneg_left hu (by norm_num)
    _ = 1 - 1 / 2 ^ 53 := by norm_num

/-- The product `Math.random() * 900000` stays below the double that precedes
900000. -/
theorem jsMul_random_bounds (r : Rat) (h0 : 0 ≤ r) (hr : r ≤ 1 - 1 / 2 ^ 53) :
    0 ≤ jsMul r 900000 ∧ jsMul r 900000 ≤ 900000 - 1 / 2 ^ 33 := by
  have hx0 : 0 ≤ r * 900000 := by positivity
  refine ⟨roundToDouble_nonneg _ hx0, ?_⟩
  unfold jsMul
  rcases hx0.eq_or_lt with hz | hpos
  · rw [← hz, roundToDouble_zero]
    norm_num
  · have hxle : r * 900000 ≤ 900000 - 900000 / 2 ^ 53 := by linarith
    have he : binade (r * 900000) ≤ 19 :=
      binade_le _ 19 hpos (by norm_num; linarith) (by norm_num)
    rcases he.eq_or_lt with h19 | hlt
    · have hu : ulp (r * 900000) = 1 / 2 ^ 33 := by
        rw [ulp_eq_of_binade _ 19 h19]
        norm_num [zpow_neg]
      have hq : r * 900000 / ulp (r * 900000) < ((900000 * 2 ^ 33 : Int) : Rat) - 1 / 2 := by
        rw [hu]
        push_cast
        rw [div_lt_iff₀ (by norm_num)]
        norm_num
        linarith
      have h := roundToDouble_le_pred (r * 900000) (900000 * 2 ^ 33) hq
      rw [hu] at h
      push_cast at h
      linarith
    · have hle : binade (r * 900000) + 1 ≤ 19 := by omega
      have hc : (((2 ^ 53 : Int) : Int) : Rat) = (2 : Rat) ^ (53 : Nat) := by norm_num
      have h := roundToDouble_le (r * 900000) (2 ^ 53)
        (by rw [hc]; exact (div_ulp_lt _ hpos).le)
      rw [hc, pow_mul_ulp] at h
      have h3 : (2 : Rat) ^ (binade (r * 900000) + 1) ≤ (2 : Rat) ^ (19 : Int) :=
        zpow_le_zpow_right₀ (by norm_num) hle
      have h4 : (2 : Rat) ^ (19 : Int) = 524288 := by norm_num
      rw [h4] at h3
      have h5 : (524288 : Rat) ≤ 900000 - 1 / 2 ^ 33 := by norm_num
      linarith
theorem roundToDouble_sum_bounds (s : Rat) (k : Nat) (hu : ulp s = 1 / (2 ^ 33 * 2 ^ k))
    (hlo : 100000 ≤ s) (hhi : s ≤ 1000000 - 1 / 2 ^ 33) :
    100000 ≤ roundToDouble s ∧ roundToDouble s ≤ 1000000 - 1 / 2 ^ 33 := by
  have hP : (0 : Rat) < 2 ^ 33 * 2 ^ k := by positivity
  have cancel : ∀ a : Rat, a * (2 ^ 33 * 2 ^ k) * (1 / (2 ^ 33 * 2 ^ k)) = a := by
    intro a
    field_simp
  have hq : s / ulp s = s * (2 ^ 33 * 2 ^ k) := by
    rw [hu]
    field_simp
  have hN1 : ((100000 * 2 ^ 33 * 2 ^ k : Int) : Rat) = 100000 * (2 ^ 33 * 2 ^ k) := by
    push_cast
    ring
  have hN2 : (((1000000 * 2 ^ 33 - 1) * 2 ^ k : Int) : Rat) =
      (1000000 - 1 / 2 ^ 33) * (2 ^ 33 * 2 ^ k) := by
    push_cast
    ring
  constructor
  · have h := le_roundToDouble s (100000 * 2 ^ 33 * 2 ^ k) (by
      rw [hq, hN1]
      exact mul_le_mul_of_nonneg_right hlo hP.le)
    rw [hN1, hu, cancel] at h
    exact h
  · have h := roundToDouble_le s ((1000000 * 2 ^ 33 - 1) * 2 ^ k) (by
      rw [hq, hN2]
      exact mul_le_mul_of_nonneg_right hhi hP.le)
    rw [hN2, hu, cancel] at h
    exact h

/-- The sum `100000 + y` stays below the double that precedes one million. -/
theorem jsAdd_offset_bounds (y : Rat) (h0 : 0 ≤ y) (hy : y ≤ 900000 - 1 / 2 ^ 33) :
    100000 ≤ jsAdd 100000 y ∧ jsAdd 100000 y ≤ 1000000 - 1 / 2 ^ 33 := by
  unfold jsAdd
  have hlo : (100000 : Rat) ≤ 100000 + y := by linarith
  have hhi : 100000 + y ≤ 1000000 - 1 / 2 ^ 33 := by linarith
  have hpos : (0 : Rat) < 100000 + y := by linarith
  have he1 : 16 ≤ binade (100000 + y) := le_binade _ 16 hpos (by norm_num; linarith)
  have he2 : binade (100000 + y) ≤ 19 :=
    binade_le _ 19 hpos (by norm_num; linarith) (by norm_num)
  obtain ⟨e, he⟩ : ∃ e, binade (100000 + y) = e := ⟨_, rfl⟩
  rw [he] at he1 he2
  have hu := ulp_eq_of_binade _ e he
  interval_cases e
  · exact roundToDouble_sum_bounds _ 3 (by rw [hu]; norm_num [zpow_neg]) hlo hhi
  · exact roundToDouble_sum_bounds _ 2 (by rw [hu]; norm_num [zpow_neg]) hlo hhi
  · exact roundToDouble_sum_bounds _ 1 (by rw [hu]; norm_num [zpow_neg]) hlo hhi
  · exact roundToDouble_sum_bounds _ 0 (by rw [hu]; norm_num [zpow_neg]) hlo hhi

/-- The integer produced by `Math.floor(100000 + Math.random() * 900000)`. -/
theorem floor_code_bounds (r : Rat) (hd : isDouble r) (h0 : 0 ≤ r) (h1 : r < 1) :
    100000 ≤ ⌊jsAdd 100000 (jsMul r 900000)⌋ ∧ ⌊jsAdd 100000 (jsMul r 900000)⌋ ≤ 999999 := by
  have hr : r ≤ 1 - 1 / 2 ^ 53 := by
    rcases h0.eq_or_lt with hz | hpos
    · rw [← hz]
      norm_num
    · exact double_lt_one r hd hpos h1
  obtain ⟨hm0, hm1⟩ := jsMul_random_bounds r h0 hr
  obtain ⟨ha0, ha1⟩ := jsAdd_offset_bounds _ hm0 hm1
  constructor
  · exact Int.le_floor.mpr (by exact_mod_cast ha0)
  · have hlt : ⌊jsAdd 100000 (jsMul r 900000)⌋ < 1000000 := by
      apply Int.floor_lt.mpr
      have : (1000000 : Rat) - 1 / 2 ^ 33 < 1000000 := by norm_num
      push_cast
      linarith
    omega

theorem integerToString_six (n : Int) (hlo : 100000 ≤ n) (hhi : n ≤ 999999) :
    (integerToString n).length = 6 ∧ (∀ u ∈ integerToString n, 48 ≤ u ∧ u ≤ 57) ∧
      (integerToString n).head? ≠ some 48 := by
  have hneg : ¬ n < 0 := by omega
  have hz : ¬ n = 0 := by omega
  have hm0 : n.natAbs ≠ 0 := by omega
  have hm1 : 10 ^ 5 ≤ n.natAbs := by omega
  have hm2 : n.natAbs < 10 ^ (5 + 1) := by omega
  have hlog : Nat.log 10 n.natAbs = 5 := Nat.log_eq_of_pow_le_of_lt_pow hm1 hm2
  simp only [integerToString, hneg, hz, if_false]
  refine ⟨?_, ?_, ?_⟩
  · rw [List.length_map, List.length_reverse, Nat.digits_len 10 _ (by norm_num) hm0, hlog]
  · intro u hu
    obtain ⟨d, hd, rfl⟩ := List.mem_map.mp hu
    have := Nat.digits_lt_base (by norm_num : 1 < 10) (List.mem_reverse.mp hd)
    omega
  · have hne : Nat.digits 10 n.natAbs ≠ [] := by
      intro h
      have := Nat.digits_len 10 _ (by norm_num) hm0
      rw [h] at this
      simp at this
    have hlast := Nat.getLast_digit_ne_zero 10 hm0
    cases hrev : (Nat.digits 10 n.natAbs).reverse with
    | nil => simp [hne] at hrev
    | cons d rest =>
      have hd : d = (Nat.digits 10 n.natAbs).getLast hne := by
        have h := List.getLast_eq_head_reverse hne
        simp only [hrev, List.head_cons] at h
        exact h.symm
      simp only [List.map_cons, List.head?_cons, ne_eq, Option.some.injEq]
      rw [hd]
      intro h
      apply hlast
      have hne2 : Nat.digits 10 n.natAbs ≠ [] := hne
      omega

theorem roundHalfEven_intCast (n : Int) : roundHalfEven (n : Rat) = n := by
  simp [roundHalfEven]

theorem isDouble_half : isDouble (1 / 2) := by
  have hlog : Int.log 2 (|(1 / 2 : Rat)|) = -1 := by
    have h := Int.log_zpow (R := Rat) (b := 2) (by norm_num) (-1)
    have e : |(1 / 2 : Rat)| = ((2 : Nat) : Rat) ^ (-1 : Int) := by norm_num [abs_of_pos]
    rw [e]
    exact h
  have hb : binade (1 / 2) = -1 := by
    unfold binade
    rw [hlog]
    rfl
  have hu : ulp (1 / 2) = 1 / 2 ^ 53 := by
    rw [ulp_eq_of_binade _ (-1) hb]
    norm_num [zpow_neg]
  unfold isDouble roundToDouble
  rw [hu]
  have hq : (1 / 2 : Rat) / (1 / 2 ^ 53) = ((2 ^ 52 : Int) : Rat) := by norm_num
  rw [hq, roundHalfEven_intCast]
  norm_num

/-! ## Paths: splitting and joining -/

theorem splitSegments_ne_nil (s : JsString) : splitSegments s ≠ [] := by
  cases s with
  | nil => simp [splitSegments]
  | cons c rest =>
    unfold splitSegments
    split_ifs
    · simp
    · split <;> simp

theorem splitSegments_append_slash (a b : JsString) :
    splitSegments (a ++ 47 :: b) = splitSegments a ++ splitSegments b := by
  induction a with
  | nil => simp [splitSegments]
  | cons c rest ih =>
    by_cases hc : c = 47
    · simp [splitSegments, hc, ih]
    · cases hrest : splitSegments rest with
      | nil => exact absurd hrest (splitSegments_ne_nil rest)
      | cons seg segs =>
        simp only [List.cons_append, splitSegments, hc, if_false, List.append_eq]
        rw [ih, hrest]
        rfl

theorem splitSegments_of_no_slash (a : JsString) (h : 47 ∉ a) : splitSegments a = [a] := by
  induction a with
  | nil => rfl
  | cons c rest ih =>
    have hc : c ≠ 47 := fun hc => h (by simp [hc])
    have hrest : 47 ∉ rest := fun hr => h (List.mem_cons_of_mem _ hr)
    simp [splitSegments, hc, ih hrest]

theorem splitSegments_no_slash (s : JsString) : ∀ seg ∈ splitSegments s, 47 ∉ seg := by
  induction s with
  | nil => simp [splitSegments]
  | cons c rest ih =>
    by_cases hc : c = 47
    · intro seg hseg
      simp only [splitSegments, hc, if_true, List.mem_cons] at hseg
      rcases hseg with h | h
      · simp [h]
      · exact ih seg h
    · intro seg hseg
      simp only [splitSegments, hc, if_false] at hseg
      cases hrest : splitSegments rest with
      | nil => exact absurd hrest (splitSegments_ne_nil rest)
      | cons s0 segs =>
        rw [hrest] at hseg ih
        simp only [List.mem_cons] at hseg
        rcases hseg with h | h
        · subst h
          have h0 := ih s0 (List.mem_cons_self _ _)
          intro hmem
          rcases List.mem_cons.mp hmem with h1 | h1
          · exact hc h1.symm
          · exact h0 h1
        · exact ih seg (List.mem_cons_of_mem _ h)

theorem splitSegments_joinSegments (segs : List JsString) (hne : segs ≠ [])
    (hslash : ∀ seg ∈ segs, 47 ∉ seg) : splitSegments (joinSegments segs) = segs := by
  induction segs with
  | nil => exact absurd rfl hne
  | cons s rest ih =>
    cases rest with
    | nil => exact splitSegments_of_no_slash s (hslash s (List.mem_cons_self _ _))
    | cons t rest2 =>
      have hs := splitSegments_of_no_slash s (hslash s (List.mem_cons_self _ _))
      have ht := ih (by simp) (fun seg hseg => hslash seg (List.mem_cons_of_mem _ hseg))
      simp only [joinSegments, splitSegments_append_slash, hs, ht, List.singleton_append]

theorem length_le_joinSegments (segs : List JsString) (seg : JsString) (h : seg ∈ segs) :
    seg.length ≤ (joinSegments segs).length := by
  induction segs with
  | nil => simp at h
  | cons s rest ih =>
    cases rest with
    | nil =>
      simp only [List.mem_singleton] at h
      subst h
      simp [joinSegments]
    | cons t rest2 =>
      simp only [joinSegments, List.length_append, List.length_cons]
      rcases List.mem_cons.mp h with h1 | h1
      · subst h1
        omega
      · have := ih h1
        simp only [joinSegments] at this
        omega

/-- A path whose first segment is `..` is `..` or starts with `../`. -/
theorem head_splitSegments_dotDot (s : JsString) (seg : JsString) (segs : List JsString)
    (h : splitSegments s = seg :: segs) (hseg : seg = dotDot) :
    s = dotDot ∨ ∃ rest, s = 46 :: 46 :: 47 :: rest := by
  subst hseg
  match s with
  | [] => simp [splitSegments, dotDot] at h
  | [a] =>
    by_cases ha : a = 47 <;> simp [splitSegments, ha, dotDot] at h
  | [a, b] =>
    by_cases ha : a = 47
    · simp [splitSegments, ha, dotDot] at h
    · by_cases hb : b = 47
      · simp [splitSegments, ha, hb, dotDot] at h
      · simp only [splitSegments, ha, hb, if_false, dotDot, List.cons.injEq] at h
        left
        simp [dotDot, h.1.1, h.1.2.1]
  | a :: b :: c :: rest =>
    by_cases ha : a = 47
    · simp [splitSegments, ha, dotDot] at h
    · by_cases hb : b = 47
      · simp [splitSegments, ha, hb, dotDot] at h
      · by_cases hc : c = 47
        · simp only [splitSegments, ha, hb, hc, if_false, if_true, dotDot, List.cons.injEq] at h
          right
          exact ⟨rest, by simp [h.1.1, h.1.2.1, hc]⟩
        · exfalso
          simp only [splitSegments, ha, hb, hc, if_false] at h
          cases hrest : splitSegments rest with
          | nil => exact absurd hrest (splitSegments_ne_nil rest)
          | cons s0 segs0 =>
            rw [hrest] at h
            simp [dotDot] at h

/-! ## Paths: the leading run of `..` -/

theorem LeadingDots.tail {X : List JsString} (h : LeadingDots (dotDot :: X)) :
    LeadingDots X := by
  obtain ⟨k, T, hk, hT⟩ := h
  cases k with
  | zero =>
    simp only [List.replicate_zero, List.nil_append] at hk
    exact absurd (hk ▸ List.mem_cons_self _ _) hT
  | succ k =>
    simp only [List.replicate_succ, List.cons_append, List.cons.injEq, true_and] at hk
    exact ⟨k, T, hk, hT⟩

theorem LeadingDots.not_mem {seg : JsString} {X : List JsString}
    (h : LeadingDots (seg :: X)) (hseg : seg ≠ dotDot) : dotDot ∉ seg :: X := by
  obtain ⟨k, T, hk, hT⟩ := h
  cases k with
  | zero =>
    simp only [List.replicate_zero, List.nil_append] at hk
    rw [hk]
    exact hT
  | succ k =>
    simp only [List.replicate_succ, List.cons_append, List.cons.injEq] at hk
    exact absurd hk.1 hseg

theorem LeadingDots.of_tail (seg : JsString) {X : List JsString} (h : dotDot ∉ X) :
    LeadingDots (seg :: X) := by
  by_cases hseg : seg = dotDot
  · exact ⟨1, X, by simp [hseg], h⟩
  · exact ⟨0, seg :: X, by simp, by
      intro hmem
      rcases List.mem_cons.mp hmem with h1 | h1
      · exact hseg h1.symm
      · exact h h1⟩

theorem LeadingDots.of_not_mem {X : List JsString} (h : dotDot ∉ X) : LeadingDots X :=
  ⟨0, X, by simp, h⟩

theorem stripDotDots_no_dotDot (n : Nat) :
    ∀ s : JsString, s.length ≤ n → LeadingDots (splitSegments s) →
      dotDot ∉ splitSegments (stripDotDots s) := by
  induction n with
  | zero =>
    intro s hlen _
    have hs : s = [] := List.length_eq_zero.mp (by omega)
    subst hs
    simp [stripDotDots, splitSegments, dotDot]
  | succ n ih =>
    intro s hlen hld
    have hkeep : (s ≠ dotDot ∧ ¬ ∃ rest, s = 46 :: 46 :: 47 :: rest) →
        dotDot ∉ splitSegments s := by
      intro hno
      cases hsp : splitSegments s with
      | nil => exact absurd hsp (splitSegments_ne_nil s)
      | cons seg segs =>
        rw [hsp] at hld
        apply hld.not_mem
        intro hseg
        rcases head_splitSegments_dotDot s seg segs hsp hseg with h | h
        · exact hno.1 h
        · exact hno.2 h
    match s, hlen, hld, hkeep with
    | [], _, _, _ => simp [stripDotDots, splitSegments, dotDot]
    | [a], _, _, hkeep =>
      simp only [stripDotDots]
      exact hkeep ⟨by simp [dotDot], by simp⟩
    | [a, b], _, _, hkeep =>
      simp only [stripDotDots]
      split_ifs with hab
      · simp [splitSegments, dotDot]
      · apply hkeep
        refine ⟨?_, by simp⟩
        intro h
        simp only [dotDot, List.cons.injEq, and_true] at h
        exact hab h
    | a :: b :: c :: rest, hlen, hld, hkeep =>
      simp only [stripDotDots]
      split_ifs with habc
      · obtain ⟨ha, hb, hc⟩ := habc
        subst ha hb
        have hlen' : rest.length ≤ n := by
          simp only [List.length_cons] at hlen
          omega
        apply ih rest hlen'
        rcases hc with hc | hc
        · subst hc
          have hsp : splitSegments (46 :: 46 :: 47 :: rest) = dotDot :: splitSegments rest := by
            exact splitSegments_append_slash [46, 46] rest
          rw [hsp] at hld
          exact hld.tail
        · subst hc
          cases hrest : splitSegments rest with
          | nil => exact absurd hrest (splitSegments_ne_nil rest)
          | cons f tl =>
            have hsp : splitSegments (46 :: 46 :: 92 :: rest) = (46 :: 46 :: 92 :: f) :: tl := by
              simp [splitSegments, hrest]
            rw [hsp] at hld
            have hno := hld.not_mem (by simp [dotDot])
            exact LeadingDots.of_tail f (fun h => hno (List.mem_cons_of_mem _ h))
      · apply hkeep
        refine ⟨by simp [dotDot], ?_⟩
        rintro ⟨r, hr⟩
        simp only [List.cons.injEq] at hr
        exact habc ⟨hr.1, hr.2.1, Or.inl hr.2.2.1⟩

/-! ## Paths: what `path.normalize` returns -/

theorem normalizeStep_shape (allow : Bool) (kept : List JsString) (seg : JsString)
    (hkept : KeptShape allow kept) (hseg : 47 ∉ seg) :
    KeptShape allow (normalizeStep allow kept seg) := by
  obtain ⟨T, k, hk, hallow, hT⟩ := hkept
  unfold normalizeStep
  by_cases h1 : seg = [] ∨ seg = [46]
  · rw [if_pos h1]
    exact ⟨T, k, hk, hallow, hT⟩
  · rw [if_neg h1]
    by_cases h2 : seg = dotDot
    · rw [if_pos h2]
      cases T with
      | cons t T1 =>
        have ht := hT t (List.mem_cons_self _ _)
        subst hk
        simp only [List.cons_append]
        rw [if_neg ht.1]
        exact ⟨T1, k, rfl, hallow, fun u hu => hT u (List.mem_cons_of_mem _ hu)⟩
      | nil =>
        cases k with
        | zero =>
          subst hk
          simp only [List.replicate_zero, List.append_nil]
          cases allow with
          | true => exact ⟨[], 1, by simp, by simp, by simp⟩
          | false => exact ⟨[], 0, by simp, by simp, by simp⟩
        | succ k =>
          subst hk
          simp only [List.nil_append, List.replicate_succ, if_true]
          cases allow with
          | true => exact ⟨[], k + 2, by simp [List.replicate_succ], by simp, by simp⟩
          | false => exact absurd (hallow rfl) (by omega)
    · rw [if_neg h2]
      refine ⟨seg :: T, k, by simp [hk], hallow, ?_⟩
      intro u hu
      rcases List.mem_cons.mp hu with h | h
      · subst h
        exact ⟨h2, fun h => h1 (Or.inl h), hseg⟩
      · exact hT u h

theorem foldl_normalizeStep_shape (allow : Bool) (segs : List JsString)
    (hsegs : ∀ seg ∈ segs, 47 ∉ seg) (kept : List JsString) (hkept : KeptShape allow kept) :
    KeptShape allow (segs.foldl (normalizeStep allow) kept) := by
  induction segs generalizing kept with
  | nil => exact hkept
  | cons seg rest ih =>
    exact ih (fun s hs => hsegs s (List.mem_cons_of_mem _ hs)) _
      (normalizeStep_shape allow kept seg hkept (hsegs seg (List.mem_cons_self _ _)))

/-- The kept segments of a path: a run of `..`, only for a relative path, then
segments that are neither empty nor `..` and contain no `/`. -/
theorem normalizeString_shape (allow : Bool) (path : JsString) :
    ∃ k T, normalizeString allow (splitSegments path) = List.replicate k dotDot ++ T ∧
      (allow = false → k = 0) ∧ ∀ t ∈ T, t ≠ dotDot ∧ t ≠ [] ∧ 47 ∉ t := by
  obtain ⟨T, k, hk, hallow, hT⟩ := foldl_normalizeStep_shape allow (splitSegments path)
    (splitSegments_no_slash path) [] ⟨[], 0, rfl, fun _ => rfl, by simp⟩
  refine ⟨k, T.reverse, ?_, hallow, fun t ht => hT t (List.mem_reverse.mp ht)⟩
  unfold normalizeString
  rw [hk, List.reverse_append, List.reverse_replicate]

theorem joinSegments_append_slash (segs : List JsString) (hne : segs ≠ [])
    (hslash : ∀ seg ∈ segs, 47 ∉ seg) :
    splitSegments (joinSegments segs ++ [47]) = segs ++ [[]] := by
  rw [splitSegments_append_slash, splitSegments_joinSegments segs hne hslash]
  rfl

theorem normalize_of_ne_nil (path : JsString) (hne : path ≠ []) :
    normalize path =
      if joinSegments (normalizeString (!decide (path.head? = some 47)) (splitSegments path)) = []
      then
        if path.head? = some 47 then [47]
        else if path.getLast? = some 47 then [46, 47] else [46]
      else
        (if path.head? = some 47 then [47] else []) ++
          joinSegments (normalizeString (!decide (path.head? = some 47)) (splitSegments path)) ++
          (if path.getLast? = some 47 then [47] else []) := by
  unfold normalize
  rw [if_neg hne]
  simp only [decide_eq_true_eq]

/-- The segments of a normalised path have all their `..` in front. -/
theorem normalize_leadingDots (path : JsString) :
    LeadingDots (splitSegments (normalize path)) := by
  by_cases hempty : path = []
  · subst hempty
    exact LeadingDots.of_not_mem (by simp [normalize, splitSegments, dotDot])
  rw [normalize_of_ne_nil path hempty]
  by_cases hres : joinSegments
      (normalizeString (!decide (path.head? = some 47)) (splitSegments path)) = []
  · rw [if_pos hres]
    split_ifs <;> exact LeadingDots.of_not_mem (by simp [splitSegments, dotDot])
  · rw [if_neg hres]
    obtain ⟨k, T, hN, hallow, hT⟩ :=
      normalizeString_shape (!decide (path.head? = some 47)) path
    have hdd : (47 : Nat) ∉ dotDot := by simp [dotDot]
    have hslash : ∀ seg ∈ List.replicate k dotDot ++ T, 47 ∉ seg := by
      intro seg hseg
      rcases List.mem_append.mp hseg with h | h
      · rw [(List.mem_replicate.mp h).2]
        exact hdd
      · exact (hT seg h).2.2
    have hTdd : dotDot ∉ T := fun h => (hT dotDot h).1 rfl
    have hTdd2 : dotDot ∉ T ++ [[]] := by
      intro h
      rcases List.mem_append.mp h with h | h
      · exact hTdd h
      · simp [dotDot] at h
    have hne : List.replicate k dotDot ++ T ≠ [] := by
      intro h
      rw [hN, h] at hres
      exact hres rfl
    rw [hN]
    by_cases habs : path.head? = some 47
    · have hk0 : k = 0 := hallow (by simp [habs])
      subst hk0
      rw [if_pos habs]
      simp only [List.replicate_zero, List.nil_append] at hne hslash ⊢
      by_cases htrail : path.getLast? = some 47
      · rw [if_pos htrail]
        have hsp : splitSegments ([47] ++ joinSegments T ++ [47]) = [] :: (T ++ [[]]) := by
          have h1 := splitSegments_append_slash [] (joinSegments T ++ [47])
          rw [joinSegments_append_slash T hne hslash] at h1
          exact h1
        rw [hsp]
        exact LeadingDots.of_tail [] hTdd2
      · rw [if_neg htrail]
        have hsp : splitSegments ([47] ++ joinSegments T ++ []) = [] :: T := by
          have h1 := splitSegments_append_slash [] (joinSegments T)
          rw [splitSegments_joinSegments T hne hslash] at h1
          rw [List.append_nil]
          exact h1
        rw [hsp]
        exact LeadingDots.of_tail [] hTdd
    · rw [if_neg habs, List.nil_append]
      by_cases htrail : path.getLast? = some 47
      · rw [if_pos htrail, joinSegments_append_slash _ hne hslash, List.append_assoc]
        exact ⟨k, T ++ [[]], rfl, hTdd2⟩
      · rw [if_neg htrail, List.append_nil, splitSegments_joinSegments _ hne hslash]
        exact ⟨k, T, rfl, hTdd⟩

/-! ## Paths: joining onto the public directory -/

theorem foldl_normalizeStep_of_no_dotDot (allow : Bool) (X : List JsString)
    (hX : dotDot ∉ X) (kept : List JsString) :
    X.foldl (normalizeStep allow) kept =
      (X.filter (fun seg => decide (seg ≠ [] ∧ seg ≠ [46]))).reverse ++ kept := by
  induction X generalizing kept with
  | nil => rfl
  | cons seg rest ih =>
    have hseg : seg ≠ dotDot := fun h => hX (h ▸ List.mem_cons_self _ _)
    have hrest : dotDot ∉ rest := fun h => hX (List.mem_cons_of_mem _ h)
    rw [List.foldl_cons, ih hrest]
    by_cases h1 : seg = [] ∨ seg = [46]
    · have hk : ¬ (seg ≠ [] ∧ seg ≠ [46]) := by
        rcases h1 with h | h <;> simp [h]
      simp [normalizeStep, h1, List.filter_cons, hk]
    · have hk : seg ≠ [] ∧ seg ≠ [46] := by
        constructor
        · exact fun h => h1 (Or.inl h)
        · exact fun h => h1 (Or.inr h)
      simp [normalizeStep, h1, hseg, List.filter_cons, hk]

theorem normalizeString_of_no_dotDot (allow : Bool) (X : List JsString) (hX : dotDot ∉ X) :
    normalizeString allow X = X.filter (fun seg => decide (seg ≠ [] ∧ seg ≠ [46])) := by
  unfold normalizeString
  rw [foldl_normalizeStep_of_no_dotDot allow X hX, List.append_nil, List.reverse_reverse]

theorem filter_keep_root (dsegs : List JsString)
    (hclean : ∀ d ∈ dsegs, d ≠ [] ∧ d ≠ [46] ∧ d ≠ dotDot ∧ 47 ∉ d) :
    (splitSegments (47 :: joinSegments dsegs)).filter
        (fun seg => decide (seg ≠ [] ∧ seg ≠ [46])) = dsegs ∧
      dotDot ∉ splitSegments (47 :: joinSegments dsegs) := by
  have hsp : splitSegments (47 :: joinSegments dsegs) =
      [] :: splitSegments (joinSegments dsegs) := by
    simp [splitSegments]
  rw [hsp]
  by_cases hne : dsegs = []
  · subst hne
    simp [joinSegments, splitSegments, dotDot]
  · rw [splitSegments_joinSegments dsegs hne (fun d hd => (hclean d hd).2.2.2)]
    constructor
    · rw [List.filter_cons]
      simp only [ne_eq, not_true_eq_false, false_and, decide_False, Bool.false_eq_true,
        if_false]
      rw [List.filter_eq_self]
      intro d hd
      simp [(hclean d hd).1, (hclean d hd).2.1]
    · intro h
      rcases List.mem_cons.mp h with h | h
      · simp [dotDot] at h
      · exact (hclean dotDot h).2.2.1 rfl

/-! ## Frames -/

theorem lookup_cons_self {ν : Type} (name : String) (v : ν) (rest : List (String × ν)) :
    ((name, v) :: rest).lookup name = some v := by
  simp [List.lookup]

theorem lookup_cons_ne {ν : Type} (name k : String) (v : ν) (rest : List (String × ν))
    (h : name ≠ k) : ((k, v) :: rest).lookup name = rest.lookup name := by
  have hb : (name == k) = false := by simpa using h
  simp only [List.lookup, hb]

theorem lookup_filter_ne (l : List (String × JsonValue)) (k name : String) :
    (l.filter (fun e => decide (e.1 ≠ k))).lookup name =
      if name = k then none else l.lookup name := by
  induction l with
  | nil => simp
  | cons e rest ih =>
    obtain ⟨k0, v0⟩ := e
    by_cases h0 : k0 = k
    · subst h0
      have hf : ((k0, v0) :: rest).filter (fun e => decide (e.1 ≠ k0)) =
          rest.filter (fun e => decide (e.1 ≠ k0)) := by
        simp [List.filter_cons]
      rw [hf, ih]
      by_cases hn : name = k0
      · rw [if_pos hn, if_pos hn]
      · rw [if_neg hn, if_neg hn, lookup_cons_ne _ _ _ _ hn]
    · have hf : ((k0, v0) :: rest).filter (fun e => decide (e.1 ≠ k)) =
          (k0, v0) :: rest.filter (fun e => decide (e.1 ≠ k)) := by
        simp [List.filter_cons, h0]
      rw [hf]
      by_cases hn : name = k0
      · subst hn
        rw [lookup_cons_self, lookup_cons_self, if_neg h0]
      · rw [lookup_cons_ne _ _ _ _ hn, lookup_cons_ne _ _ _ _ hn, ih]

theorem lookup_stringifyProperties (fields : List (String × JsValue)) (name : String) :
    (stringifyProperties fields).lookup name =
      (match fields.lookup name with
        | some v => v
        | none => JsValue.undefined).toJSON := by
  induction fields with
  | nil => rfl
  | cons e rest ih =>
    obtain ⟨k, v⟩ := e
    by_cases hn : name = k
    · subst hn
      rw [lookup_cons_self]
      cases hv : v.toJSON with
      | none =>
        simp only [stringifyProperties, hv]
        rw [lookup_filter_ne, if_pos rfl]
      | some j =>
        simp only [stringifyProperties, hv]
        rw [lookup_cons_self]
    · rw [lookup_cons_ne _ _ _ _ hn, ← ih]
      cases hv : v.toJSON with
      | none =>
        simp only [stringifyProperties, hv]
        rw [lookup_filter_ne, if_neg hn]
      | some j =>
        simp only [stringifyProperties, hv]
        rw [lookup_cons_ne _ _ _ _ hn, lookup_filter_ne, if_neg hn]

theorem lookup_jsonStringify_forwarded (m : Message) (name : String) :
    (jsonStringify (Payload.forwarded m)).lookup name = (m.get name).toJSON :=
  lookup_stringifyProperties m.fields name

theorem jsonStringify_pong (t : JsValue) :
    jsonStringify (Payload.pong t) =
      ("type", JsonValue.string "pong") ::
        (match t.toJSON with
          | some written => [("timestamp", written)]
          | none => []) := by
  cases t <;> simp [jsonStringify, stringifyProperties, JsValue.toJSON]

/-! ## Rounding: integers and computed values -/

theorem binade_zero : binade 0 = 0 := by
  simp [binade, Int.log_of_right_le_zero]

theorem binade_eq (x : Rat) (e : Int) (hx : 0 < x) (hle : (2 : Rat) ^ e ≤ x)
    (hlt : x < (2 : Rat) ^ (e + 1)) (he : -1022 ≤ e) : binade x = e :=
  le_antisymm (binade_le x e hx hlt he) (le_binade x e hx hle)

theorem binade_le_of_nonneg (x : Rat) (e : Int) (hx : 0 ≤ x) (hlt : x < (2 : Rat) ^ (e + 1))
    (he : 0 ≤ e) : binade x ≤ e := by
  rcases hx.eq_or_lt with hz | hpos
  · rw [← hz, binade_zero]
    exact he
  · exact binade_le x e hpos hlt (by omega)

/-- In a binade where the doubles are at most one apart, every integer is a
multiple of the spacing. -/
theorem int_div_ulp (x : Rat) (k : Int) (hb : binade x ≤ 52) :
    ∃ N : Int, (N : Rat) = k / ulp x ∧ (N : Rat) * ulp x = k := by
  obtain ⟨n, hn⟩ : ∃ n : Nat, (n : Int) = 52 - binade x := ⟨(52 - binade x).toNat, by omega⟩
  have hu : ulp x = ((2 : Rat) ^ n)⁻¹ := by
    unfold ulp
    rw [← zpow_natCast, hn, ← zpow_neg]
    congr 1
    omega
  have hpos : (0 : Rat) < 2 ^ n := by positivity
  refine ⟨k * 2 ^ n, ?_, ?_⟩
  · rw [hu]
    push_cast
    field_simp
  · rw [hu]
    push_cast
    field_simp

theorem le_roundToDouble_int (x : Rat) (k : Int) (hb : binade x ≤ 52) (h : (k : Rat) ≤ x) :
    (k : Rat) ≤ roundToDouble x := by
  obtain ⟨N, hN, hNk⟩ := int_div_ulp x k hb
  have := le_roundToDouble x N (by rw [hN]; exact div_le_div_of_nonneg_right h (ulp_pos x).le)
  rw [hNk] at this
  exact this

theorem roundToDouble_le_int (x : Rat) (k : Int) (hb : binade x ≤ 52) (h : x ≤ (k : Rat)) :
    roundToDouble x ≤ (k : Rat) := by
  obtain ⟨N, hN, hNk⟩ := int_div_ulp x k hb
  have := roundToDouble_le x N (by rw [hN]; exact div_le_div_of_nonneg_right h (ulp_pos x).le)
  rw [hNk] at this
  exact this

/-- An integer below `2 ^ 53` in absolute value is a double. -/
theorem roundToDouble_intCast (k : Int) (hb : binade (k : Rat) ≤ 52) :
    roundToDouble (k : Rat) = k :=
  le_antisymm (roundToDouble_le_int _ k hb le_rfl) (le_roundToDouble_int _ k hb le_rfl)

theorem roundHalfEven_of_lt_half (q : Rat) (n : Int) (h1 : (n : Rat) ≤ q) (h2 : q < n + 1 / 2) :
    roundHalfEven q = n := by
  have hf : ⌊q⌋ = n := Int.floor_eq_iff.mpr ⟨h1, by linarith⟩
  unfold roundHalfEven
  rw [hf, if_pos (by linarith)]

theorem roundHalfEven_of_gt_half (q : Rat) (n : Int) (h1 : (n : Rat) + 1 / 2 < q)
    (h2 : q < n + 1) : roundHalfEven q = n + 1 := by
  have hf : ⌊q⌋ = n := Int.floor_eq_iff.mpr ⟨by linarith, h2⟩
  unfold roundHalfEven
  rw [hf, if_neg (by linarith), if_pos (by linarith)]

theorem roundHalfEven_tie_odd (q : Rat) (n : Int) (hq : q = n + 1 / 2) (hodd : n % 2 = 1) :
    roundHalfEven q = n + 1 := by
  have hf : ⌊q⌋ = n := Int.floor_eq_iff.mpr ⟨by linarith, by linarith⟩
  unfold roundHalfEven
  rw [hf, if_neg (by linarith), if_neg (by linarith), if_neg (by omega)]

/-- The double computed for `x` from its binade and the rounded quotient. -/
theorem roundToDouble_eq (x : Rat) (e n : Int) (hb : binade x = e)
    (hn : roundHalfEven (x / (2 : Rat) ^ (e - 52)) = n) :
    roundToDouble x = n * (2 : Rat) ^ (e - 52) := by
  unfold roundToDouble
  rw [ulp_eq_of_binade x e hb, hn]

/-- The floor of the exact value lies at or one below the floor that
`generatePairingCode` computes. -/
theorem floor_code_bracket (r : Rat) (h0 : 0 ≤ r) (h1 : r < 1) :
    ⌊100000 + 900000 * r⌋ ≤ ⌊jsAdd 100000 (jsMul r 900000)⌋ ∧
      ⌊jsAdd 100000 (jsMul r 900000)⌋ ≤ ⌊100000 + 900000 * r⌋ + 1 := by
  have hk1 : ((⌊100000 + 900000 * r⌋ : Int) : Rat) ≤ 100000 + 900000 * r := Int.floor_le _
  have hk2 : 100000 + 900000 * r < ((⌊100000 + 900000 * r⌋ : Int) : Rat) + 1 :=
    Int.lt_floor_add_one _
  obtain ⟨k, hk⟩ : ∃ k : Int, ⌊100000 + 900000 * r⌋ = k := ⟨_, rfl⟩
  rw [hk] at hk1 hk2 ⊢
  have hx0 : 0 ≤ r * 900000 := by positivity
  have hb1 : binade (r * 900000) ≤ 52 :=
    binade_le_of_nonneg _ 52 hx0 (by norm_num; linarith) (by norm_num)
  have hp1 : ((k - 100000 : Int) : Rat) ≤ jsMul r 900000 :=
    le_roundToDouble_int _ _ hb1 (by push_cast; linarith)
  have hp2 : jsMul r 900000 ≤ ((k + 1 - 100000 : Int) : Rat) :=
    roundToDouble_le_int _ _ hb1 (by push_cast; linarith)
  have hp0 : 0 ≤ jsMul r 900000 := roundToDouble_nonneg _ hx0
  have hk3 : k < 1000000 := by
    have : (k : Rat) < 1000000 := by linarith
    exact_mod_cast this
  have hp3 : jsMul r 900000 ≤ 900000 := by
    have : ((k + 1 - 100000 : Int) : Rat) ≤ 900000 := by
      have : k + 1 - 100000 ≤ 900000 := by omega
      exact_mod_cast this
    linarith
  have hb2 : binade (100000 + jsMul r 900000) ≤ 52 :=
    binade_le_of_nonneg _ 52 (by linarith) (by norm_num; linarith) (by norm_num)
  have hs1 : (k : Rat) ≤ jsAdd 100000 (jsMul r 900000) :=
    le_roundToDouble_int _ _ hb2 (by push_cast at hp1; linarith)
  have hs2 : jsAdd 100000 (jsMul r 900000) ≤ ((k + 1 : Int) : Rat) :=
    roundToDouble_le_int _ _ hb2 (by push_cast at hp2 ⊢; linarith)
  constructor
  · exact Int.le_floor.mpr hs1
  · exact (Int.floor_le_floor hs2).trans (by rw [Int.floor_intCast])

theorem isDouble_belowHalf : isDouble belowHalf := by
  have hb : binade belowHalf = -2 :=
    binade_eq _ _ (by norm_num [belowHalf]) (by norm_num [belowHalf, zpow_neg])
      (by norm_num [belowHalf, zpow_neg]) (by norm_num)
  have hq : belowHalf / (2 : Rat) ^ ((-2 : Int) - 52) = ((2 ^ 53 - 1 : Int) : Rat) := by
    norm_num [belowHalf, zpow_neg]
  have h := roundToDouble_eq belowHalf (-2) (2 ^ 53 - 1) hb
    (by rw [hq, roundHalfEven_intCast])
  unfold isDouble
  rw [h]
  norm_num [belowHalf, zpow_neg]

theorem jsMul_belowHalf : jsMul belowHalf 900000 = 450000 - 1 / 2 ^ 34 := by
  have hb : binade (belowHalf * 900000) = 18 :=
    binade_eq _ _ (by norm_num [belowHalf]) (by norm_num [belowHalf])
      (by norm_num [belowHalf]) (by norm_num)
  have h := roundToDouble_eq (belowHalf * 900000) 18 (450000 * 2 ^ 34 - 1) hb
    (roundHalfEven_of_lt_half _ _ (by norm_num [belowHalf, zpow_neg])
      (by norm_num [belowHalf, zpow_neg]))
  unfold jsMul
  rw [h]
  norm_num [zpow_neg]

theorem jsAdd_belowHalf : jsAdd 100000 (450000 - 1 / 2 ^ 34) = 550000 := by
  have hb : binade (100000 + (450000 - 1 / 2 ^ 34)) = 19 :=
    binade_eq _ _ (by norm_num) (by norm_num) (by norm_num) (by norm_num)
  have h := roundToDouble_eq (100000 + (450000 - 1 / 2 ^ 34)) 19 (550000 * 2 ^ 33 - 1 + 1) hb
    (roundHalfEven_tie_odd _ _ (by norm_num [zpow_neg]) (by norm_num))
  unfold jsAdd
  rw [h]
  norm_num [zpow_neg]

theorem generatePairingCode_belowHalf :
    generatePairingCode belowHalf = [53, 53, 48, 48, 48, 48] := by
  unfold generatePairingCode
  rw [jsMul_belowHalf, jsAdd_belowHalf]
  have : ⌊(550000 : Rat)⌋ = 550000 := by
    exact_mod_cast Int.floor_intCast (550000 : Int)
  rw [this]
  norm_num [integerToString]

theorem exact_floor_belowHalf : ⌊100000 + 900000 * belowHalf⌋ = 549999 := by
  rw [Int.floor_eq_iff]
  norm_num [belowHalf]

theorem jsMul_fiftyTwoBits : jsMul fiftyTwoBits 900000 = 24617 := by
  have hb : binade (fiftyTwoBits * 900000) = 14 :=
    binade_eq _ _ (by norm_num [fiftyTwoBits]) (by norm_num [fiftyTwoBits])
      (by norm_num [fiftyTwoBits]) (by norm_num)
  have h := roundToDouble_eq (fiftyTwoBits * 900000) 14 (24617 * 2 ^ 38 - 1 + 1) hb
    (roundHalfEven_of_gt_half _ _ (by norm_num [fiftyTwoBits, zpow_neg])
      (by norm_num [fiftyTwoBits, zpow_neg]))
  unfold jsMul
  rw [h]
  norm_num [zpow_neg]

theorem jsAdd_int (a b : Int) (h : binade ((a + b : Int) : Rat) ≤ 52) :
    jsAdd a b = ((a + b : Int) : Rat) := by
  unfold jsAdd
  rw [← Int.cast_add]
  exact roundToDouble_intCast _ h

theorem generatePairingCode_fiftyTwoBits :
    generatePairingCode fiftyTwoBits = [49, 50, 52, 54, 49, 55] := by
  unfold generatePairingCode
  rw [jsMul_fiftyTwoBits]
  have h := jsAdd_int 100000 24617
    (binade_le_of_nonneg _ 52 (by norm_num) (by norm_num) (by norm_num))
  norm_num at h
  rw [h]
  have : ⌊(124617 : Rat)⌋ = 124617 := by
    exact_mod_cast Int.floor_intCast (124617 : Int)
  rw [this]
  norm_num [integerToString]

theorem exact_floor_fiftyTwoBits : ⌊100000 + 900000 * fiftyTwoBits⌋ = 124616 := by
  rw [Int.floor_eq_iff]
  norm_num [fiftyTwoBits]

theorem isDouble_fiftyTwoBits : isDouble fiftyTwoBits := by
  have hb : binade fiftyTwoBits = -6 :=
    binade_eq _ _ (by norm_num [fiftyTwoBits]) (by norm_num [fiftyTwoBits, zpow_neg])
      (by norm_num [fiftyTwoBits, zpow_neg]) (by norm_num)
  have hq : fiftyTwoBits / (2 : Rat) ^ ((-6 : Int) - 52) = ((123183457807755 * 2 ^ 6 : Int) : Rat) := by
    norm_num [fiftyTwoBits, zpow_neg]
  have h := roundToDouble_eq fiftyTwoBits (-6) (123183457807755 * 2 ^ 6) hb
    (by rw [hq, roundHalfEven_intCast])
  unfold isDouble
  rw [h]
  norm_num [fiftyTwoBits, zpow_neg]

theorem foldl_decimal (l : List Nat) :
    (l.reverse.map (fun d => d + 48)).foldl (fun acc u => 10 * acc + (u - 48)) 0 =
      Nat.ofDigits 10 l := by
  induction l with
  | nil => rfl
  | cons d rest ih =>
    rw [List.reverse_cons, List.map_append, List.foldl_append, ih, Nat.ofDigits_cons]
    simp only [List.map_cons, List.map_nil, List.foldl_cons, List.foldl_nil,
      Nat.add_sub_cancel]
    omega

theorem decimalValue_integerToString (n : Int) (hn : 0 < n) :
    (decimalValue (integerToString n) : Int) = n := by
  have hneg : ¬ n < 0 := by omega
  have hz : ¬ n = 0 := by omega
  simp only [integerToString, hneg, hz, if_false, decimalValue]
  rw [foldl_decimal, Nat.ofDigits_digits]
  omega

theorem generatePairingCode_half : generatePairingCode (1 / 2) = [53, 53, 48, 48, 48, 48] := by
  have hm : jsMul (1 / 2) 900000 = 450000 := by
    have h := roundToDouble_intCast 450000
      (binade_le_of_nonneg _ 52 (by norm_num) (by norm_num) (by norm_num))
    unfold jsMul
    norm_num at h ⊢
    exact h
  have ha := jsAdd_int 100000 450000
    (binade_le_of_nonneg _ 52 (by norm_num) (by norm_num) (by norm_num))
  norm_num at ha
  unfold generatePairingCode
  rw [hm, ha]
  have : ⌊(550000 : Rat)⌋ = 550000 := by
    exact_mod_cast Int.floor_intCast (550000 : Int)
  rw [this]
  norm_num [integerToString]

/-! ## The virtual cursor -/

theorem roundToDouble_nonpos (x : Rat) (hx : x ≤ 0) : roundToDouble x ≤ 0 := by
  have h := roundToDouble_le x 0 (by simpa using div_nonpos_of_nonpos_of_nonneg hx (ulp_pos x).le)
  simpa using h

theorem clampNumber_finite (w v : Rat) :
    mathMax (.finite 0) (mathMin (.finite w) (.finite v)) = .finite (max 0 (min w v)) := rfl

theorem clampNumber_infinity (w : Rat) (negative : Bool) :
    mathMax (.finite 0) (mathMin (.finite w) (.infinity negative)) =
      .finite (if negative then 0 else max 0 w) := by
  cases negative <;> rfl

theorem add_finite_finite (x y : Rat) :
    (JsNumber.finite x).add (.finite y) =
      if (2 : Rat) ^ 1024 ≤ |jsAdd x y| then .infinity (decide (x + y < 0))
      else .finite (jsAdd x y) := rfl

/-- One coordinate after a move by a finite amount. -/
theorem clampNumber_add (w x a : Rat) (hw : 0 ≤ w) (hmax : w ≤ 2 ^ 1024) :
    mathMax (.finite 0) (mathMin (.finite w) ((JsNumber.finite x).add (.finite a))) =
      .finite (min (max (jsAdd x a) 0) w) := by
  rw [add_finite_finite]
  split_ifs with hover
  · by_cases hneg : x + a < 0
    · have h0 : jsAdd x a ≤ 0 := roundToDouble_nonpos _ hneg.le
      rw [decide_eq_true hneg, clampNumber_infinity, if_pos rfl, max_eq_right h0,
        min_eq_left hw]
    · have h0 : 0 ≤ jsAdd x a := roundToDouble_nonneg _ (not_lt.mp hneg)
      rw [abs_of_nonneg h0] at hover
      rw [decide_eq_false hneg, clampNumber_infinity, if_neg Bool.false_ne_true,
        max_eq_left h0, min_eq_right (hmax.trans hover), max_eq_right hw]
  · rw [clampNumber_finite, clamp_eq _ _ hw]

theorem clampNumber_idem (w : Rat) (hw : 0 ≤ w) (v : JsNumber) :
    mathMax (.finite 0) (mathMin (.finite w) (mathMax (.finite 0) (mathMin (.finite w) v))) =
      mathMax (.finite 0) (mathMin (.finite w) v) := by
  cases v with
  | nan => rfl
  | infinity negative =>
    rw [clampNumber_infinity, clampNumber_finite]
    cases negative
    · simp [hw]
    · simp [hw]
  | finite x => rw [clampNumber_finite, clampNumber_finite, clamp_idem _ _ hw]

/-- One coordinate after a move by a number that is not `NaN` is a finite
number within the bounds. -/
theorem clampNumber_add_bounds (w x : Rat) (d : JsNumber) (hw : 0 ≤ w) (hmax : w ≤ 2 ^ 1024)
    (hd : d ≠ .nan) :
    ∃ v, mathMax (.finite 0) (mathMin (.finite w) ((JsNumber.finite x).add d)) = .finite v ∧
      0 ≤ v ∧ v ≤ w := by
  cases d with
  | nan => exact absurd rfl hd
  | infinity negative =>
    refine ⟨if negative then 0 else max 0 w, clampNumber_infinity w negative, ?_, ?_⟩
    · cases negative <;> simp
    · cases negative <;> simp [hw]
  | finite a =>
    refine ⟨_, clampNumber_add w x a hw hmax, le_min (le_max_right _ _) hw, min_le_right _ _⟩

theorem isDouble_tenth : isDouble tenth := by
  have hb : binade tenth = -4 :=
    binade_eq _ _ (by norm_num [tenth]) (by norm_num [tenth, zpow_neg])
      (by norm_num [tenth, zpow_neg]) (by norm_num)
  have hq : tenth / (2 : Rat) ^ ((-4 : Int) - 52) = ((3602879701896397 * 2 : Int) : Rat) := by
    norm_num [tenth, zpow_neg]
  have h := roundToDouble_eq tenth (-4) (3602879701896397 * 2) hb
    (by rw [hq, roundHalfEven_intCast])
  unfold isDouble
  rw [h]
  norm_num [tenth, zpow_neg]

theorem jsAdd_640_tenth : jsAdd 640 tenth = 5630379143515341 / 2 ^ 43 := by
  have hb : binade (640 + tenth) = 9 :=
    binade_eq _ _ (by norm_num [tenth]) (by norm_num [tenth])
      (by norm_num [tenth]) (by norm_num)
  have h := roundToDouble_eq (640 + tenth) 9 (5630379143515340 + 1) hb
    (roundHalfEven_of_gt_half _ _ (by norm_num [tenth, zpow_neg])
      (by norm_num [tenth, zpow_neg]))
  unfold jsAdd
  rw [h]
  norm_num [zpow_neg]

/-! ## The claims -/

/-- C1 (amended).  Pairing round-trip: when the session id `S` is truthy and no
entry that precedes the entry of `S` in the pairing store (no entry at all,
when `S` has none) holds the code `C`, then after `setPairingCode` with `S` and
`C` is handled, an `auth` with code `C` from any connection in the registry is
answered `authResult` with `success: true` and leaves that connection
authenticated with session id `S`. -/
theorem pairing_round_trip (rsA rsB : Nat → Nat) (st : Relay) (wsC wsR : Nat)
    (mSet mAuth : Message) (S C : JsValue) (info : ClientInfo)
    (hSetT : mSet.get "type" = .string "setPairingCode")
    (hSetS : mSet.get "sessionId" = S) (hSetC : mSet.get "code" = C)
    (hAuthT : mAuth.get "type" = .string "auth") (hAuthC : mAuth.get "code" = C)
    (hS : S.truthy = true)
    (hfirst : ∀ e ∈ st.sessionCodes.takeWhile (fun e => decide (e.1 ≠ S)), e.2 ≠ C)
    (hreg : mapGet (onMessage rsA st wsC (.value mSet)).1.clients wsR = some info) :
    (onMessage rsB (onMessage rsA st wsC (.value mSet)).1 wsR (.value mAuth)).2 =
        [Effect.send wsR (Payload.authResult true)] ∧
      mapGet (onMessage rsB (onMessage rsA st wsC (.value mSet)).1 wsR (.value mAuth)).1.clients
          wsR =
        some { info with alive := true, authenticated := true, sessionId := S } := by
  have hfind : findSessionByCode (onMessage rsA st wsC (.value mSet)).1.sessionCodes
      (mAuth.get "code") = S := by
    rw [onMessage_setPairingCode_codes rsA st wsC mSet hSetT, hSetS, hSetC, hAuthC]
    exact findSessionByCode_mapSet _ S C hfirst
  rw [onMessage_auth_some rsB _ wsR mAuth info hAuthT hreg, hfind]
  simp [hS, mapGet_mapSet_self]

/-- Witness for C1 (amended): the scenario of the specification, session `sess1`
with code `482913` on a relay with two fresh connections. -/
theorem pairing_round_trip_witness :
    (onMessage allOpen
        (onMessage allOpen twoSockets 0
          (.value (setPairingCodeMsg (.string "sess1") (.string "482913")))).1
        1 (.value (authMsg (.string "482913")))).2 =
        [Effect.send 1 (Payload.authResult true)] ∧
      mapGet (onMessage allOpen
        (onMessage allOpen twoSockets 0
          (.value (setPairingCodeMsg (.string "sess1") (.string "482913")))).1
        1 (.value (authMsg (.string "482913")))).1.clients 1 =
        some { type := .string "unknown", alive := true, authenticated := true,
               sessionId := .string "sess1" } :=
  pairing_round_trip allOpen allOpen twoSockets 0 1
    (setPairingCodeMsg (.string "sess1") (.string "482913")) (authMsg (.string "482913"))
    (.string "sess1") (.string "482913")
    { type := .string "unknown", alive := true, authenticated := false, sessionId := .null }
    (by decide) (by decide) (by decide) (by decide) (by decide) (by decide) (by decide)
    (by decide)

/-- C1 (counterexample).  In a reachable state where session `s1` already holds
the code `482913`, controller 1 sets the same code for session `s2`; the `auth`
of connection 2 with that code is answered with success but binds the
connection to `s1`, not to `s2`. -/
theorem pairing_round_trip_counterexample :
    Reachable sharedCodeSetup ∧
      (mapGet sharedCodeSetup.clients 1).map (fun i => i.type) = some (.string "extension") ∧
      (onMessage allOpen
        (onMessage allOpen sharedCodeSetup 1
          (.value (setPairingCodeMsg (.string "s2") (.string "482913")))).1
        2 (.value (authMsg (.string "482913")))).2 =
        [Effect.send 2 (Payload.authResult true)] ∧
      (mapGet (onMessage allOpen
        (onMessage allOpen sharedCodeSetup 1
          (.value (setPairingCodeMsg (.string "s2") (.string "482913")))).1
        2 (.value (authMsg (.string "482913")))).1.clients 2).map (fun i => i.sessionId) =
        some (.string "s1") ∧
      JsValue.string "s1" ≠ JsValue.string "s2" :=
  ⟨Reachable.run Reachable.empty sharedCodeEvents (by decide), by decide, by decide, by decide,
    by decide⟩
/-- C2.  Session isolation: in a reachable state, a `touch`, `browser`,
`openKeyboard` or `closeKeyboard` message handled from a registered sender
produces nothing but sends of that message, or the error reply to the sender,
and the message is sent only to connections that are authenticated and whose
session id is the sender's. -/
theorem session_isolation (readyState : Nat → Nat) (st : Relay) (ws : Nat) (m : Message)
    (info : ClientInfo) (hreach : Reachable st)
    (hty : m.get "type" = .string "touch" ∨ m.get "type" = .string "browser" ∨
      m.get "type" = .string "openKeyboard" ∨ m.get "type" = .string "closeKeyboard")
    (hget : mapGet st.clients ws = some info) :
    (∀ e ∈ (onMessage readyState st ws (.value m)).2,
        e = Effect.send ws Payload.error ∨ ∃ c, e = Effect.send c (Payload.forwarded m)) ∧
      ∀ c ci, mapGet st.clients c = some ci →
        Effect.send c (Payload.forwarded m) ∈ (onMessage readyState st ws (.value m)).2 →
        ci.authenticated = true ∧ ci.sessionId = info.sessionId := by
  rw [onMessage_forward_effects readyState st ws m info hget hty]
  by_cases hauth : info.authenticated = true
  · rw [if_pos hauth]
    refine ⟨fun e he => Or.inr (broadcast_sends _ _ _ _ _ e he), ?_⟩
    intro c ci hc hsend
    obtain ⟨_, cj, hmem, _, ha, hs, _⟩ := (mem_broadcast _ _ _ _ _ c _).mp hsend
    have hcj := mapGet_of_mem st.clients c cj hreach.wf.1 hmem
    rw [hc] at hcj
    cases hcj
    exact ⟨ha, hs⟩
  · rw [if_neg hauth]
    refine ⟨fun e he => Or.inl (by simpa using he), ?_⟩
    intro c ci _ hsend
    simp at hsend

/-- Witness for C2: the remote of session `s1` moves the pointer while
controller 1 is not authenticated. -/
theorem session_isolation_witness :
    (∀ e ∈ (onMessage allOpen pairedSetup 2 (.value touchMoveMsg)).2,
        e = Effect.send 2 Payload.error ∨ ∃ c, e = Effect.send c (Payload.forwarded touchMoveMsg)) ∧
      ∀ c ci, mapGet pairedSetup.clients c = some ci →
        Effect.send c (Payload.forwarded touchMoveMsg) ∈
          (onMessage allOpen pairedSetup 2 (.value touchMoveMsg)).2 →
        ci.authenticated = true ∧ ci.sessionId = JsValue.string "s1" :=
  session_isolation allOpen pairedSetup 2 touchMoveMsg
    { type := .string "mobile", alive := true, authenticated := true, sessionId := .string "s1" }
    (Reachable.run Reachable.empty pairedEvents (by decide)) (Or.inl (by decide)) (by decide)

/-- C3.  Unauthenticated gate: a message whose type is none of
`setPairingCode`, `register`, `auth`, `ping`, handled from a registered
connection that is not authenticated, makes the handler send exactly one frame,
the error reply to the sender; the pairing store, the set of registered
connections and the role, authenticated flag and session id of every
connection are unchanged. -/
theorem unauthenticated_gate (readyState : Nat → Nat) (st : Relay) (ws : Nat) (m : Message)
    (info : ClientInfo) (hget : mapGet st.clients ws = some info)
    (hauth : info.authenticated = false)
    (h1 : m.get "type" ≠ .string "setPairingCode") (h2 : m.get "type" ≠ .string "register")
    (h3 : m.get "type" ≠ .string "auth") (h4 : m.get "type" ≠ .string "ping") :
    (onMessage readyState st ws (.value m)).2 = [Effect.send ws Payload.error] ∧
      (onMessage readyState st ws (.value m)).1.sessionCodes = st.sessionCodes ∧
      (onMessage readyState st ws (.value m)).1.clients.map Prod.fst = st.clients.map Prod.fst ∧
      ∀ c, (mapGet (onMessage readyState st ws (.value m)).1.clients c).map
            (fun i => (i.type, i.authenticated, i.sessionId)) =
          (mapGet st.clients c).map (fun i => (i.type, i.authenticated, i.sessionId)) := by
  rw [onMessage_route_some readyState st ws m info hget h1 h2 h3]
  refine ⟨route_unauthenticated _ _ _ { info with alive := true } _ hauth h4, rfl,
    mapSet_keys_of_mapGet _ _ _ _ hget, ?_⟩
  intro c
  dsimp only
  rw [mapGet_mapSet]
  split
  · rename_i hc
    subst hc
    rw [hget]
    rfl
  · rfl

/-- Witness for C3: controller 1 of `sharedCodeSetup`, registered but not
authenticated, sends a pointer movement. -/
theorem unauthenticated_gate_witness :
    (onMessage allOpen sharedCodeSetup 1 (.value touchMoveMsg)).2 =
        [Effect.send 1 Payload.error] ∧
      (onMessage allOpen sharedCodeSetup 1 (.value touchMoveMsg)).1.sessionCodes =
        sharedCodeSetup.sessionCodes ∧
      (onMessage allOpen sharedCodeSetup 1 (.value touchMoveMsg)).1.clients.map Prod.fst =
        sharedCodeSetup.clients.map Prod.fst ∧
      ∀ c, (mapGet (onMessage allOpen sharedCodeSetup 1 (.value touchMoveMsg)).1.clients c).map
            (fun i => (i.type, i.authenticated, i.sessionId)) =
          (mapGet sharedCodeSetup.clients c).map
            (fun i => (i.type, i.authenticated, i.sessionId)) :=
  unauthenticated_gate allOpen sharedCodeSetup 1 touchMoveMsg
    { type := .string "extension", alive := true, authenticated := false, sessionId := .null }
    (by decide) rfl (by decide) (by decide) (by decide) (by decide)

/-- C4.  Invalid code rejection: an `auth` whose code equals no value of the
pairing store, handled from a registered connection that is not authenticated,
is answered `authResult` with `success: false`; the sender stays registered
with `authenticated` false and its session id and role as before, and the
pairing store is unchanged. -/
theorem invalid_code_rejection (readyState : Nat → Nat) (st : Relay) (ws : Nat) (m : Message)
    (info : ClientInfo) (hget : mapGet st.clients ws = some info)
    (hauth : info.authenticated = false) (hty : m.get "type" = .string "auth")
    (hno : ∀ e ∈ st.sessionCodes, e.2 ≠ m.get "code") :
    (onMessage readyState st ws (.value m)).2 = [Effect.send ws (Payload.authResult false)] ∧
      mapGet (onMessage readyState st ws (.value m)).1.clients ws =
        some { type := info.type, alive := true, authenticated := false,
               sessionId := info.sessionId } ∧
      (onMessage readyState st ws (.value m)).1.sessionCodes = st.sessionCodes := by
  rw [onMessage_auth_some readyState st ws m info hty hget,
    findSessionByCode_of_no_match st.sessionCodes (m.get "code") hno]
  obtain ⟨ty, al, au, sid⟩ := info
  simp only at hauth
  subst hauth
  simp [JsValue.truthy, mapGet_mapSet_self]

/-- Witness for C4: the remote of `sharedCodeSetup` presents `000000` while the
only stored code is `482913`. -/
theorem invalid_code_rejection_witness :
    (onMessage allOpen sharedCodeSetup 2 (.value (authMsg (.string "000000")))).2 =
        [Effect.send 2 (Payload.authResult false)] ∧
      mapGet (onMessage allOpen sharedCodeSetup 2 (.value (authMsg (.string "000000")))).1.clients
          2 =
        some { type := .string "mobile", alive := true, authenticated := false,
               sessionId := .null } ∧
      (onMessage allOpen sharedCodeSetup 2 (.value (authMsg (.string "000000")))).1.sessionCodes =
        sharedCodeSetup.sessionCodes :=
  invalid_code_rejection allOpen sharedCodeSetup 2 (authMsg (.string "000000"))
    { type := .string "mobile", alive := true, authenticated := false, sessionId := .null }
    (by decide) rfl (by decide) (by decide)

/-- C5 (amended).  Cascade cleanup: when the close of a connection of type
`extension` whose session id `S` is truthy is handled, the pairing store has no
entry for `S` afterwards; and when no other session holds the code `C` that `S`
had, a subsequent `auth` with code `C` from any connection is answered
`authResult` with `success: false`. -/
theorem cascade_cleanup (readyState : Nat → Nat) (st : Relay) (ws wsR : Nat) (m : Message)
    (info : ClientInfo) (S C : JsValue)
    (hget : mapGet st.clients ws = some info) (hrole : info.type = .string "extension")
    (hsid : info.sessionId = S) (hS : S.truthy = true)
    (_hcode : mapGet st.sessionCodes S = some C)
    (hother : ∀ e ∈ st.sessionCodes, e.1 ≠ S → e.2 ≠ C)
    (hty : m.get "type" = .string "auth") (hmc : m.get "code" = C) :
    mapGet (onClose st ws).sessionCodes S = none ∧
      (∀ e ∈ (onClose st ws).sessionCodes, e.1 ≠ S) ∧
      mapGet (onClose st ws).clients ws = none ∧
      (onMessage readyState (onClose st ws) wsR (.value m)).2 =
        [Effect.send wsR (Payload.authResult false)] := by
  have hcodes : (onClose st ws).sessionCodes = mapDelete st.sessionCodes S := by
    unfold onClose
    simp [hget, hrole, hsid, hS]
  refine ⟨?_, ?_, ?_, ?_⟩
  · rw [hcodes]
    exact mapGet_mapDelete_self _ _
  · intro e he
    rw [hcodes] at he
    exact ((mem_mapDelete _ _ _).mp he).2
  · exact mapGet_mapDelete_self _ _
  · apply onMessage_auth_effects_of_no_match _ _ _ _ hty
    intro e he
    rw [hcodes] at he
    rw [hmc]
    exact hother e ((mem_mapDelete _ _ _).mp he).1 ((mem_mapDelete _ _ _).mp he).2
/-- Witness for C5 (amended): controller 0 of `sharedCodeSetup`, the owner of
session `s1` with code `482913`, closes and the remote 2 then presents the
code. -/
theorem cascade_cleanup_witness :
    mapGet (onClose sharedCodeSetup 0).sessionCodes (.string "s1") = none ∧
      (∀ e ∈ (onClose sharedCodeSetup 0).sessionCodes, e.1 ≠ .string "s1") ∧
      mapGet (onClose sharedCodeSetup 0).clients 0 = none ∧
      (onMessage allOpen (onClose sharedCodeSetup 0) 2 (.value (authMsg (.string "482913")))).2 =
        [Effect.send 2 (Payload.authResult false)] :=
  cascade_cleanup allOpen sharedCodeSetup 0 2 (authMsg (.string "482913"))
    { type := .string "extension", alive := true, authenticated := true,
      sessionId := .string "s1" }
    (.string "s1") (.string "482913") (by decide) rfl rfl (by decide) (by decide) (by decide)
    (by decide) (by decide)

/-- C5 (counterexample).  Controllers 0 and 1 own sessions `s1` and `s2` with
the same code `482913`.  After the close of controller 1 the entry of `s2` is
gone, yet an `auth` with the former code of `s2` is answered with success. -/
theorem cascade_cleanup_counterexample :
    Reachable twoSessionsOneCode ∧
      mapGet twoSessionsOneCode.clients 1 =
        some { type := .string "extension", alive := true, authenticated := true,
               sessionId := .string "s2" } ∧
      mapGet twoSessionsOneCode.sessionCodes (.string "s2") = some (.string "482913") ∧
      mapGet (onClose twoSessionsOneCode 1).sessionCodes (.string "s2") = none ∧
      (onMessage allOpen (onClose twoSessionsOneCode 1) 2
          (.value (authMsg (.string "482913")))).2 =
        [Effect.send 2 (Payload.authResult true)] :=
  ⟨Reachable.run Reachable.empty twoSessionsOneCodeEvents (by decide), by decide, by decide,
    by decide, by decide⟩

/-- C6 (amended).  A registered connection, of role remote or any other, goes
from `authenticated` false to true by one event only when that event is its own
`auth` message whose code equals a value of the pairing store, its session id
then being the key of the first entry holding that code, or its own
`setPairingCode` message, its session id then being the one of the message;
no other message type and no other event authenticates it. -/
theorem remote_authentication (st : Relay) (ev : Event) (ws : Nat) (info info1 : ClientInfo)
    (hget : mapGet st.clients ws = some info) (hun : info.authenticated = false)
    (hget1 : mapGet (step st ev).clients ws = some info1)
    (hauth1 : info1.authenticated = true) :
    ∃ readyState m, ev = .message readyState ws (.value m) ∧
      ((m.get "type" = .string "auth" ∧
          (info1.sessionId, m.get "code") ∈ st.sessionCodes ∧
          info1.sessionId = findSessionByCode st.sessionCodes (m.get "code")) ∨
        (m.get "type" = .string "setPairingCode" ∧ info1.sessionId = m.get "sessionId")) := by
  rcases step_authenticated_cases st ev ws info1 hget1 hauth1 with ⟨i, hi, hia, _⟩ | h
  · rw [hget] at hi
    cases hi
    rw [hun] at hia
    cases hia
  · obtain ⟨readyState, m, hev, h⟩ := h
    refine ⟨readyState, m, hev, ?_⟩
    rcases h with ⟨hty, htr, hs⟩ | h
    · exact Or.inl ⟨hty, hs ▸ findSessionByCode_mem _ _ htr, hs⟩
    · exact Or.inr h

/-- Witness for C6 (amended): the remote 2 of `sharedCodeSetup` presents the
stored code `482913`. -/
theorem remote_authentication_witness :
    ∃ readyState m, Event.message allOpen 2 (.value (authMsg (.string "482913"))) =
        .message readyState 2 (.value m) ∧
      ((m.get "type" = .string "auth" ∧
          (JsValue.string "s1", m.get "code") ∈ sharedCodeSetup.sessionCodes ∧
          JsValue.string "s1" = findSessionByCode sharedCodeSetup.sessionCodes (m.get "code")) ∨
        (m.get "type" = .string "setPairingCode" ∧ JsValue.string "s1" = m.get "sessionId")) :=
  remote_authentication sharedCodeSetup
    (.message allOpen 2 (.value (authMsg (.string "482913")))) 2
    { type := .string "mobile", alive := true, authenticated := false, sessionId := .null }
    { type := .string "mobile", alive := true, authenticated := true, sessionId := .string "s1" }
    (by decide) rfl (by decide) rfl

/-- C6 (counterexample).  The remote 2 of `sharedCodeSetup`, registered as
`mobile` and not authenticated, sends `setPairingCode` for session `s1` with a
code of its own: it is authenticated into `s1` without an `auth` message and
without presenting a stored code. -/
theorem remote_authentication_counterexample :
    Reachable sharedCodeSetup ∧
      mapGet sharedCodeSetup.clients 2 =
        some { type := .string "mobile", alive := true, authenticated := false,
               sessionId := .null } ∧
      (∀ e ∈ sharedCodeSetup.sessionCodes, e.2 ≠ JsValue.string "999999") ∧
      (setPairingCodeMsg (.string "s1") (.string "999999")).get "type" ≠ .string "auth" ∧
      mapGet (onMessage allOpen sharedCodeSetup 2
          (.value (setPairingCodeMsg (.string "s1") (.string "999999")))).1.clients 2 =
        some { type := .string "mobile", alive := true, authenticated := true,
               sessionId := .string "s1" } :=
  ⟨Reachable.run Reachable.empty sharedCodeEvents (by decide), by decide, by decide, by decide,
    by decide⟩

/-- C7 (amended).  After any sequence of events in which every `setPairingCode`
message carries a `sessionId` that is neither `null` nor `undefined`, every
registered connection with `authenticated` true has a session id that is
neither `null` nor `undefined`. -/
theorem authenticated_has_session (events : List Event)
    (hsid : ∀ ev ∈ events, ev.hasSessionId = true) (ws : Nat) (info : ClientInfo)
    (hget : mapGet (run Relay.empty events).clients ws = some info)
    (hauth : info.authenticated = true) :
    info.sessionId ≠ .null ∧ info.sessionId ≠ .undefined := by
  suffices hgen : ∀ (evs : List Event) (st : Relay),
      (∀ ev ∈ evs, ev.hasSessionId = true) →
      (∀ w i, mapGet st.clients w = some i → i.authenticated = true →
        i.sessionId ≠ .null ∧ i.sessionId ≠ .undefined) →
      ∀ w i, mapGet (run st evs).clients w = some i → i.authenticated = true →
        i.sessionId ≠ .null ∧ i.sessionId ≠ .undefined from
    hgen events Relay.empty hsid (fun w i h => by simp [Relay.empty, mapGet] at h) ws info hget hauth
  intro evs
  induction evs with
  | nil => exact fun st _ hinv => hinv
  | cons ev rest ih =>
    intro st hev hinv
    refine ih (step st ev) (fun e he => hev e (List.mem_cons_of_mem _ he)) ?_
    intro w i hw hi
    rcases step_authenticated_cases st ev w i hw hi with ⟨j, hj, hja, hjs⟩ | h
    · exact hjs ▸ hinv w j hj hja
    · obtain ⟨readyState, m, rfl, h⟩ := h
      rcases h with ⟨_, htr, hs⟩ | ⟨hty, hs⟩
      · exact hs ▸ truthy_ne_null _ htr
      · have := hev _ (List.mem_cons_self _ _)
        simp only [Event.hasSessionId, hty, if_true, Bool.and_eq_true, decide_eq_true_eq] at this
        rw [hs]
        exact this

/-- Witness for C7 (amended): the events of `pairedEvents`, whose
`setPairingCode` messages all carry a session id, and controller 3. -/
theorem authenticated_has_session_witness :
    (∀ ev ∈ pairedEvents, ev.hasSessionId = true) ∧
      mapGet (run Relay.empty pairedEvents).clients 3 =
        some { type := .string "extension", alive := true, authenticated := true,
               sessionId := .string "s1" } ∧
      JsValue.string "s1" ≠ .null ∧ JsValue.string "s1" ≠ .undefined :=
  ⟨by decide, by decide,
    authenticated_has_session pairedEvents (by decide) 3
      { type := .string "extension", alive := true, authenticated := true,
        sessionId := .string "s1" }
      (by decide) rfl⟩

/-- C7 (counterexample).  A connection that sends `setPairingCode` without a
`sessionId` is registered with `authenticated` true and session id
`undefined`, in a reachable state. -/
theorem authenticated_has_session_counterexample :
    Reachable (run Relay.empty noSessionEvents) ∧
      mapGet (run Relay.empty noSessionEvents).clients 0 =
        some { type := .string "unknown", alive := true, authenticated := true,
               sessionId := .undefined } :=
  ⟨Reachable.run Reachable.empty noSessionEvents (by decide), by decide⟩

/-- C8.  Idempotent re-pairing: after `setPairingCode` for session `S` with
code `C1` and then with code `C2` are handled, the pairing store holds exactly
one entry for `S`, with code `C2`; the entries of the other sessions and their
order are as before; and when `C1` and `C2` are the same code the store is the
one left by the first message alone. -/
theorem idempotent_repairing (rsA rsB : Nat → Nat) (st : Relay) (wsA wsB : Nat)
    (m1 m2 : Message) (S C1 C2 : JsValue) (hwf : st.WF)
    (ht1 : m1.get "type" = .string "setPairingCode") (hs1 : m1.get "sessionId" = S)
    (hc1 : m1.get "code" = C1)
    (ht2 : m2.get "type" = .string "setPairingCode") (hs2 : m2.get "sessionId" = S)
    (hc2 : m2.get "code" = C2) :
    (onMessage rsB (onMessage rsA st wsA (.value m1)).1 wsB (.value m2)).1.sessionCodes.filter
        (fun e => decide (e.1 = S)) = [(S, C2)] ∧
      (onMessage rsB (onMessage rsA st wsA (.value m1)).1 wsB (.value m2)).1.sessionCodes.filter
        (fun e => decide (e.1 ≠ S)) = st.sessionCodes.filter (fun e => decide (e.1 ≠ S)) ∧
      (C1 = C2 →
        (onMessage rsB (onMessage rsA st wsA (.value m1)).1 wsB (.value m2)).1.sessionCodes =
          (onMessage rsA st wsA (.value m1)).1.sessionCodes) := by
  rw [onMessage_setPairingCode_codes rsB _ wsB m2 ht2,
    onMessage_setPairingCode_codes rsA st wsA m1 ht1, hs1, hs2, hc1, hc2, mapSet_mapSet]
  refine ⟨mapSet_filter_eq _ S C2 hwf.2, mapSet_filter_ne _ S C2, ?_⟩
  intro h
  rw [h]

/-- Witness for C8: controller 0 of `sharedCodeSetup` replaces the code of
session `s1` twice. -/
theorem idempotent_repairing_witness :
    (onMessage allOpen
        (onMessage allOpen sharedCodeSetup 0
          (.value (setPairingCodeMsg (.string "s1") (.string "111111")))).1
        0 (.value (setPairingCodeMsg (.string "s1") (.string "222222")))).1.sessionCodes =
      [(.string "s1", .string "222222")] ∧
    ((onMessage allOpen
        (onMessage allOpen sharedCodeSetup 0
          (.value (setPairingCodeMsg (.string "s1") (.string "111111")))).1
        0 (.value (setPairingCodeMsg (.string "s1") (.string "222222")))).1.sessionCodes.filter
        (fun e => decide (e.1 = JsValue.string "s1")) = [(.string "s1", .string "222222")] ∧
      (onMessage allOpen
        (onMessage allOpen sharedCodeSetup 0
          (.value (setPairingCodeMsg (.string "s1") (.string "111111")))).1
        0 (.value (setPairingCodeMsg (.string "s1") (.string "222222")))).1.sessionCodes.filter
        (fun e => decide (e.1 ≠ JsValue.string "s1")) =
          sharedCodeSetup.sessionCodes.filter (fun e => decide (e.1 ≠ JsValue.string "s1")) ∧
      (JsValue.string "111111" = JsValue.string "222222" →
        (onMessage allOpen
          (onMessage allOpen sharedCodeSetup 0
            (.value (setPairingCodeMsg (.string "s1") (.string "111111")))).1
          0 (.value (setPairingCodeMsg (.string "s1") (.string "222222")))).1.sessionCodes =
          (onMessage allOpen sharedCodeSetup 0
            (.value (setPairingCodeMsg (.string "s1") (.string "111111")))).1.sessionCodes)) :=
  ⟨by decide,
    idempotent_repairing allOpen allOpen sharedCodeSetup 0 0
      (setPairingCodeMsg (.string "s1") (.string "111111"))
      (setPairingCodeMsg (.string "s1") (.string "222222"))
      (.string "s1") (.string "111111") (.string "222222")
      (Reachable.run Reachable.empty sharedCodeEvents (by decide)).wf
      (by decide) (by decide) (by decide) (by decide) (by decide) (by decide)⟩

/-- C9 (amended).  Fan-out to controllers: a `touch` or `browser` message
handled from an authenticated sender is passed to `ws.send`, as
`JSON.stringify` of the decoded message, for exactly the registered
connections of type `extension` that are authenticated, have the session id of
the sender and an open transport, and nothing else is sent.  The frame has, under
every property name, what `JSON.stringify` writes for the value the decoded
message has there: the value itself for a finite number, a string, a boolean
and `null`, `null` for `Infinity` and `-Infinity`, no member for a missing
property, and the serialisation of the object for an object or array. -/
theorem touch_browser_fanout (readyState : Nat → Nat) (st : Relay) (ws : Nat) (m : Message)
    (info : ClientInfo) (hwf : st.WF) (hget : mapGet st.clients ws = some info)
    (hauth : info.authenticated = true)
    (hty : m.get "type" = .string "touch" ∨ m.get "type" = .string "browser") :
    (∀ e ∈ (onMessage readyState st ws (.value m)).2,
        ∃ c, e = Effect.send c (Payload.forwarded m)) ∧
      (∀ c, Effect.send c (Payload.forwarded m) ∈ (onMessage readyState st ws (.value m)).2 ↔
        ∃ ci, mapGet st.clients c = some ci ∧ ci.type = .string "extension" ∧
          ci.authenticated = true ∧ ci.sessionId = info.sessionId ∧ readyState c = 1) ∧
      (∀ name, (jsonStringify (Payload.forwarded m)).lookup name = (m.get name).toJSON) ∧
      (∀ name x, m.get name = .number x →
        (jsonStringify (Payload.forwarded m)).lookup name = some (.number x)) ∧
      (∀ name s, m.get name = .string s →
        (jsonStringify (Payload.forwarded m)).lookup name = some (.string s)) ∧
      (∀ name b, m.get name = .bool b →
        (jsonStringify (Payload.forwarded m)).lookup name = some (.bool b)) ∧
      (∀ name, m.get name = .null →
        (jsonStringify (Payload.forwarded m)).lookup name = some .null) ∧
      (∀ name negative, m.get name = .infinite negative →
        (jsonStringify (Payload.forwarded m)).lookup name = some .null) := by
  have hty4 : m.get "type" = .string "touch" ∨ m.get "type" = .string "browser" ∨
      m.get "type" = .string "openKeyboard" ∨ m.get "type" = .string "closeKeyboard" := by
    rcases hty with h | h
    · exact Or.inl h
    · exact Or.inr (Or.inl h)
  rw [onMessage_forward_effects readyState st ws m info hget hty4, if_pos hauth, if_pos hty]
  refine ⟨fun e he => broadcast_sends _ _ _ _ _ e he, fun c => ?_,
    lookup_jsonStringify_forwarded m, fun name x h => ?_, fun name s h => ?_,
    fun name b h => ?_, fun name h => ?_, fun name negative h => ?_⟩
  · rw [mem_broadcast]
    constructor
    · rintro ⟨_, ci, hmem, h⟩
      exact ⟨ci, mapGet_of_mem _ _ _ hwf.1 hmem, h⟩
    · rintro ⟨ci, hc, h⟩
      exact ⟨rfl, ci, mem_of_mapGet _ _ _ hc, h⟩
  · rw [lookup_jsonStringify_forwarded, h]
    rfl
  · rw [lookup_jsonStringify_forwarded, h]
    rfl
  · rw [lookup_jsonStringify_forwarded, h]
    rfl
  · rw [lookup_jsonStringify_forwarded, h]
    rfl
  · rw [lookup_jsonStringify_forwarded, h]
    rfl

/-- Witness for C9 (amended): in `pairedSetup` the remote 2 moves the pointer and
both controllers of session `s1`, 0 and 3, are sent the message, whose frame
has the four members of the decoded message. -/
theorem touch_browser_fanout_witness :
    (onMessage allOpen pairedSetup 2 (.value touchMoveMsg)).2 =
        [Effect.send 0 (Payload.forwarded touchMoveMsg),
         Effect.send 3 (Payload.forwarded touchMoveMsg)] ∧
    jsonStringify (Payload.forwarded touchMoveMsg) =
        [("type", .string "touch"), ("action", .string "move"), ("dx", .number 5),
         ("dy", .number 3)] ∧
    ((∀ e ∈ (onMessage allOpen pairedSetup 2 (.value touchMoveMsg)).2,
        ∃ c, e = Effect.send c (Payload.forwarded touchMoveMsg)) ∧
      (∀ c, Effect.send c (Payload.forwarded touchMoveMsg) ∈
          (onMessage allOpen pairedSetup 2 (.value touchMoveMsg)).2 ↔
        ∃ ci, mapGet pairedSetup.clients c = some ci ∧ ci.type = .string "extension" ∧
          ci.authenticated = true ∧ ci.sessionId = JsValue.string "s1" ∧ allOpen c = 1) ∧
      (∀ name, (jsonStringify (Payload.forwarded touchMoveMsg)).lookup name =
        (touchMoveMsg.get name).toJSON) ∧
      (∀ name x, touchMoveMsg.get name = .number x →
        (jsonStringify (Payload.forwarded touchMoveMsg)).lookup name = some (.number x)) ∧
      (∀ name s, touchMoveMsg.get name = .string s →
        (jsonStringify (Payload.forwarded touchMoveMsg)).lookup name = some (.string s)) ∧
      (∀ name b, touchMoveMsg.get name = .bool b →
        (jsonStringify (Payload.forwarded touchMoveMsg)).lookup name = some (.bool b)) ∧
      (∀ name, touchMoveMsg.get name = .null →
        (jsonStringify (Payload.forwarded touchMoveMsg)).lookup name = some .null) ∧
      (∀ name negative, touchMoveMsg.get name = .infinite negative →
        (jsonStringify (Payload.forwarded touchMoveMsg)).lookup name = some .null)) :=
  ⟨by decide, by decide,
    touch_browser_fanout allOpen pairedSetup 2 touchMoveMsg
      { type := .string "mobile", alive := true, authenticated := true,
        sessionId := .string "s1" }
      (Reachable.run Reachable.empty pairedEvents (by decide)).wf (by decide) rfl
      (Or.inl (by decide))⟩

/-- C9 (counterexample).  In `pairedSetup` the authenticated remote 2 sends the
frame `{"type":"touch","action":"move","dx":1e999,"dy":3}`, which decodes with
`dx` equal to `Infinity`.  The controllers 0 and 3 are sent a frame in which
`dx` is `null`, not the value the sender sent. -/
theorem touch_browser_fanout_counterexample :
    Reachable pairedSetup ∧
      mapGet pairedSetup.clients 2 =
        some { type := .string "mobile", alive := true, authenticated := true,
               sessionId := .string "s1" } ∧
      touchOverflowMsg.get "type" = .string "touch" ∧
      touchOverflowMsg.get "dx" = .infinite false ∧
      (onMessage allOpen pairedSetup 2 (.value touchOverflowMsg)).2 =
        [Effect.send 0 (Payload.forwarded touchOverflowMsg),
         Effect.send 3 (Payload.forwarded touchOverflowMsg)] ∧
      jsonStringify (Payload.forwarded touchOverflowMsg) =
        [("type", .string "touch"), ("action", .string "move"), ("dx", .null),
         ("dy", .number 3)] :=
  ⟨Reachable.run Reachable.empty pairedEvents (by decide), by decide, by decide, by decide,
    by decide, by decide⟩

/-- C10.  Fan-out to remotes: an `openKeyboard` or `closeKeyboard` message
handled from an authenticated sender is sent, as the message itself, to exactly
the registered connections of type `mobile` that are authenticated, have the
session id of the sender and an open transport; nothing else is sent, and no
connection of type `extension` is sent it. -/
theorem keyboard_fanout (readyState : Nat → Nat) (st : Relay) (ws : Nat) (m : Message)
    (info : ClientInfo) (hwf : st.WF) (hget : mapGet st.clients ws = some info)
    (hauth : info.authenticated = true)
    (hty : m.get "type" = .string "openKeyboard" ∨ m.get "type" = .string "closeKeyboard") :
    (∀ e ∈ (onMessage readyState st ws (.value m)).2,
        ∃ c, e = Effect.send c (Payload.forwarded m)) ∧
      (∀ c, Effect.send c (Payload.forwarded m) ∈ (onMessage readyState st ws (.value m)).2 ↔
        ∃ ci, mapGet st.clients c = some ci ∧ ci.type = .string "mobile" ∧
          ci.authenticated = true ∧ ci.sessionId = info.sessionId ∧ readyState c = 1) ∧
      ∀ c ci, mapGet st.clients c = some ci → ci.type = .string "extension" →
        Effect.send c (Payload.forwarded m) ∉ (onMessage readyState st ws (.value m)).2 := by
  have hty4 : m.get "type" = .string "touch" ∨ m.get "type" = .string "browser" ∨
      m.get "type" = .string "openKeyboard" ∨ m.get "type" = .string "closeKeyboard" := by
    rcases hty with h | h
    · exact Or.inr (Or.inr (Or.inl h))
    · exact Or.inr (Or.inr (Or.inr h))
  have hnot : ¬ (m.get "type" = .string "touch" ∨ m.get "type" = .string "browser") := by
    rcases hty with h | h <;> simp [h]
  rw [onMessage_forward_effects readyState st ws m info hget hty4, if_pos hauth, if_neg hnot]
  have hiff : ∀ c, Effect.send c (Payload.forwarded m) ∈
        broadcast readyState st.clients (.string "mobile") info.sessionId (.forwarded m) ↔
      ∃ ci, mapGet st.clients c = some ci ∧ ci.type = .string "mobile" ∧
        ci.authenticated = true ∧ ci.sessionId = info.sessionId ∧ readyState c = 1 := by
    intro c
    rw [mem_broadcast]
    constructor
    · rintro ⟨_, ci, hmem, h⟩
      exact ⟨ci, mapGet_of_mem _ _ _ hwf.1 hmem, h⟩
    · rintro ⟨ci, hc, h⟩
      exact ⟨rfl, ci, mem_of_mapGet _ _ _ hc, h⟩
  refine ⟨fun e he => broadcast_sends _ _ _ _ _ e he, hiff, ?_⟩
  intro c ci hc hrole hsend
  obtain ⟨cj, hcj, hmob, _⟩ := (hiff c).mp hsend
  rw [hc] at hcj
  cases hcj
  rw [hrole] at hmob
  simp at hmob

/-- Witness for C10: in `pairedSetup` controller 0 reports a focused input and
the remote 2 alone is sent the message. -/
theorem keyboard_fanout_witness :
    (onMessage allOpen pairedSetup 0 (.value openKeyboardMsg)).2 =
        [Effect.send 2 (Payload.forwarded openKeyboardMsg)] ∧
    ((∀ e ∈ (onMessage allOpen pairedSetup 0 (.value openKeyboardMsg)).2,
        ∃ c, e = Effect.send c (Payload.forwarded openKeyboardMsg)) ∧
      (∀ c, Effect.send c (Payload.forwarded openKeyboardMsg) ∈
          (onMessage allOpen pairedSetup 0 (.value openKeyboardMsg)).2 ↔
        ∃ ci, mapGet pairedSetup.clients c = some ci ∧ ci.type = .string "mobile" ∧
          ci.authenticated = true ∧ ci.sessionId = JsValue.string "s1" ∧ allOpen c = 1) ∧
      ∀ c ci, mapGet pairedSetup.clients c = some ci → ci.type = .string "extension" →
        Effect.send c (Payload.forwarded openKeyboardMsg) ∉
          (onMessage allOpen pairedSetup 0 (.value openKeyboardMsg)).2) :=
  ⟨by decide,
    keyboard_fanout allOpen pairedSetup 0 openKeyboardMsg
      { type := .string "extension", alive := true, authenticated := true,
        sessionId := .string "s1" }
      (Reachable.run Reachable.empty pairedEvents (by decide)).wf (by decide) rfl
      (Or.inl (by decide))⟩

/-- C11.  A `setPairingCode` with session id `S` and code `C`, handled from any
registered connection, always succeeds: the pairing store maps `S` to `C`, the
sender has session id `S` and `authenticated` true with its role unchanged, and
the only frame sent is the acknowledgment `pairingCodeSet` to the sender. -/
theorem setPairingCode_always_succeeds (readyState : Nat → Nat) (st : Relay) (ws : Nat)
    (m : Message) (info : ClientInfo) (S C : JsValue)
    (hget : mapGet st.clients ws = some info)
    (hty : m.get "type" = .string "setPairingCode")
    (hs : m.get "sessionId" = S) (hc : m.get "code" = C) :
    mapGet (onMessage readyState st ws (.value m)).1.sessionCodes S = some C ∧
      mapGet (onMessage readyState st ws (.value m)).1.clients ws =
        some { type := info.type, alive := true, authenticated := true, sessionId := S } ∧
      (onMessage readyState st ws (.value m)).2 = [Effect.send ws Payload.pairingCodeSet] := by
  simp only [onMessage, hget, hty, if_true, hs, hc]
  exact ⟨mapGet_mapSet_self _ _ _, mapGet_mapSet_self _ _ _, trivial⟩

/-- Witness for C11: the remote 2 of `sharedCodeSetup`, registered as `mobile`
and not authenticated, sets a code for a new session. -/
theorem setPairingCode_always_succeeds_witness :
    mapGet (onMessage allOpen sharedCodeSetup 2
        (.value (setPairingCodeMsg (.string "s9") (.string "135790")))).1.sessionCodes
        (.string "s9") = some (.string "135790") ∧
      mapGet (onMessage allOpen sharedCodeSetup 2
        (.value (setPairingCodeMsg (.string "s9") (.string "135790")))).1.clients 2 =
        some { type := .string "mobile", alive := true, authenticated := true,
               sessionId := .string "s9" } ∧
      (onMessage allOpen sharedCodeSetup 2
        (.value (setPairingCodeMsg (.string "s9") (.string "135790")))).2 =
        [Effect.send 2 Payload.pairingCodeSet] :=
  setPairingCode_always_succeeds allOpen sharedCodeSetup 2
    (setPairingCodeMsg (.string "s9") (.string "135790"))
    { type := .string "mobile", alive := true, authenticated := false, sessionId := .null }
    (.string "s9") (.string "135790") (by decide) (by decide) (by decide) (by decide)

/-- C12.  A `register` with client type `T`, handled from any registered
connection, sets the role of the sender to `T` and replies `registered`; the
authenticated flag and session id of the sender, every other connection and
the pairing store are unchanged. -/
theorem register_sets_role_only (readyState : Nat → Nat) (st : Relay) (ws : Nat)
    (m : Message) (info : ClientInfo) (T : JsValue)
    (hget : mapGet st.clients ws = some info)
    (hty : m.get "type" = .string "register") (hT : m.get "clientType" = T) :
    (onMessage readyState st ws (.value m)).2 = [Effect.send ws Payload.registered] ∧
      mapGet (onMessage readyState st ws (.value m)).1.clients ws =
        some { type := T, alive := true, authenticated := info.authenticated,
               sessionId := info.sessionId } ∧
      (∀ c, c ≠ ws →
        mapGet (onMessage readyState st ws (.value m)).1.clients c = mapGet st.clients c) ∧
      (onMessage readyState st ws (.value m)).1.clients.map Prod.fst = st.clients.map Prod.fst ∧
      (onMessage readyState st ws (.value m)).1.sessionCodes = st.sessionCodes := by
  refine ⟨?_, ?_, fun c hc => onMessage_other readyState st ws c _ (Ne.symm hc),
    (onMessage_keys readyState st ws _).1,
    onMessage_codes_unchanged readyState st ws m (by simp [hty])⟩
  · simp [onMessage, hget, hty]
  · simp [onMessage, hget, hty, hT, mapGet_mapSet_self]

/-- Witness for C12: controller 1 of `sharedCodeSetup`, not authenticated,
registers again as `mobile` and is still not authenticated. -/
theorem register_sets_role_only_witness :
    (onMessage allOpen sharedCodeSetup 1 (.value (registerMsg "mobile"))).2 =
        [Effect.send 1 Payload.registered] ∧
      mapGet (onMessage allOpen sharedCodeSetup 1 (.value (registerMsg "mobile"))).1.clients 1 =
        some { type := .string "mobile", alive := true, authenticated := false,
               sessionId := .null } ∧
      (∀ c, c ≠ 1 →
        mapGet (onMessage allOpen sharedCodeSetup 1 (.value (registerMsg "mobile"))).1.clients c =
          mapGet sharedCodeSetup.clients c) ∧
      (onMessage allOpen sharedCodeSetup 1 (.value (registerMsg "mobile"))).1.clients.map
          Prod.fst = sharedCodeSetup.clients.map Prod.fst ∧
      (onMessage allOpen sharedCodeSetup 1 (.value (registerMsg "mobile"))).1.sessionCodes =
        sharedCodeSetup.sessionCodes :=
  register_sets_role_only allOpen sharedCodeSetup 1 (registerMsg "mobile")
    { type := .string "extension", alive := true, authenticated := false, sessionId := .null }
    (.string "mobile") (by decide) (by decide) (by decide)

/-- C13 (amended).  A `ping` with timestamp `t`, handled from any registered
connection, authenticated or not, makes the handler send exactly one frame, to
the sender: `JSON.stringify` of a `pong` with timestamp `t`.  That frame has
the type `pong` and, as its timestamp, `t` itself when `t` is a finite number,
a string, a boolean or `null`, `null` when `t` is `Infinity` or `-Infinity`, the
serialisation of `t` when it is an object or array, and no timestamp when the
`ping` has none.  The pairing store, the set of registered connections and the
role, authenticated flag and session id of every connection are unchanged. -/
theorem ping_echo (readyState : Nat → Nat) (st : Relay) (ws : Nat) (m : Message)
    (info : ClientInfo) (t : JsValue) (hget : mapGet st.clients ws = some info)
    (hty : m.get "type" = .string "ping") (ht : m.get "timestamp" = t) :
    (onMessage readyState st ws (.value m)).2 = [Effect.send ws (Payload.pong t)] ∧
      jsonStringify (Payload.pong t) =
        ("type", JsonValue.string "pong") ::
          (match t with
            | .undefined => []
            | .null => [("timestamp", .null)]
            | .bool b => [("timestamp", .bool b)]
            | .number x => [("timestamp", .number x)]
            | .infinite _ => [("timestamp", .null)]
            | .string s => [("timestamp", .string s)]
            | .object ref => [("timestamp", .nested ref)]) ∧
      (onMessage readyState st ws (.value m)).1.sessionCodes = st.sessionCodes ∧
      (onMessage readyState st ws (.value m)).1.clients.map Prod.fst = st.clients.map Prod.fst ∧
      ∀ c, (mapGet (onMessage readyState st ws (.value m)).1.clients c).map
            (fun i => (i.type, i.authenticated, i.sessionId)) =
          (mapGet st.clients c).map (fun i => (i.type, i.authenticated, i.sessionId)) := by
  rw [onMessage_route_some readyState st ws m info hget (by simp [hty]) (by simp [hty])
    (by simp [hty])]
  refine ⟨?_, ?_, rfl, mapSet_keys_of_mapGet _ _ _ _ hget, ?_⟩
  · rw [← ht]
    exact route_ping _ _ _ _ _ hty
  · rw [jsonStringify_pong]
    cases t <;> rfl
  · intro c
    dsimp only
    rw [mapGet_mapSet]
    split
    · rename_i hc
      subst hc
      rw [hget]
      rfl
    · rfl

/-- Witness for C13 (amended): the remote 2 of `sharedCodeSetup`, not
authenticated, probes the relay with a finite timestamp and gets it back. -/
theorem ping_echo_witness :
    (onMessage allOpen sharedCodeSetup 2 (.value pingMsg)).2 =
        [Effect.send 2 (Payload.pong (.number 1700000000000))] ∧
      jsonStringify (Payload.pong (.number 1700000000000)) =
        [("type", JsonValue.string "pong"), ("timestamp", .number 1700000000000)] ∧
      (onMessage allOpen sharedCodeSetup 2 (.value pingMsg)).1.sessionCodes =
        sharedCodeSetup.sessionCodes ∧
      (onMessage allOpen sharedCodeSetup 2 (.value pingMsg)).1.clients.map Prod.fst =
        sharedCodeSetup.clients.map Prod.fst ∧
      ∀ c, (mapGet (onMessage allOpen sharedCodeSetup 2 (.value pingMsg)).1.clients c).map
            (fun i => (i.type, i.authenticated, i.sessionId)) =
          (mapGet sharedCodeSetup.clients c).map
            (fun i => (i.type, i.authenticated, i.sessionId)) :=
  ping_echo allOpen sharedCodeSetup 2 pingMsg
    { type := .string "mobile", alive := true, authenticated := false, sessionId := .null }
    (.number 1700000000000) (by decide) (by decide) (by decide)

/-- C13 (counterexample).  The remote 2 of `sharedCodeSetup` sends the frame
`{"type":"ping","timestamp":1e999}`, which decodes with the timestamp
`Infinity`.  The one frame sent back is a `pong` whose timestamp is `null`,
not the timestamp of the `ping`. -/
theorem ping_echo_counterexample :
    Reachable sharedCodeSetup ∧
      mapGet sharedCodeSetup.clients 2 =
        some { type := .string "mobile", alive := true, authenticated := false,
               sessionId := .null } ∧
      pingOverflowMsg.get "type" = .string "ping" ∧
      pingOverflowMsg.get "timestamp" = .infinite false ∧
      (onMessage allOpen sharedCodeSetup 2 (.value pingOverflowMsg)).2 =
        [Effect.send 2 (Payload.pong (.infinite false))] ∧
      jsonStringify (Payload.pong (.infinite false)) =
        [("type", .string "pong"), ("timestamp", .null)] :=
  ⟨Reachable.run Reachable.empty sharedCodeEvents (by decide), by decide, by decide, by decide,
    by decide, by decide⟩

/-- C14.  Liveness eviction: from a reachable state, a sweep, then events among
which there is neither a `pong` nor a decodable frame of socket `c` (nor a
sweep), then the next sweep leave `c` out of the registry; and a sweep removes
exactly the registered connections whose `alive` is false, calling `terminate`
on them and no other, and keeps every other one with `alive` set to false. -/
theorem liveness_eviction (rs1 rs2 : Nat → Nat) (st : Relay) (hreach : Reachable st) (c : Nat)
    (between : List Event)
    (hquiet : ∀ ev ∈ between, ev.betweenSweeps c = true ∧ ev.revives c = false) :
    mapGet (heartbeatInterval rs2 (run (heartbeatInterval rs1 st).1 between)).1.clients c =
        none ∧
      (∀ w, mapGet (heartbeatInterval rs1 st).1.clients w = sweepEntry (mapGet st.clients w)) ∧
      ∀ w, Effect.terminate w ∈ (heartbeatInterval rs1 st).2 ↔
        ∃ i, mapGet st.clients w = some i ∧ i.alive = false :=
  ⟨two_sweeps_evict rs1 rs2 st hreach.tracked c between hquiet,
    fun w => heartbeatInterval_get rs1 st hreach.tracked w,
    fun w => heartbeatInterval_terminate rs1 st hreach.tracked w⟩

/-- Witness for C14: in `sharedCodeSetup` the remote 2 stays silent between two
sweeps while controller 0 answers the probe and sends a frame. -/
theorem liveness_eviction_witness :
    mapGet (heartbeatInterval allOpen
        (run (heartbeatInterval allOpen sharedCodeSetup).1
          [.pong 0, .message allOpen 0 (.value pingMsg)])).1.clients 2 = none ∧
      (∀ w, mapGet (heartbeatInterval allOpen sharedCodeSetup).1.clients w =
        sweepEntry (mapGet sharedCodeSetup.clients w)) ∧
      ∀ w, Effect.terminate w ∈ (heartbeatInterval allOpen sharedCodeSetup).2 ↔
        ∃ i, mapGet sharedCodeSetup.clients w = some i ∧ i.alive = false :=
  liveness_eviction allOpen allOpen sharedCodeSetup
    (Reachable.run Reachable.empty sharedCodeEvents (by decide)) 2
    [.pong 0, .message allOpen 0 (.value pingMsg)] (by decide)

/-- C15 (amended).  From a reachable state, if socket `c` is registered after
two consecutive sweeps, then a `pong` of `c` or a frame of `c` that decodes as
JSON was handled between them; and an enabled event that takes the `alive`
flag of `c` from false to true is such a `pong` or such a frame. -/
theorem survival_needs_traffic (rs1 rs2 : Nat → Nat) (st : Relay) (hreach : Reachable st)
    (c : Nat) (between : List Event) (info2 : ClientInfo)
    (hbetween : ∀ ev ∈ between, ev.betweenSweeps c = true)
    (hafter : mapGet (heartbeatInterval rs2
      (run (heartbeatInterval rs1 st).1 between)).1.clients c = some info2) :
    (∃ ev ∈ between, ev.revives c = true) ∧
      ∀ (s : Relay) (ev : Event) (i i1 : ClientInfo), Reachable s → ev.enabled s = true →
        mapGet s.clients c = some i → i.alive = false →
        mapGet (step s ev).clients c = some i1 → i1.alive = true → ev.revives c = true := by
  constructor
  · by_contra hno
    push_neg at hno
    have hquiet : ∀ ev ∈ between, ev.betweenSweeps c = true ∧ ev.revives c = false :=
      fun ev hev => ⟨hbetween ev hev, by simpa using hno ev hev⟩
    rw [two_sweeps_evict rs1 rs2 st hreach.tracked c between hquiet] at hafter
    cases hafter
  · intro s ev i i1 hs hen hi hal hi1 hal1
    by_contra hrev
    have hrev : ev.revives c = false := by simpa using hrev
    have hdead : ∀ j, mapGet s.clients c = some j → j.alive = false := by
      intro j hj
      rw [hi] at hj
      cases hj
      exact hal
    by_cases hb : ev.betweenSweeps c = true
    · have := step_keeps_dead s ev c hb hrev hdead i1 hi1
      rw [hal1] at this
      cases this
    · cases ev with
      | connection ws =>
        have hws : ws = c := by simpa [Event.betweenSweeps] using hb
        subst hws
        have hin := hs.tracked.2 ws (mem_keys_of_mapGet _ _ _ hi)
        simp [Event.enabled, hin] at hen
      | heartbeat readyState =>
        simp only [step, heartbeatInterval_get readyState s hs.tracked c, hi, sweepEntry, hal,
          if_true] at hi1
        cases hi1
      | message readyState ws data => simp [Event.betweenSweeps] at hb
      | pong ws => simp [Event.betweenSweeps] at hb
      | close ws => simp [Event.betweenSweeps] at hb
      | error ws => simp [Event.betweenSweeps] at hb

/-- Witness for C15 (amended): the remote 2 of `sharedCodeSetup` answers the
probe between two sweeps and is still registered after the second. -/
theorem survival_needs_traffic_witness :
    (∃ ev ∈ [Event.pong 2], ev.revives 2 = true) ∧
      ∀ (s : Relay) (ev : Event) (i i1 : ClientInfo), Reachable s → ev.enabled s = true →
        mapGet s.clients 2 = some i → i.alive = false →
        mapGet (step s ev).clients 2 = some i1 → i1.alive = true → ev.revives 2 = true :=
  survival_needs_traffic allOpen allOpen sharedCodeSetup
    (Reachable.run Reachable.empty sharedCodeEvents (by decide)) 2 [.pong 2]
    { type := .string "mobile", alive := false, authenticated := false, sessionId := .null }
    (by decide) (by decide)

/-- C15 (counterexample).  Socket 0 of `twoSockets` sends a `ping` frame between
two sweeps and never a `pong`: it is registered before the first sweep and
still registered after the second. -/
theorem survival_needs_traffic_counterexample :
    Reachable twoSockets ∧
      mapGet twoSockets.clients 0 =
        some { type := .string "unknown", alive := true, authenticated := false,
               sessionId := .null } ∧
      (∀ ev ∈ [Event.message allOpen 0 (.value pingMsg)], ev.isPongOf 0 = false) ∧
      mapGet (heartbeatInterval allOpen
          (run (heartbeatInterval allOpen twoSockets).1
            [.message allOpen 0 (.value pingMsg)])).1.clients 0 =
        some { type := .string "unknown", alive := false, authenticated := false,
               sessionId := .null } :=
  ⟨Reachable.run Reachable.empty [.connection 0, .connection 1] (by decide), by decide,
    by decide, by decide⟩

/-- C16.  The close of a registered connection of type `mobile`, whatever its
session, removes it from the registry and leaves the pairing store and the
entry of every other connection unchanged. -/
theorem remote_close_keeps_store (st : Relay) (ws : Nat) (info : ClientInfo)
    (hget : mapGet st.clients ws = some info) (hrole : info.type = .string "mobile") :
    mapGet (onClose st ws).clients ws = none ∧
      (∀ c, c ≠ ws → mapGet (onClose st ws).clients c = mapGet st.clients c) ∧
      (onClose st ws).sessionCodes = st.sessionCodes := by
  refine ⟨mapGet_mapDelete_self _ _, fun c hc => mapGet_mapDelete_ne _ _ _ (Ne.symm hc), ?_⟩
  simp [onClose, hget, hrole]

/-- Witness for C16: the remote 2 of `pairedSetup`, authenticated into session
`s1`, closes. -/
theorem remote_close_keeps_store_witness :
    mapGet (onClose pairedSetup 2).clients 2 = none ∧
      (∀ c, c ≠ 2 → mapGet (onClose pairedSetup 2).clients c = mapGet pairedSetup.clients c) ∧
      (onClose pairedSetup 2).sessionCodes = pairedSetup.sessionCodes :=
  remote_close_keeps_store pairedSetup 2
    { type := .string "mobile", alive := true, authenticated := true,
      sessionId := .string "s1" }
    (by decide) rfl

/-- C17 (the code at the failing input).  In `remoteSilent` the remote 2,
authenticated into session `s1` by `auth`, has not answered the last probe.
The sweep evicts it and deletes the pairing store entry of `s1`, although its
owner, controller 0, is still registered: the former code is then refused. -/
theorem heartbeat_eviction_purges_remote_session :
    Reachable remoteSilent ∧
      mapGet remoteSilent.clients 2 =
        some { type := .string "mobile", alive := false, authenticated := true,
               sessionId := .string "s1" } ∧
      mapGet remoteSilent.sessionCodes (.string "s1") = some (.string "482913") ∧
      (heartbeatInterval allOpen remoteSilent).2 =
        [Effect.ping 0, Effect.ping 1, Effect.terminate 2] ∧
      mapGet (heartbeatInterval allOpen remoteSilent).1.clients 0 =
        some { type := .string "extension", alive := false, authenticated := true,
               sessionId := .string "s1" } ∧
      (heartbeatInterval allOpen remoteSilent).1.sessionCodes = [] ∧
      (onMessage allOpen (heartbeatInterval allOpen remoteSilent).1 1
          (.value (authMsg (.string "482913")))).2 =
        [Effect.send 1 (Payload.authResult false)] :=
  ⟨Reachable.run Reachable.empty remoteSilentEvents (by decide), by decide, by decide,
    by decide, by decide, by decide, by decide⟩

/-- C18 (the code at the failing input).  Controller 0 of `sharedCodeSetup`
owns session `s1` with code `482913`.  After its `error` event and then its
`close` event it is out of the registry, but the pairing store still holds the
entry of `s1` and an `auth` with the former code is answered with success. -/
theorem error_leaves_pairing_code :
    Reachable sharedCodeSetup ∧
      mapGet sharedCodeSetup.clients 0 =
        some { type := .string "extension", alive := true, authenticated := true,
               sessionId := .string "s1" } ∧
      mapGet (onError sharedCodeSetup 0).clients 0 = none ∧
      (onError sharedCodeSetup 0).sessionCodes = [(.string "s1", .string "482913")] ∧
      (onClose (onError sharedCodeSetup 0) 0).sessionCodes =
        [(.string "s1", .string "482913")] ∧
      (onMessage allOpen (onClose (onError sharedCodeSetup 0) 0) 2
          (.value (authMsg (.string "482913")))).2 =
        [Effect.send 2 (Payload.authResult true)] :=
  ⟨Reachable.run Reachable.empty sharedCodeEvents (by decide), by decide, by decide, by decide,
    by decide, by decide⟩

/-- C19.  Malformed message: a frame that `JSON.parse` cannot decode makes the
handler send nothing and leaves the registry, with the `alive` flag of the
sender, and the pairing store as they were. -/
theorem malformed_message_dropped (readyState : Nat → Nat) (st : Relay) (ws : Nat) :
    (onMessage readyState st ws .syntaxError).2 = [] ∧
      (onMessage readyState st ws .syntaxError).1 = st :=
  ⟨rfl, rfl⟩

/-- C20.  First match: when the first entry of the pairing store whose code is
`C` has key `k`, an `auth` with code `C` from a registered connection binds the
sender to `k` and to no other session (it succeeds exactly when `k` is truthy),
whatever entries with the same code follow; and a `setPairingCode` for a
session that is already in the store leaves the order of the sessions as it
was. -/
theorem auth_binds_first_match (rsA rsB : Nat → Nat) (st : Relay) (ws wsB : Nat)
    (m mSet : Message) (info : ClientInfo) (C k : JsValue)
    (pre post : List (JsValue × JsValue))
    (hget : mapGet st.clients ws = some info)
    (hty : m.get "type" = .string "auth") (hc : m.get "code" = C)
    (hstore : st.sessionCodes = pre ++ (k, C) :: post) (hpre : ∀ e ∈ pre, e.2 ≠ C)
    (hsetT : mSet.get "type" = .string "setPairingCode")
    (hsetS : mSet.get "sessionId" ∈ st.sessionCodes.map Prod.fst) :
    (onMessage rsA st ws (.value m)).2 = [Effect.send ws (Payload.authResult k.truthy)] ∧
      mapGet (onMessage rsA st ws (.value m)).1.clients ws =
        some (if k.truthy = true then
            { type := info.type, alive := true, authenticated := true, sessionId := k }
          else { info with alive := true }) ∧
      (onMessage rsB st wsB (.value mSet)).1.sessionCodes.map Prod.fst =
        st.sessionCodes.map Prod.fst := by
  have hfind : findSessionByCode st.sessionCodes (m.get "code") = k := by
    rw [hstore, hc]
    exact findSessionByCode_first pre post k C hpre
  refine ⟨?_, ?_, ?_⟩
  · rw [onMessage_auth_some rsA st ws m info hty hget, hfind]
    split <;> simp_all
  · rw [onMessage_auth_some rsA st ws m info hty hget, hfind]
    split <;> simp_all [mapGet_mapSet_self]
  · rw [onMessage_setPairingCode_codes rsB st wsB mSet hsetT, mapSet_keys, if_pos hsetS]

/-- Witness for C20: in `twoSessionsOneCode` the sessions `s1` and `s2` hold
the code `482913`, `s1` first; the remote 2 is bound to `s1`, and controller 0
replacing the code of `s1` keeps `s1` before `s2`. -/
theorem auth_binds_first_match_witness :
    (onMessage allOpen twoSessionsOneCode 2 (.value (authMsg (.string "482913")))).2 =
        [Effect.send 2 (Payload.authResult (JsValue.string "s1").truthy)] ∧
      mapGet (onMessage allOpen twoSessionsOneCode 2
          (.value (authMsg (.string "482913")))).1.clients 2 =
        some (if (JsValue.string "s1").truthy = true then
            { type := .string "mobile", alive := true, authenticated := true,
              sessionId := .string "s1" }
          else { type := .string "mobile", alive := true, authenticated := false,
                 sessionId := .null }) ∧
      (onMessage allOpen twoSessionsOneCode 0
          (.value (setPairingCodeMsg (.string "s1") (.string "777777")))).1.sessionCodes.map
          Prod.fst = twoSessionsOneCode.sessionCodes.map Prod.fst :=
  auth_binds_first_match allOpen allOpen twoSessionsOneCode 2 0
    (authMsg (.string "482913")) (setPairingCodeMsg (.string "s1") (.string "777777"))
    { type := .string "mobile", alive := true, authenticated := false, sessionId := .null }
    (.string "482913") (.string "s1") [] [(.string "s2", .string "482913")]
    (by decide) (by decide) (by decide) (by decide) (by decide) (by decide) (by decide)


/-- C21.  Authentication persists: in a reachable state, a registered
connection with `authenticated` true that is still registered after an enabled
event (a message of any kind, a `pong`, a sweep, or an event of another
socket) still has `authenticated` true. -/
theorem authenticated_persists (st : Relay) (ev : Event) (c : Nat) (i i1 : ClientInfo)
    (hreach : Reachable st) (hen : ev.enabled st = true)
    (hget : mapGet st.clients c = some i) (hauth : i.authenticated = true)
    (hget1 : mapGet (step st ev).clients c = some i1) :
    i1.authenticated = true := by
  have hkeep : mapGet (step st ev).clients c = mapGet st.clients c → i1.authenticated = true := by
    intro h
    rw [h, hget] at hget1
    cases hget1
    exact hauth
  cases ev with
  | connection ws =>
    have hin := hreach.tracked.2 c (mem_keys_of_mapGet _ _ _ hget)
    have hws : ws ≠ c := by
      intro h
      subst h
      simp [Event.enabled, hin] at hen
    exact hkeep (mapGet_mapSet_ne _ _ _ _ hws)
  | message readyState ws data =>
    by_cases hws : ws = c
    · subst hws
      exact onMessage_keeps_authenticated readyState st ws data i i1 hget hauth hget1
    · exact hkeep (onMessage_other readyState st ws c data hws)
  | pong ws =>
    by_cases hws : ws = c
    · subst hws
      simp only [step, onPong, hget, mapGet_mapSet_self] at hget1
      cases hget1
      exact hauth
    · exact hkeep (onPong_other st ws c hws)
  | close ws =>
    simp only [step, onClose, mapGet_mapDelete] at hget1
    split at hget1
    · cases hget1
    · rw [hget] at hget1
      cases hget1
      exact hauth
  | error ws =>
    simp only [step, onError, mapGet_mapDelete] at hget1
    split at hget1
    · cases hget1
    · rw [hget] at hget1
      cases hget1
      exact hauth
  | heartbeat readyState =>
    simp only [step, heartbeatInterval_get readyState st hreach.tracked c, hget, sweepEntry]
      at hget1
    split at hget1
    · cases hget1
    · cases hget1
      exact hauth

/-- Witness for C21: the authenticated remote 2 of `pairedSetup` presents a
wrong code and stays authenticated. -/
theorem authenticated_persists_witness :
    mapGet pairedSetup.clients 2 =
        some { type := .string "mobile", alive := true, authenticated := true,
               sessionId := .string "s1" } ∧
      (onMessage allOpen pairedSetup 2 (.value (authMsg (.string "000000")))).2 =
        [Effect.send 2 (Payload.authResult false)] ∧
      ({ type := .string "mobile", alive := true, authenticated := true,
         sessionId := .string "s1" } : ClientInfo).authenticated = true :=
  ⟨by decide, by decide,
    authenticated_persists pairedSetup
      (.message allOpen 2 (.value (authMsg (.string "000000")))) 2
      { type := .string "mobile", alive := true, authenticated := true,
        sessionId := .string "s1" }
      { type := .string "mobile", alive := true, authenticated := true,
        sessionId := .string "s1" }
      (Reachable.run Reachable.empty pairedEvents (by decide)) (by decide) (by decide) rfl
      (by decide)⟩

/-- C22 (amended).  For every double `r` in `[0, 1)` returned by
`Math.random()`, `generatePairingCode` returns the decimal string of the
integer `Math.floor(100000 + r * 900000)`, the product and the sum being the
JavaScript ones, each rounded to the nearest double.  That integer is the
floor of the exact value `100000 + 900000 * r` or one more, and it lies between
100000 and 999999, so the code has exactly 6 code units, all decimal digits,
the first one not `0`, and these digits denote that integer. -/
theorem generatePairingCode_six_digits (r : Rat) (hd : isDouble r) (h0 : 0 ≤ r)
    (h1 : r < 1) :
    generatePairingCode r = integerToString ⌊jsAdd 100000 (jsMul r 900000)⌋ ∧
      (decimalValue (generatePairingCode r) : Int) = ⌊jsAdd 100000 (jsMul r 900000)⌋ ∧
      (⌊100000 + 900000 * r⌋ ≤ ⌊jsAdd 100000 (jsMul r 900000)⌋ ∧
        ⌊jsAdd 100000 (jsMul r 900000)⌋ ≤ ⌊100000 + 900000 * r⌋ + 1) ∧
      (generatePairingCode r = integerToString ⌊100000 + 900000 * r⌋ ∨
        generatePairingCode r = integerToString (⌊100000 + 900000 * r⌋ + 1)) ∧
      (100000 ≤ ⌊jsAdd 100000 (jsMul r 900000)⌋ ∧
        ⌊jsAdd 100000 (jsMul r 900000)⌋ ≤ 999999) ∧
      (generatePairingCode r).length = 6 ∧
      (∀ u ∈ generatePairingCode r, 48 ≤ u ∧ u ≤ 57) ∧
      (generatePairingCode r).head? ≠ some 48 := by
  obtain ⟨hlo, hhi⟩ := floor_code_bounds r hd h0 h1
  obtain ⟨hb1, hb2⟩ := floor_code_bracket r h0 h1
  refine ⟨rfl, decimalValue_integerToString _ (by omega), ⟨hb1, hb2⟩, ?_, ⟨hlo, hhi⟩,
    integerToString_six _ hlo hhi⟩
  have hcases : ⌊jsAdd 100000 (jsMul r 900000)⌋ = ⌊100000 + 900000 * r⌋ ∨
      ⌊jsAdd 100000 (jsMul r 900000)⌋ = ⌊100000 + 900000 * r⌋ + 1 := by omega
  rcases hcases with h | h
  · exact Or.inl (congrArg integerToString h)
  · exact Or.inr (congrArg integerToString h)

/-- Witness for C22 (amended): `Math.random()` returns one half and the code is
`550000`. -/
theorem generatePairingCode_six_digits_witness :
    generatePairingCode (1 / 2) = [53, 53, 48, 48, 48, 48] ∧
    (generatePairingCode (1 / 2) =
        integerToString ⌊jsAdd 100000 (jsMul (1 / 2) 900000)⌋ ∧
      (decimalValue (generatePairingCode (1 / 2)) : Int) =
        ⌊jsAdd 100000 (jsMul (1 / 2) 900000)⌋ ∧
      (⌊100000 + 900000 * (1 / 2 : Rat)⌋ ≤ ⌊jsAdd 100000 (jsMul (1 / 2) 900000)⌋ ∧
        ⌊jsAdd 100000 (jsMul (1 / 2) 900000)⌋ ≤ ⌊100000 + 900000 * (1 / 2 : Rat)⌋ + 1) ∧
      (generatePairingCode (1 / 2) = integerToString ⌊100000 + 900000 * (1 / 2 : Rat)⌋ ∨
        generatePairingCode (1 / 2) =
          integerToString (⌊100000 + 900000 * (1 / 2 : Rat)⌋ + 1)) ∧
      (100000 ≤ ⌊jsAdd 100000 (jsMul (1 / 2) 900000)⌋ ∧
        ⌊jsAdd 100000 (jsMul (1 / 2) 900000)⌋ ≤ 999999) ∧
      (generatePairingCode (1 / 2)).length = 6 ∧
      (∀ u ∈ generatePairingCode (1 / 2), 48 ≤ u ∧ u ≤ 57) ∧
      (generatePairingCode (1 / 2)).head? ≠ some 48) :=
  ⟨generatePairingCode_half,
    generatePairingCode_six_digits (1 / 2) isDouble_half (by norm_num) (by norm_num)⟩

/-- C22 (counterexample).  Two doubles in `[0, 1)` for which the code is not the
decimal string of the floor of `100000 + 900000 * r`: for `0.5 - 2^-54` the code
is `550000` and the floor is 549999, because the sum `550000 - 2^-34` is a tie
that rounds to 550000; for `123183457807755 / 2^52`, a multiple of `2^-52`, the
code is `124617` and the floor is 124616, because the product rounds to
24617. -/
theorem generatePairingCode_six_digits_counterexample :
    (isDouble belowHalf ∧ 0 ≤ belowHalf ∧ belowHalf < 1 ∧
      generatePairingCode belowHalf = [53, 53, 48, 48, 48, 48] ∧
      ⌊100000 + 900000 * belowHalf⌋ = 549999 ∧
      integerToString ⌊100000 + 900000 * belowHalf⌋ = [53, 52, 57, 57, 57, 57]) ∧
    (isDouble fiftyTwoBits ∧ 0 ≤ fiftyTwoBits ∧ fiftyTwoBits < 1 ∧
      generatePairingCode fiftyTwoBits = [49, 50, 52, 54, 49, 55] ∧
      ⌊100000 + 900000 * fiftyTwoBits⌋ = 124616 ∧
      integerToString ⌊100000 + 900000 * fiftyTwoBits⌋ = [49, 50, 52, 54, 49, 54]) := by
  refine ⟨⟨isDouble_belowHalf, by norm_num [belowHalf], by norm_num [belowHalf],
    generatePairingCode_belowHalf, exact_floor_belowHalf, ?_⟩,
    ⟨isDouble_fiftyTwoBits, by norm_num [fiftyTwoBits], by norm_num [fiftyTwoBits],
    generatePairingCode_fiftyTwoBits, exact_floor_fiftyTwoBits, ?_⟩⟩
  · rw [exact_floor_belowHalf]
    norm_num [integerToString]
  · rw [exact_floor_fiftyTwoBits]
    norm_num [integerToString]


/-- C23.  The function `savePairingCode` returns true exactly when the code
has 6 code units that are all ASCII decimal digits.  When it returns false the
two variables are unchanged and nothing is stored or sent; when it returns
true `pairingCode` is the code, a truthy `sessionId` is kept and a `null` one
is replaced by a freshly generated one, and the pair is stored and sent. -/
theorem savePairingCode_validates (fresh : JsString) (p : Popup) (code : JsString) :
    ((savePairingCode fresh p code).1 = true ↔
        code.length = 6 ∧ ∀ u ∈ code, 48 ≤ u ∧ u ≤ 57) ∧
      ((savePairingCode fresh p code).1 = false →
        (savePairingCode fresh p code).2.1 = p ∧
          (savePairingCode fresh p code).2.2 = [PopupEffect.alert]) ∧
      ((savePairingCode fresh p code).1 = true →
        (savePairingCode fresh p code).2.1.pairingCode = some code ∧
          (stringTruthy p.sessionId = true →
            (savePairingCode fresh p code).2.1.sessionId = p.sessionId) ∧
          (p.sessionId = none → (savePairingCode fresh p code).2.1.sessionId = some fresh) ∧
          (savePairingCode fresh p code).2.2 =
            [PopupEffect.storageSet (some code) (savePairingCode fresh p code).2.1.sessionId,
             PopupEffect.sendPairingCode (some code)
               (savePairingCode fresh p code).2.1.sessionId,
             PopupEffect.savedFeedback]) := by
  have hiff := savePairingCode_accepts_iff code
  by_cases hrej : (code.isEmpty || decide (code.length ≠ 6) || !digitsOnly code) = true
  · have hno : ¬ (code.length = 6 ∧ ∀ u ∈ code, 48 ≤ u ∧ u ≤ 57) := by
      intro h
      rw [hiff.mpr h] at hrej
      cases hrej
    have hval : savePairingCode fresh p code = (false, p, [PopupEffect.alert]) := by
      simp only [savePairingCode, hrej, if_true]
    rw [hval]
    exact ⟨⟨fun h => (Bool.false_ne_true h).elim, fun h => absurd h hno⟩,
      fun _ => ⟨rfl, rfl⟩, fun h => (Bool.false_ne_true h).elim⟩
  · have hacc : (code.isEmpty || decide (code.length ≠ 6) || !digitsOnly code) = false := by
      simpa using hrej
    have hval : savePairingCode fresh p code =
        (true,
          { pairingCode := some code
            sessionId := if stringTruthy p.sessionId then p.sessionId else some fresh },
          [PopupEffect.storageSet (some code)
             (if stringTruthy p.sessionId then p.sessionId else some fresh),
           PopupEffect.sendPairingCode (some code)
             (if stringTruthy p.sessionId then p.sessionId else some fresh),
           PopupEffect.savedFeedback]) := by
      simp only [savePairingCode, hacc]
      rfl
    rw [hval]
    refine ⟨⟨fun _ => hiff.mp hacc, fun _ => rfl⟩,
      fun h => (Bool.false_ne_true h.symm).elim, fun _ => ⟨rfl, fun ht => ?_, fun hn => ?_, rfl⟩⟩
    · show (if stringTruthy p.sessionId = true then p.sessionId else some fresh) = p.sessionId
      rw [if_pos ht]
    · show (if stringTruthy p.sessionId = true then p.sessionId else some fresh) = some fresh
      rw [hn]
      rfl

/-- C24 (amended).  Clamp cursor to viewport: in a window of inner width `W` and
height `H`, integers from 1 to `2^31 - 1`, when both coordinates of the cursor
are finite numbers and `dx` and `dy` are numbers other than `NaN`, a `move`
event leaves both coordinates finite, with `0 ≤ cursorX ≤ W - 1` and
`0 ≤ cursorY ≤ H - 1`.  When `dx` and `dy` are finite the cursor is
`(min (max (cursorX + dx) 0) (W - 1), min (max (cursorY + dy) 0) (H - 1))`, the
sums being the JavaScript ones, rounded to the nearest double; they are the
exact sums whenever these are doubles.  `clampCursor` applied twice is
`clampCursor` applied once, for every cursor. -/
theorem clamp_cursor_to_viewport (W H : Int) (x y : Rat) (dx dy : JsNumber)
    (hW : 1 ≤ W) (hH : 1 ≤ H) (hWmax : W < 2 ^ 31) (hHmax : H < 2 ^ 31)
    (hdx : dx ≠ .nan) (hdy : dy ≠ .nan) :
    (∃ x1 y1,
        handleTouchMove W H { cursorX := .finite x, cursorY := .finite y }
            (.number dx) (.number dy) =
          { cursorX := .finite x1, cursorY := .finite y1 } ∧
        (0 ≤ x1 ∧ x1 ≤ (W : Rat) - 1) ∧ (0 ≤ y1 ∧ y1 ≤ (H : Rat) - 1)) ∧
      (∀ a b, dx = .finite a → dy = .finite b →
        handleTouchMove W H { cursorX := .finite x, cursorY := .finite y }
            (.number dx) (.number dy) =
          { cursorX := .finite (min (max (jsAdd x a) 0) ((W : Rat) - 1))
            cursorY := .finite (min (max (jsAdd y b) 0) ((H : Rat) - 1)) }) ∧
      (∀ a b, dx = .finite a → dy = .finite b → isDouble (x + a) → isDouble (y + b) →
        handleTouchMove W H { cursorX := .finite x, cursorY := .finite y }
            (.number dx) (.number dy) =
          { cursorX := .finite (min (max (x + a) 0) ((W : Rat) - 1))
            cursorY := .finite (min (max (y + b) 0) ((H : Rat) - 1)) }) ∧
      ∀ c, clampCursor W H (clampCursor W H c) = clampCursor W H c := by
  have hw : (0 : Rat) ≤ (W : Rat) - 1 := by
    have : (1 : Rat) ≤ W := by exact_mod_cast hW
    linarith
  have hh : (0 : Rat) ≤ (H : Rat) - 1 := by
    have : (1 : Rat) ≤ H := by exact_mod_cast hH
    linarith
  have hwmax : (W : Rat) - 1 ≤ 2 ^ 1024 := by
    have h1 : (W : Rat) < 2 ^ 31 := by exact_mod_cast hWmax
    have h2 : (2 : Rat) ^ 31 ≤ 2 ^ 1024 := pow_le_pow_right₀ (by norm_num) (by norm_num)
    linarith
  have hhmax : (H : Rat) - 1 ≤ 2 ^ 1024 := by
    have h1 : (H : Rat) < 2 ^ 31 := by exact_mod_cast hHmax
    have h2 : (2 : Rat) ^ 31 ≤ 2 ^ 1024 := pow_le_pow_right₀ (by norm_num) (by norm_num)
    linarith
  have hfin : ∀ a b, dx = .finite a → dy = .finite b →
      handleTouchMove W H { cursorX := .finite x, cursorY := .finite y }
          (.number dx) (.number dy) =
        { cursorX := .finite (min (max (jsAdd x a) 0) ((W : Rat) - 1))
          cursorY := .finite (min (max (jsAdd y b) 0) ((H : Rat) - 1)) } := by
    intro a b ha hb
    subst ha hb
    simp only [handleTouchMove, clampCursor, Delta.toNumber]
    rw [clampNumber_add _ x a hw hwmax, clampNumber_add _ y b hh hhmax]
  refine ⟨?_, hfin, fun a b ha hb hxa hyb => ?_, fun c => ?_⟩
  · obtain ⟨x1, hx1, hx1b⟩ := clampNumber_add_bounds _ x dx hw hwmax hdx
    obtain ⟨y1, hy1, hy1b⟩ := clampNumber_add_bounds _ y dy hh hhmax hdy
    refine ⟨x1, y1, ?_, hx1b, hy1b⟩
    simp only [handleTouchMove, clampCursor, Delta.toNumber]
    rw [hx1, hy1]
  · rw [hfin a b ha hb]
    have h1 : jsAdd x a = x + a := hxa
    have h2 : jsAdd y b = y + b := hyb
    rw [h1, h2]
  · simp only [clampCursor]
    rw [clampNumber_idem _ hw, clampNumber_idem _ hh]

/-- Witness for C24 (amended): a 1280 by 720 window, the cursor near the right
edge moved further right and up; it ends at `(1279, 0)`. -/
theorem clamp_cursor_to_viewport_witness :
    handleTouchMove 1280 720 { cursorX := .finite 1270, cursorY := .finite 5 }
        (.number (.finite 25)) (.number (.finite (-9))) =
      { cursorX := .finite 1279, cursorY := .finite 0 } ∧
    ((∃ x1 y1,
        handleTouchMove 1280 720 { cursorX := .finite 1270, cursorY := .finite 5 }
            (.number (.finite 25)) (.number (.finite (-9))) =
          { cursorX := .finite x1, cursorY := .finite y1 } ∧
        (0 ≤ x1 ∧ x1 ≤ ((1280 : Int) : Rat) - 1) ∧ (0 ≤ y1 ∧ y1 ≤ ((720 : Int) : Rat) - 1)) ∧
      (∀ a b, JsNumber.finite 25 = .finite a → JsNumber.finite (-9) = .finite b →
        handleTouchMove 1280 720 { cursorX := .finite 1270, cursorY := .finite 5 }
            (.number (.finite 25)) (.number (.finite (-9))) =
          { cursorX := .finite (min (max (jsAdd 1270 a) 0) (((1280 : Int) : Rat) - 1))
            cursorY := .finite (min (max (jsAdd 5 b) 0) (((720 : Int) : Rat) - 1)) }) ∧
      (∀ a b, JsNumber.finite 25 = .finite a → JsNumber.finite (-9) = .finite b →
        isDouble (1270 + a) → isDouble (5 + b) →
        handleTouchMove 1280 720 { cursorX := .finite 1270, cursorY := .finite 5 }
            (.number (.finite 25)) (.number (.finite (-9))) =
          { cursorX := .finite (min (max (1270 + a) 0) (((1280 : Int) : Rat) - 1))
            cursorY := .finite (min (max (5 + b) 0) (((720 : Int) : Rat) - 1)) }) ∧
      ∀ c, clampCursor 1280 720 (clampCursor 1280 720 c) = clampCursor 1280 720 c) := by
  have h := clamp_cursor_to_viewport 1280 720 1270 5 (.finite 25) (.finite (-9))
    (by norm_num) (by norm_num) (by norm_num) (by norm_num) (by simp) (by simp)
  refine ⟨?_, h⟩
  have hx : isDouble ((1270 : Rat) + 25) := by
    have := roundToDouble_intCast 1295
      (binade_le_of_nonneg _ 52 (by norm_num) (by norm_num) (by norm_num))
    unfold isDouble
    norm_num at this ⊢
    exact this
  have hy : isDouble ((5 : Rat) + -9) := by
    have := roundToDouble_intCast (-4) (by
      have h4 : binade ((4 : Int) : Rat) ≤ 52 :=
        binade_le_of_nonneg _ 52 (by norm_num) (by norm_num) (by norm_num)
      simpa [binade] using h4)
    unfold isDouble
    norm_num at this ⊢
    exact this
  rw [h.2.2.1 25 (-9) rfl rfl hx hy]
  norm_num

/-- C24 (counterexample).  In a 1280 by 720 window, from the cursor `(640, 360)`
that the content script starts with: a `move` with `dx` equal to `0.1` and `dy`
equal to `0` leaves `cursorX` at the double `5630379143515341 / 2^43`, which is
not `min (max (640 + dx) 0) 1279` for the exact sum; and a `move` without `dx`
makes `cursorX` `NaN`, which the following `move`, with `dx` and `dy` numbers,
leaves `NaN`, a value outside `[0, 1279]`. -/
theorem clamp_cursor_to_viewport_counterexample :
    (isDouble tenth ∧
      handleTouchMove 1280 720 centre (.number (.finite tenth)) (.number (.finite 0)) =
        { cursorX := .finite (5630379143515341 / 2 ^ 43), cursorY := .finite 360 } ∧
      (5630379143515341 / 2 ^ 43 : Rat) ≠ min (max (640 + tenth) 0) (1280 - 1)) ∧
    (handleTouchMove 1280 720 centre .undefined (.number (.finite 3)) =
        { cursorX := .nan, cursorY := .finite 363 } ∧
      handleTouchMove 1280 720 { cursorX := .nan, cursorY := .finite 363 }
          (.number (.finite 5)) (.number (.finite 3)) =
        { cursorX := .nan, cursorY := .finite 366 }) := by
  have hw : (0 : Rat) ≤ ((1280 : Int) : Rat) - 1 := by norm_num
  have hh : (0 : Rat) ≤ ((720 : Int) : Rat) - 1 := by norm_num
  have hwmax : ((1280 : Int) : Rat) - 1 ≤ 2 ^ 1024 := by norm_num
  have hhmax : ((720 : Int) : Rat) - 1 ≤ 2 ^ 1024 := by norm_num
  have h360 : jsAdd 360 0 = 360 := by
    have := jsAdd_int 360 0 (binade_le_of_nonneg _ 52 (by norm_num) (by norm_num) (by norm_num))
    norm_num at this
    exact this
  have h363 : jsAdd 360 3 = 363 := by
    have := jsAdd_int 360 3 (binade_le_of_nonneg _ 52 (by norm_num) (by norm_num) (by norm_num))
    norm_num at this
    exact this
  have h366 : jsAdd 363 3 = 366 := by
    have := jsAdd_int 363 3 (binade_le_of_nonneg _ 52 (by norm_num) (by norm_num) (by norm_num))
    norm_num at this
    exact this
  refine ⟨⟨isDouble_tenth, ?_, ?_⟩, ?_, ?_⟩
  · simp only [handleTouchMove, clampCursor, centre, Delta.toNumber]
    rw [clampNumber_add _ 640 tenth hw hwmax, clampNumber_add _ 360 0 hh hhmax,
      jsAdd_640_tenth, h360]
    norm_num
  · norm_num [tenth]
  · simp only [handleTouchMove, clampCursor, centre, Delta.toNumber]
    rw [clampNumber_add _ 360 3 hh hhmax, h363]
    norm_num [JsNumber.add, mathMin, mathMax]
  · simp only [handleTouchMove, clampCursor, Delta.toNumber]
    rw [clampNumber_add _ 363 3 hh hhmax, h366]
    norm_num [JsNumber.add, mathMin, mathMax]


/-- C25.  Directory traversal prevention: for every request URL, the
sanitised path has no `..` segment, and the path that the static file handler
stats and reads is the public directory followed by zero or more segments,
each of them not empty, not `.`, not `..` and free of `/`, and then at most one
final `/`; `__dirname` is an absolute normalised path. -/
theorem static_path_inside_public (dirname url : JsString) (dsegs : List JsString)
    (hdir : dirname = 47 :: joinSegments dsegs)
    (hclean : ∀ d ∈ dsegs, d ≠ [] ∧ d ≠ [46] ∧ d ≠ dotDot ∧ 47 ∉ d) :
    dotDot ∉ splitSegments (sanitisedPath url) ∧
      ∃ rest trailing,
        (∀ seg ∈ rest, seg ≠ [] ∧ seg ≠ [46] ∧ seg ≠ dotDot ∧ 47 ∉ seg) ∧
        (trailing = [] ∨ trailing = [47]) ∧
        fullPath dirname url =
          47 :: joinSegments (dsegs ++ publicName :: rest) ++ trailing := by
  have hsan : dotDot ∉ splitSegments (sanitisedPath url) :=
    stripDotDots_no_dotDot _ _ le_rfl (normalize_leadingDots _)
  refine ⟨hsan, ?_⟩
  obtain ⟨hroot, hrootdd⟩ := filter_keep_root dsegs hclean
  have hpub : (47 : Nat) ∉ publicName := by decide
  have hpubdd : publicName ≠ dotDot := by decide
  -- the segments of the argument of `normalize`
  obtain ⟨X, hXdd, hXslash, hJ⟩ : ∃ X, dotDot ∉ X ∧ (∀ seg ∈ X, 47 ∉ seg) ∧
      splitSegments (dirname ++ 47 :: publicName ++
          (if sanitisedPath url = [] then [] else 47 :: sanitisedPath url)) =
        splitSegments dirname ++ publicName :: X := by
    by_cases hs : sanitisedPath url = []
    · refine ⟨[], by simp, by simp, ?_⟩
      rw [if_pos hs, List.append_nil, splitSegments_append_slash,
        splitSegments_of_no_slash _ hpub]
    · refine ⟨splitSegments (sanitisedPath url), hsan, splitSegments_no_slash _, ?_⟩
      rw [if_neg hs]
      simp only [List.cons_append, List.append_assoc]
      rw [splitSegments_append_slash, splitSegments_append_slash,
        splitSegments_of_no_slash _ hpub]
      rfl
  have hJdd : dotDot ∉ splitSegments dirname ++ publicName :: X := by
    intro h
    rcases List.mem_append.mp h with h | h
    · rw [hdir] at h
      exact hrootdd h
    · rcases List.mem_cons.mp h with h | h
      · exact hpubdd h.symm
      · exact hXdd h
  have hJne : dirname ++ 47 :: publicName ++
      (if sanitisedPath url = [] then [] else 47 :: sanitisedPath url) ≠ [] := by
    rw [hdir]
    simp
  have hhead : (dirname ++ 47 :: publicName ++
      (if sanitisedPath url = [] then [] else 47 :: sanitisedPath url)).head? = some 47 := by
    rw [hdir]
    rfl
  have hN : normalizeString (!decide ((dirname ++ 47 :: publicName ++
        (if sanitisedPath url = [] then [] else 47 :: sanitisedPath url)).head? = some 47))
      (splitSegments (dirname ++ 47 :: publicName ++
        (if sanitisedPath url = [] then [] else 47 :: sanitisedPath url))) =
      dsegs ++ publicName ::
        X.filter (fun seg => decide (seg ≠ [] ∧ seg ≠ [46])) := by
    rw [hJ, normalizeString_of_no_dotDot _ _ hJdd, List.filter_append, hdir, hroot,
      List.filter_cons]
    simp [publicName]
  have hjoin : joinSegments (dsegs ++ publicName ::
      X.filter (fun seg => decide (seg ≠ [] ∧ seg ≠ [46]))) ≠ [] := by
    intro h
    have := length_le_joinSegments (dsegs ++ publicName ::
      X.filter (fun seg => decide (seg ≠ [] ∧ seg ≠ [46]))) publicName (by simp)
    rw [h] at this
    simp [publicName] at this
  refine ⟨X.filter (fun seg => decide (seg ≠ [] ∧ seg ≠ [46])),
    if (dirname ++ 47 :: publicName ++
      (if sanitisedPath url = [] then [] else 47 :: sanitisedPath url)).getLast? = some 47
    then [47] else [], fun seg hseg => ?_, ?_, ?_⟩
  · obtain ⟨hmem, hkeep⟩ := List.mem_filter.mp hseg
    have hk : seg ≠ [] ∧ seg ≠ [46] := of_decide_eq_true hkeep
    exact ⟨hk.1, hk.2, fun h => hXdd (h ▸ hmem), hXslash seg hmem⟩
  · split_ifs <;> simp
  · unfold fullPath pathJoin
    rw [normalize_of_ne_nil _ hJne, hN, if_neg hjoin, if_pos hhead]
    rfl

/-- Witness for C25: the server runs in `/app/server` and the request URL is
`/../../etc/passwd`; the file looked up is `/app/server/public/etc/passwd`. -/
theorem static_path_inside_public_witness :
    fullPath (47 :: joinSegments serverDirSegments) traversalUrl = servedPath ∧
    (dotDot ∉ splitSegments (sanitisedPath traversalUrl) ∧
      ∃ rest trailing,
        (∀ seg ∈ rest, seg ≠ [] ∧ seg ≠ [46] ∧ seg ≠ dotDot ∧ 47 ∉ seg) ∧
        (trailing = [] ∨ trailing = [47]) ∧
        fullPath (47 :: joinSegments serverDirSegments) traversalUrl =
          47 :: joinSegments (serverDirSegments ++ publicName :: rest) ++ trailing) :=
  ⟨by decide,
    static_path_inside_public (47 :: joinSegments serverDirSegments) traversalUrl
      serverDirSegments rfl (by decide)⟩


/-- C26 (the code at the failing input).  Controller 0 of `erroredController`
was removed from the registry by the `error` handler.  Its `setPairingCode`
frame is then answered by no frame and leaves the registry as it was, but the
pairing store gains the entry of session `s9`, and the remote 2 can
authenticate into `s9` with that code. -/
theorem unregistered_setPairingCode_writes_store :
    Reachable erroredController ∧
      mapGet erroredController.clients 0 = none ∧
      Event.enabled erroredController
        (.message allOpen 0 (.value (setPairingCodeMsg (.string "s9") (.string "135790")))) =
        true ∧
      erroredController.sessionCodes = [(.string "s1", .string "482913")] ∧
      (onMessage allOpen erroredController 0
        (.value (setPairingCodeMsg (.string "s9") (.string "135790")))).2 = [] ∧
      (onMessage allOpen erroredController 0
        (.value (setPairingCodeMsg (.string "s9") (.string "135790")))).1.clients =
        erroredController.clients ∧
      (onMessage allOpen erroredController 0
        (.value (setPairingCodeMsg (.string "s9") (.string "135790")))).1.sessionCodes =
        [(.string "s1", .string "482913"), (.string "s9", .string "135790")] ∧
      mapGet (onMessage allOpen
        (onMessage allOpen erroredController 0
          (.value (setPairingCodeMsg (.string "s9") (.string "135790")))).1
        2 (.value (authMsg (.string "135790")))).1.clients 2 =
        some { type := .string "mobile", alive := true, authenticated := true,
               sessionId := .string "s9" } :=
  ⟨Reachable.run Reachable.empty erroredControllerEvents (by decide), by decide, by decide,
    by decide, by decide, by decide, by decide, by decide⟩

/-- C27 (amended).  When the close of a registered connection of type
`extension` is handled, in any state, and the session id that the registry
holds for it is truthy, the pairing store afterwards is the store before the
close without the entry of that session id: that entry is gone and every other
entry, written by this connection or not, is kept; when that session id is
falsy the store is unchanged.  The connection leaves the registry.  The
registry holds one session id per connection, so when the close follows a
`setPairingCode` for a truthy session id `S` the store is the one before the
message without the entry of `S`. -/
theorem close_purges_current_session (st : Relay) (ws : Nat) (info : ClientInfo)
    (hget : mapGet st.clients ws = some info) (hrole : info.type = .string "extension") :
    (info.sessionId.truthy = true →
        (onClose st ws).sessionCodes = mapDelete st.sessionCodes info.sessionId ∧
        mapGet (onClose st ws).sessionCodes info.sessionId = none ∧
        ∀ k, k ≠ info.sessionId →
          mapGet (onClose st ws).sessionCodes k = mapGet st.sessionCodes k) ∧
      (info.sessionId.truthy = false → (onClose st ws).sessionCodes = st.sessionCodes) ∧
      mapGet (onClose st ws).clients ws = none ∧
      ∀ (readyState : Nat → Nat) (m : Message), m.get "type" = .string "setPairingCode" →
        (m.get "sessionId").truthy = true →
        (onClose (onMessage readyState st ws (.value m)).1 ws).sessionCodes =
          mapDelete st.sessionCodes (m.get "sessionId") := by
  refine ⟨fun hS => ?_, fun hS => ?_, ?_, fun readyState m hty hS => ?_⟩
  · have hcodes : (onClose st ws).sessionCodes = mapDelete st.sessionCodes info.sessionId := by
      simp only [onClose, hget, hS, hrole, decide_True, Bool.and_self, if_true]
    refine ⟨hcodes, hcodes ▸ mapGet_mapDelete_self _ _, fun k hk => ?_⟩
    rw [hcodes, mapGet_mapDelete, if_neg (fun h => hk h.symm)]
  · simp [onClose, hget, hS]
  · exact mapGet_mapDelete_self _ _
  · simp only [onMessage, hget, hty, if_true, onClose, mapGet_mapSet_self, hS, hrole,
      decide_True, Bool.and_self]
    exact mapDelete_mapSet _ _ _

/-- Witness for C27 (amended): controller 0 of `twoSessionsOneController`, whose
session id is `s2`, closes; the entry of `s2` goes and the entry of `s1` is
kept. -/
theorem close_purges_current_session_witness :
    (onClose twoSessionsOneController 0).sessionCodes = [(.string "s1", .string "111111")] ∧
    ((JsValue.truthy (.string "s2") = true →
        (onClose twoSessionsOneController 0).sessionCodes =
          mapDelete twoSessionsOneController.sessionCodes (.string "s2") ∧
        mapGet (onClose twoSessionsOneController 0).sessionCodes (.string "s2") = none ∧
        ∀ k, k ≠ JsValue.string "s2" →
          mapGet (onClose twoSessionsOneController 0).sessionCodes k =
            mapGet twoSessionsOneController.sessionCodes k) ∧
      (JsValue.truthy (.string "s2") = false →
        (onClose twoSessionsOneController 0).sessionCodes =
          twoSessionsOneController.sessionCodes) ∧
      mapGet (onClose twoSessionsOneController 0).clients 0 = none ∧
      ∀ (readyState : Nat → Nat) (m : Message), m.get "type" = .string "setPairingCode" →
        (m.get "sessionId").truthy = true →
        (onClose (onMessage readyState twoSessionsOneController 0 (.value m)).1 0).sessionCodes =
          mapDelete twoSessionsOneController.sessionCodes (m.get "sessionId")) :=
  ⟨by decide,
    close_purges_current_session twoSessionsOneController 0
      { type := .string "extension", alive := true, authenticated := true,
        sessionId := .string "s2" }
      (by decide) rfl⟩

/-- C27 (counterexample).  Controller 0, of type `extension`, has set codes
for `s1` and then for `s2`, and no other connection exists.  After its close
the pairing store still holds the entry of `s1`. -/
theorem close_purges_current_session_counterexample :
    Reachable twoSessionsOneController ∧
      mapGet twoSessionsOneController.clients 0 =
        some { type := .string "extension", alive := true, authenticated := true,
               sessionId := .string "s2" } ∧
      twoSessionsOneController.sessionCodes =
        [(.string "s1", .string "111111"), (.string "s2", .string "222222")] ∧
      (onClose twoSessionsOneController 0).clients = [] ∧
      (onClose twoSessionsOneController 0).sessionCodes =
        [(.string "s1", .string "111111")] :=
  ⟨Reachable.run Reachable.empty twoSessionsOneControllerEvents (by decide), by decide,
    by decide, by decide, by decide⟩


/-- C28.  Routing does not look at the role of the sender: in a state with
well-formed maps, two authenticated senders with the same session id, whatever
their types, produce the same sends for the same `touch`, `browser`,
`openKeyboard` or `closeKeyboard` message, every send carrying the message
itself; changing the type of the sender changes no recipient other than the
sender; and a `touch` message from an authenticated sender of type `extension`
with an open transport is sent back to that sender. -/
theorem routing_ignores_sender_role (readyState : Nat → Nat) (st : Relay) (ws1 ws2 : Nat)
    (m : Message) (info1 info2 : ClientInfo)
    (hget1 : mapGet st.clients ws1 = some info1) (hget2 : mapGet st.clients ws2 = some info2)
    (hauth1 : info1.authenticated = true) (hauth2 : info2.authenticated = true)
    (hsid : info1.sessionId = info2.sessionId)
    (hty : m.get "type" = .string "touch" ∨ m.get "type" = .string "browser" ∨
      m.get "type" = .string "openKeyboard" ∨ m.get "type" = .string "closeKeyboard") :
    (onMessage readyState st ws1 (.value m)).2 = (onMessage readyState st ws2 (.value m)).2 ∧
      (∀ e ∈ (onMessage readyState st ws1 (.value m)).2,
        ∃ c, e = Effect.send c (Payload.forwarded m)) ∧
      (∀ (T : JsValue) (c : Nat), c ≠ ws1 →
        (Effect.send c (Payload.forwarded m) ∈
            (onMessage readyState
              { st with clients := mapSet st.clients ws1 { info1 with type := T } }
              ws1 (.value m)).2 ↔
          Effect.send c (Payload.forwarded m) ∈ (onMessage readyState st ws1 (.value m)).2)) ∧
      (m.get "type" = .string "touch" → info1.type = .string "extension" →
        readyState ws1 = 1 →
        Effect.send ws1 (Payload.forwarded m) ∈ (onMessage readyState st ws1 (.value m)).2) := by
  have h1 := onMessage_forward_effects readyState st ws1 m info1 hget1 hty
  have h2 := onMessage_forward_effects readyState st ws2 m info2 hget2 hty
  rw [if_pos hauth1] at h1
  rw [if_pos hauth2, ← hsid] at h2
  refine ⟨h1.trans h2.symm, fun e he => broadcast_sends _ _ _ _ _ e (h1 ▸ he), ?_, ?_⟩
  · intro T c hc
    have hgetT : mapGet ({ st with clients := mapSet st.clients ws1 { info1 with type := T } } :
        Relay).clients ws1 = some { info1 with type := T } := mapGet_mapSet_self _ _ _
    have hT := onMessage_forward_effects readyState _ ws1 m _ hgetT hty
    rw [if_pos hauth1] at hT
    rw [hT, h1]
    simp only [mem_broadcast, mem_mapSet_ne _ _ _ _ _ hc]
  · intro htouch hrole hopen
    rw [h1, mem_broadcast]
    exact ⟨rfl, info1, mem_of_mapGet _ _ _ hget1, by simp [htouch, hrole], hauth1, rfl, hopen⟩

/-- Witness for C28: in `pairedSetup` the pointer movement sent by controller 0
and the one sent by the remote 2, both in session `s1`, reach the same
sockets, controller 0 included. -/
theorem routing_ignores_sender_role_witness :
    (onMessage allOpen pairedSetup 0 (.value touchMoveMsg)).2 =
        [Effect.send 0 (Payload.forwarded touchMoveMsg),
         Effect.send 3 (Payload.forwarded touchMoveMsg)] ∧
    ((onMessage allOpen pairedSetup 0 (.value touchMoveMsg)).2 =
        (onMessage allOpen pairedSetup 2 (.value touchMoveMsg)).2 ∧
      (∀ e ∈ (onMessage allOpen pairedSetup 0 (.value touchMoveMsg)).2,
        ∃ c, e = Effect.send c (Payload.forwarded touchMoveMsg)) ∧
      (∀ (T : JsValue) (c : Nat), c ≠ 0 →
        (Effect.send c (Payload.forwarded touchMoveMsg) ∈
            (onMessage allOpen
              { pairedSetup with
                clients := mapSet pairedSetup.clients 0
                  { type := T, alive := true, authenticated := true,
                    sessionId := .string "s1" } }
              0 (.value touchMoveMsg)).2 ↔
          Effect.send c (Payload.forwarded touchMoveMsg) ∈
            (onMessage allOpen pairedSetup 0 (.value touchMoveMsg)).2)) ∧
      (touchMoveMsg.get "type" = .string "touch" →
        JsValue.string "extension" = .string "extension" → allOpen 0 = 1 →
        Effect.send 0 (Payload.forwarded touchMoveMsg) ∈
          (onMessage allOpen pairedSetup 0 (.value touchMoveMsg)).2)) :=
  ⟨by decide,
    routing_ignores_sender_role allOpen pairedSetup 0 2 touchMoveMsg
      { type := .string "extension", alive := true, authenticated := true,
        sessionId := .string "s1" }
      { type := .string "mobile", alive := true, authenticated := true,
        sessionId := .string "s1" }
      (by decide) (by decide) rfl rfl rfl (Or.inl (by decide))⟩


/-- C29 (the code at the failing input).  The field holds `abc` with the caret
before the first character and `X` is typed: `simulateTyping` leaves `abcX`
with the caret at 4, where replacing the selection at the caret gives `Xabc`
with the caret at 1. -/
theorem typing_at_start_appends :
    simulateTyping caretAtStart [88] =
        { value := [97, 98, 99, 88], selectionStart := some 4, selectionEnd := some 4 } ∧
      caretAtStart.value.take 0 ++ [88] ++ caretAtStart.value.drop 0 = [88, 97, 98, 99] ∧
      (simulateTyping caretAtStart [88]).value ≠
        caretAtStart.value.take 0 ++ [88] ++ caretAtStart.value.drop 0 :=
  ⟨by decide, by decide, by decide⟩

/-- C30.  Tab switching: with `n ≥ 1` tabs and the active tab at index `i`,
`0 ≤ i < n`, the targets of `nexttab` and `prevtab` are indices in `[0, n)`,
and each command undoes the other. -/
theorem tab_switch_inverse (i n : Int) (hn : 1 ≤ n) (hi : 0 ≤ i) (hin : i < n) :
    (0 ≤ nextIndex i n ∧ nextIndex i n < n) ∧
      (0 ≤ prevIndex i n ∧ prevIndex i n < n) ∧
      prevIndex (nextIndex i n) n = i ∧
      nextIndex (prevIndex i n) n = i := by
  have hnext := nextIndex_eq i n hi hin
  have hprev := prevIndex_eq i n hi hin
  have hnb : 0 ≤ nextIndex i n ∧ nextIndex i n < n := by
    rw [hnext]
    split <;> omega
  have hpb : 0 ≤ prevIndex i n ∧ prevIndex i n < n := by
    rw [hprev]
    split <;> omega
  refine ⟨hnb, hpb, ?_, ?_⟩
  · rw [prevIndex_eq _ n hnb.1 hnb.2, hnext]
    split_ifs <;> omega
  · rw [nextIndex_eq _ n hpb.1 hpb.2, hprev]
    split_ifs <;> omega

/-- Witness for C30: three tabs, the last one active. -/
theorem tab_switch_inverse_witness :
    (0 ≤ nextIndex 2 3 ∧ nextIndex 2 3 < 3) ∧
      (0 ≤ prevIndex 2 3 ∧ prevIndex 2 3 < 3) ∧
      prevIndex (nextIndex 2 3) 3 = 2 ∧
      nextIndex (prevIndex 2 3) 3 = 2 :=
  tab_switch_inverse 2 3 (by decide) (by decide) (by decide)


end TouchpadRelay

